import Mathlib

/-!
# docker-psa: the presentation engine of `cmd/main.go`

A shallow embedding of the formatting and filtering functions of `cmd/main.go`
and the properties proved about them.

Conventions of the embedding.

* A Go `string` is a Lean `String`; the functions of package `strings` are
  defined on the list of characters.  Status, name and image strings reach the
  program through the JSON decoder, which yields valid UTF-8, and on valid
  UTF-8 the byte-wise searches of Go agree with character-wise searches.
* `lipgloss` styling is not part of the repository: a style is a tag of type
  `Style`, and rendering is a function `R : Style → String → String` that every
  formatting function receives as its first argument.
* `time.Duration` is an `Int` count of nanoseconds and a `time.Time` an `Int`
  count of nanoseconds since the Unix epoch.  `Duration.Hours`,
  `Duration.Minutes` and `Duration.Seconds` return `float64` in Go: they are
  computed here in binary64 arithmetic (`F64`: every conversion, sum and
  quotient is rounded to 53 bits, to nearest, ties to even), and `int(...)` is
  the truncation of that value.  `time.Since(t)` is `now - t` for a clock
  reading `now` given as an argument, saturated at the ends of the `int64`
  range as `Time.Sub` does; `Duration.Round` saturates likewise.  The argument
  of `formatDuration` is an `Int`: on an integer outside the range of `int64`,
  which no `Duration` is, its counts are the exact quotients.
* `sort.Slice` and package `regexp` are library code: they are arguments of the
  functions that call them, constrained by what their documentation states.
  Section "Package `sort`" ports `sort.Slice` itself, to show what the library
  does on a concrete slice.
* A loop that appends to a slice is a recursive function with the slice as an
  accumulator; a Go map used as a set is the list of its keys.
* What the program prints on its output stream is the list of its prints
  (`OutLine`): an empty `fmt.Println()`, the divider, a line of text, or the
  clear-screen sequence; the error stream is a list of strings.  A run that
  panics ends where it panics, with what it has printed
  (`Printed.completed = false`): in the slice expression `c.ID[:12]` on an id
  shorter than 12 bytes, and in `c.NetworkSettings.Networks` or
  `netConfig.IPAddress` on a nil pointer.  The iteration over the map
  `NetworkSettings.Networks` follows the order of the list of its entries.
* `watchContainers` is a state machine: the list `events` gives what the
  successive `select`s of the loop receive, and `inputs k` what the `k`-th cycle
  obtains from the clock and from `cli.ContainerList`.
-/

namespace DockerPsa

/-! ## Package `strings` -/

namespace strings

/-- White space in the sense of Go's `unicode.IsSpace`: the Latin-1 spaces
`\t \n \v \f \r`, space, U+0085, U+00A0, and the code points of category Z. -/
def isSpace (c : Char) : Bool :=
  let n := c.toNat
  (9 ≤ n && n ≤ 13) || n == 32 || n == 0x85 || n == 0xA0 || n == 0x1680 ||
    (0x2000 ≤ n && n ≤ 0x200A) || n == 0x2028 || n == 0x2029 || n == 0x202F ||
    n == 0x205F || n == 0x3000

/-- Leading white space removed. -/
def trimLeft (s : List Char) : List Char := s.dropWhile isSpace

/-- Trailing white space removed. -/
def trimRight (s : List Char) : List Char := (s.reverse.dropWhile isSpace).reverse

/-- Go's `strings.TrimSpace`: all leading and trailing white space removed. -/
def TrimSpace (s : String) : String := ⟨trimRight (trimLeft s.data)⟩

/-- Go's `strings.HasPrefix`. -/
def HasPrefix (s pre : String) : Bool := pre.data.isPrefixOf s.data

/-- Whether `sub` occurs in the list at some position (`strings.Index ≥ 0`). -/
def hasInfix (sub : List Char) : List Char → Bool
  | [] => sub.isPrefixOf []
  | c :: cs => sub.isPrefixOf (c :: cs) || hasInfix sub cs

/-- Go's `strings.Contains`. -/
def Contains (s substr : String) : Bool := hasInfix substr.data s.data

/-- The loop of `strings.Split` for a non-empty separator: scan from the left,
cut at each leftmost occurrence of `sep` and resume after it.  `cur` is the
piece being collected (reversed), `skip` the number of characters of a
separator just matched that are still to be passed over. -/
def splitGo (sep : List Char) : List Char → List Char → Nat → List (List Char)
  | [], cur, _ => [cur.reverse]
  | _ :: cs, cur, skip + 1 => splitGo sep cs cur skip
  | c :: cs, cur, 0 =>
    if sep.isPrefixOf (c :: cs) then cur.reverse :: splitGo sep cs [] (sep.length - 1)
    else splitGo sep cs (c :: cur) 0

/-- Go's `strings.Split` (for a non-empty separator, the only use in the program). -/
def Split (s sep : String) : List String := (splitGo sep.data s.data [] 0).map String.mk

/-- Go's `strings.Join`. -/
def Join (elems : List String) (sep : String) : String := sep.intercalate elems

/-- The part of a list of characters before the first occurrence of `sep`
(the whole list when `sep` does not occur). -/
def beforeFirst (sep : List Char) : List Char → List Char
  | [] => []
  | c :: cs => if sep.isPrefixOf (c :: cs) then [] else c :: beforeFirst sep cs

/-- The substring of `s` before the first occurrence of `sep`. -/
def substringBefore (s sep : String) : String := ⟨beforeFirst sep.data s.data⟩

end strings

/-! ## Styles -/

/-- The style values declared at the top of `main.go`. -/
inductive Style where
  | boldStyle | dimStyle | containerIDStyle | nameStyle | imageStyle | commandStyle
  | runningStyle | stoppedStyle | createdStyle | unhealthyStyle | restartingStyle
  | portPublicStyle
  deriving DecidableEq, Repr

/-- A marker followed by a piece of text to render in a style (`none`: the text
is emitted as it is). The string it stands for is `marker ++ render text`. -/
structure Styled where
  marker : String
  style : Option Style
  text : String
  deriving DecidableEq, Repr

/-- The string a `Styled` value stands for, under the renderer `R`. -/
def Styled.render (R : Style → String → String) (v : Styled) : String :=
  match v.style with
  | some st => v.marker ++ R st v.text
  | none => v.marker ++ v.text

/-! ## `formatStatus` -/

/-- Marker of an unhealthy container (orange heart in the source file). -/
def unhealthyMarker : String := "ðŸ§¡ "
/-- Marker of a healthy container (green heart in the source file). -/
def healthyMarker : String := "ðŸ’š "
/-- Marker of a running container without health information. -/
def runningMarker : String := "ðŸŸ¢ "
/-- Marker of an exited container. -/
def stoppedMarker : String := "ðŸ”´ "
/-- Marker of a created container. -/
def createdMarker : String := "ðŸŸ¡ "
/-- Marker of a restarting container. -/
def restartingMarker : String := "ðŸ”¥ "

/-- The body of `formatStatus`: each `return m + style.Render(t)` of the source
is the value `⟨m, some style, t⟩`, the final `return status` is `⟨"", none, status⟩`. -/
def formatStatusParts (status : String) (extractUptime : Bool) : Styled :=
  let status := strings.TrimSpace status
  if extractUptime then
    if strings.HasPrefix status "Up" then
      if strings.Contains status "healthy" then
        let uptime := (strings.Split status " (").headD ""
        if strings.Contains status "unhealthy" then
          ⟨unhealthyMarker, some Style.unhealthyStyle, uptime⟩
        else
          ⟨healthyMarker, some Style.runningStyle, uptime⟩
      else
        ⟨runningMarker, some Style.runningStyle, status⟩
    else if strings.HasPrefix status "Exited" then
      ⟨stoppedMarker, some Style.stoppedStyle, status⟩
    else if strings.HasPrefix status "Created" then
      ⟨createdMarker, some Style.createdStyle, status⟩
    else if strings.HasPrefix status "Restarting" then
      ⟨restartingMarker, some Style.restartingStyle, status⟩
    else
      ⟨"", none, status⟩
  else
    if strings.HasPrefix status "Up" then
      if strings.Contains status "healthy" then
        if strings.Contains status "unhealthy" then
          ⟨unhealthyMarker, some Style.unhealthyStyle, status⟩
        else
          ⟨healthyMarker, some Style.runningStyle, status⟩
      else
        ⟨runningMarker, some Style.runningStyle, status⟩
    else if strings.HasPrefix status "Exited" then
      ⟨stoppedMarker, some Style.stoppedStyle, status⟩
    else if strings.HasPrefix status "Created" then
      ⟨createdMarker, some Style.createdStyle, status⟩
    else if strings.HasPrefix status "Restarting" then
      ⟨restartingMarker, some Style.restartingStyle, status⟩
    else
      ⟨"", none, status⟩

/-- The function `formatStatus` of `main.go`. -/
def formatStatus (R : Style → String → String) (status : String) (extractUptime : Bool) :
    String :=
  (formatStatusParts status extractUptime).render R

/-- The semantic categories of a status. -/
inductive Category where
  | Running | Healthy | Unhealthy | Stopped | Created | Restarting | Unknown
  deriving DecidableEq, Repr

/-- The category a result of `formatStatus` belongs to, read off its marker;
a result without marker is `Unknown`. -/
def Styled.category (v : Styled) : Category :=
  if v.marker = healthyMarker then Category.Healthy
  else if v.marker = unhealthyMarker then Category.Unhealthy
  else if v.marker = runningMarker then Category.Running
  else if v.marker = stoppedMarker then Category.Stopped
  else if v.marker = createdMarker then Category.Created
  else if v.marker = restartingMarker then Category.Restarting
  else Category.Unknown

/-! ## Port formatting -/

/-- Go's `fmt.Sprintf("%d", n)` for an unsigned value. -/
def fmtNat (n : Nat) : String := Nat.repr n

/-- Go's `fmt.Sprintf("%d", n)` for a signed value. -/
def fmtInt (n : Int) : String := toString n

/-- The port type of the Docker API (`container.Port`); the two port numbers are
`uint16` in Go. -/
structure Port where
  IP : String
  PrivatePort : Nat
  PublicPort : Nat
  PortType : String
  deriving DecidableEq, Repr

/-- The loop of `formatPortsMultiLine`. `portStrings` is the slice built so far,
`seen` holds the keys `k` with `seen[k] == true`. -/
def formatPortsMultiLineLoop (R : Style → String → String) :
    List Port → List String → List String → List String
  | [], portStrings, _ => portStrings
  | p :: ps, portStrings, seen =>
    let key := fmtNat p.PublicPort ++ ":" ++ fmtNat p.PrivatePort
    if key ∈ seen then
      formatPortsMultiLineLoop R ps portStrings seen
    else
      let seen := key :: seen
      if p.PublicPort ≠ 0 then
        if p.PublicPort = p.PrivatePort then
          formatPortsMultiLineLoop R ps
            (portStrings ++ [R Style.portPublicStyle (fmtNat p.PublicPort)]) seen
        else
          formatPortsMultiLineLoop R ps
            (portStrings ++ [R Style.portPublicStyle (fmtNat p.PublicPort) ++ ":" ++
              R Style.dimStyle (fmtNat p.PrivatePort)]) seen
      else
        formatPortsMultiLineLoop R ps (portStrings ++ [fmtNat p.PrivatePort]) seen

/-- The function `formatPortsMultiLine` of `main.go` (compact port format). -/
def formatPortsMultiLine (R : Style → String → String) (ports : List Port) : String :=
  if ports.length = 0 then ""
  else strings.Join (formatPortsMultiLineLoop R ports [] []) ", "

/-- The loop of `formatPortsVerbose`; `portStrings` is the slice built so far. -/
def formatPortsVerboseLoop (R : Style → String → String) :
    List Port → List String → List String
  | [], portStrings => portStrings
  | p :: ps, portStrings =>
    if p.PublicPort ≠ 0 then
      formatPortsVerboseLoop R ps
        (portStrings ++ [R Style.portPublicStyle (fmtNat p.PublicPort) ++ ":" ++
          fmtNat p.PrivatePort ++ "/" ++ p.PortType])
    else
      formatPortsVerboseLoop R ps (portStrings ++ [fmtNat p.PrivatePort ++ "/" ++ p.PortType])

/-- The function `formatPortsVerbose` of `main.go` (detailed port format). -/
def formatPortsVerbose (R : Style → String → String) (ports : List Port) : String :=
  if ports.length = 0 then ""
  else strings.Join (formatPortsVerboseLoop R ports []) ", "

/-- The deduplication key of the specification: the pair of port numbers. -/
def portPair (p : Port) : Nat × Nat := (p.PublicPort, p.PrivatePort)

/-- Specification of the deduplication: the first occurrence of each pair wins,
later ports with the same pair are dropped, the order is kept. -/
def keepFirstByPair : List Port → List Port
  | [] => []
  | p :: ps => p :: (keepFirstByPair ps).filter (fun q => decide (portPair q ≠ portPair p))

/-- Specification of one compact entry. -/
def compactEntry (R : Style → String → String) (p : Port) : String :=
  if p.PublicPort = 0 then fmtNat p.PrivatePort
  else if p.PublicPort = p.PrivatePort then R Style.portPublicStyle (fmtNat p.PublicPort)
  else R Style.portPublicStyle (fmtNat p.PublicPort) ++ ":" ++
    R Style.dimStyle (fmtNat p.PrivatePort)

/-- Specification of one detailed entry. -/
def verboseEntry (R : Style → String → String) (p : Port) : String :=
  if p.PublicPort ≠ 0 then
    R Style.portPublicStyle (fmtNat p.PublicPort) ++ ":" ++ fmtNat p.PrivatePort ++ "/" ++
      p.PortType
  else fmtNat p.PrivatePort ++ "/" ++ p.PortType

/-! ## Package `math/bits` -/

/-- The number of binary digits of `n`; `fuel` bounds the number of halvings. -/
def bits.LenAux : Nat → Nat → Nat
  | 0, _ => 0
  | fuel + 1, n => if n = 0 then 0 else bits.LenAux fuel (n / 2) + 1

/-- Go's `bits.Len`: the number of binary digits of `n`, 0 for `n = 0`. -/
def bits.Len (n : Nat) : Nat := bits.LenAux n n

/-! ## Container records and their ordering -/

/-- A mount of a container (`container.MountPoint`); `MountType` is the field
`Type` of the Docker API. -/
structure MountPoint where
  MountType : String
  Name : String
  Source : String
  Destination : String
  deriving DecidableEq, Repr

/-- A container record of the Docker API (`container.Summary`), with the fields
the program reads. `Created` is in seconds since the Unix epoch.
`NetworkSettings` is a pointer in the Docker API: `none` is the nil pointer, and
`some entries` gives the entries of the map `NetworkSettings.Networks` in the
order in which the iteration yields them, each a network name with the
`IPAddress` of the endpoint settings it points to, or `none` when that pointer
is nil. -/
structure Summary where
  ID : String
  Names : List String
  Image : String
  Command : String
  Created : Int
  Ports : List Port
  Status : String
  NetworkSettings : Option (List (String × Option String))
  Mounts : List MountPoint
  deriving DecidableEq, Repr

/-- Go's `time.Unix(sec, nsec)`; a point in time is a count of nanoseconds
since the Unix epoch. -/
def timeUnix (sec nsec : Int) : Int := sec * 1000000000 + nsec

/-- The type `ContainerInfo` of `main.go`: a record with its creation time. -/
structure ContainerInfo extends Summary where
  CreatedTime : Int
  deriving DecidableEq, Repr

/-- The first loop of `printContainersMultiline`: one `ContainerInfo` per record. -/
def containerInfosOf (containers : List Summary) : List ContainerInfo :=
  containers.map (fun c => { toSummary := c, CreatedTime := timeUnix c.Created 0 })

/-- The `less` function given to `sort.Slice`:
`containerInfos[i].CreatedTime.After(containerInfos[j].CreatedTime)`. -/
def createdAfter (a b : ContainerInfo) : Bool := decide (a.CreatedTime > b.CreatedTime)

/-- A strict weak ordering, the requirement of package `sort` on `less`. -/
def StrictWeakOrder {α : Type} (less : α → α → Bool) : Prop :=
  (∀ a b, less a b = true → less b a = false) ∧
  (∀ a b c, less a b = false → less b c = false → less a c = false)

/-- The contract of Go's `sort.Slice`, which is not part of the repository, as
the documentation of package `sort` gives it: for a `less` that is a strict weak
ordering the result is a rearrangement of the slice in which no element is
`less` than an earlier one. The documentation adds that the sort is not
guaranteed to be stable, so the contract says nothing on equal elements. -/
def SortSliceContract
    (sortSlice : (ContainerInfo → ContainerInfo → Bool) → List ContainerInfo →
      List ContainerInfo) : Prop :=
  ∀ less xs, StrictWeakOrder less →
    (sortSlice less xs).Perm xs ∧ (sortSlice less xs).Pairwise (fun a b => less b a = false)

/-- The slice `containerInfos` of `printContainersMultiline` after the call of
`sort.Slice`: the order in which the records are printed. -/
def sortedContainerInfos
    (sortSlice : (ContainerInfo → ContainerInfo → Bool) → List ContainerInfo →
      List ContainerInfo)
    (containers : List Summary) : List ContainerInfo :=
  sortSlice createdAfter (containerInfosOf containers)

/-- A sorting function that meets the contract of `sort.Slice` without being
stable: insertion sort of the reversed slice. -/
def reversingSort (less : ContainerInfo → ContainerInfo → Bool) (xs : List ContainerInfo) :
    List ContainerInfo :=
  List.insertionSort (fun a b => less b a = false) xs.reverse

namespace sort

variable {α : Type}

end sort

/-- A finite binary64 number, the value `m * 2 ^ e`. Only the 53 bits of
precision are modelled, not the range of the exponent: the program divides and
adds numbers between `2 ^ (-42)` and `2 ^ 34`, far from overflow and from the
subnormal numbers. -/
structure F64 where
  m : Int
  e : Int
  deriving DecidableEq, Repr

namespace F64

/-- The integer part of the binary logarithm of `a / b`, for positive `a` and `b`. -/
def ilog2 (a b : Nat) : Int :=
  let la := bits.Len a
  let lb := bits.Len b
  if b * 2 ^ la ≤ a * 2 ^ lb then (la : Int) - lb else (la : Int) - lb - 1

/-- The integer nearest to `N / D`, the even one of the two when it lies
halfway between two integers. -/
def roundHalfEven (N D : Nat) : Nat :=
  let q := N / D
  let r := N % D
  if 2 * r < D then q else if D < 2 * r then q + 1 else if q % 2 = 0 then q else q + 1

/-- The binary64 number nearest to `(a / b) * 2 ^ k`, ties to even: the
quotient is scaled by the power of two that brings it into `[2 ^ 52, 2 ^ 53)` and
rounded to an integer there. -/
def roundNat (a b : Nat) (k : Int) : F64 :=
  if a = 0 then ⟨0, 0⟩
  else
    let e := ilog2 a b - 52
    let m :=
      if 0 ≤ e then roundHalfEven a (b * 2 ^ e.toNat)
      else roundHalfEven (a * 2 ^ (-e).toNat) b
    ⟨m, e + k⟩

/-- The binary64 number nearest to `(a / b) * 2 ^ k` for an integer `a`. -/
def round (a : Int) (b : Nat) (k : Int) : F64 :=
  if a < 0 then ⟨-(roundNat a.natAbs b k).m, (roundNat a.natAbs b k).e⟩
  else roundNat a.natAbs b k

/-- The conversion `float64(n)` of an integer. -/
def ofInt (n : Int) : F64 := round n 1 0

/-- The sum `x + y` of binary64 arithmetic: the exact sum, rounded. -/
def add (x y : F64) : F64 :=
  let e := min x.e y.e
  round (x.m * 2 ^ (x.e - e).toNat + y.m * 2 ^ (y.e - e).toNat) 1 e

/-- The quotient `x / y` of binary64 arithmetic, for `y` other than zero: the
exact quotient, rounded. -/
def div (x y : F64) : F64 :=
  round (x.m * y.m.sign) y.m.natAbs (x.e - y.e)

/-- The conversion `int(x)`: the integer part, towards zero. -/
def toInt (x : F64) : Int :=
  if 0 ≤ x.e then x.m * 2 ^ x.e.toNat else x.m.tdiv (2 ^ (-x.e).toNat)

end F64

/-! ## Durations and relative time -/

/-- Go's `time.Second`, in nanoseconds. -/
def Second : Int := 1000000000
/-- Go's `time.Minute`. -/
def Minute : Int := 60 * Second
/-- Go's `time.Hour`. -/
def Hour : Int := 60 * Minute

/-- The largest value of the type `time.Duration`, an `int64`. -/
def maxDuration : Int := 9223372036854775807
/-- The smallest value of the type `time.Duration`. -/
def minDuration : Int := -9223372036854775808

/-- Go's `Duration.Hours`:
`hour := d / Hour; nsec := d % Hour; return float64(hour) + float64(nsec)/(60*60*1e9)`. -/
def Duration.Hours (d : Int) : F64 :=
  let hour := d.tdiv Hour
  let nsec := d.tmod Hour
  F64.add (F64.ofInt hour) (F64.div (F64.ofInt nsec) (F64.ofInt 3600000000000))

/-- Go's `Duration.Minutes`:
`min := d / Minute; nsec := d % Minute; return float64(min) + float64(nsec)/(60*1e9)`. -/
def Duration.Minutes (d : Int) : F64 :=
  let min := d.tdiv Minute
  let nsec := d.tmod Minute
  F64.add (F64.ofInt min) (F64.div (F64.ofInt nsec) (F64.ofInt 60000000000))

/-- Go's `Duration.Seconds`:
`sec := d / Second; nsec := d % Second; return float64(sec) + float64(nsec)/1e9`. -/
def Duration.Seconds (d : Int) : F64 :=
  let sec := d.tdiv Second
  let nsec := d.tmod Second
  F64.add (F64.ofInt sec) (F64.div (F64.ofInt nsec) (F64.ofInt 1000000000))

/-- The expression `int(d.Hours())`. -/
def intHours (d : Int) : Int := F64.toInt (Duration.Hours d)
/-- The expression `int(d.Minutes())`. -/
def intMinutes (d : Int) : Int := F64.toInt (Duration.Minutes d)
/-- The expression `int(d.Seconds())`. -/
def intSeconds (d : Int) : Int := F64.toInt (Duration.Seconds d)
/-- The expression `int(d.Hours() / 24)`. -/
def intDays (d : Int) : Int := F64.toInt (F64.div (Duration.Hours d) (F64.ofInt 24))
/-- The expression `int(d.Hours() / 24 / 30)`. -/
def intMonths (d : Int) : Int :=
  F64.toInt (F64.div (F64.div (Duration.Hours d) (F64.ofInt 24)) (F64.ofInt 30))
/-- The expression `int(d.Hours() / 24 / 365)`. -/
def intYears (d : Int) : Int :=
  F64.toInt (F64.div (F64.div (Duration.Hours d) (F64.ofInt 24)) (F64.ofInt 365))

/-- Whether the integer `d` is a value of the type `time.Duration`. The
argument of `formatDuration` is an `Int` here; on an integer outside the range of
`int64`, which no `Duration` is and the program cannot pass, the four counts
below are the exact quotients. -/
def isDuration (d : Int) : Bool := decide (minDuration ≤ d ∧ d ≤ maxDuration)

/-- The local variable `days` of `formatDuration`: `int(d.Hours() / 24)` for a
`Duration` `d`. -/
def durationDays (d : Int) : Int :=
  if isDuration d then intDays d else d.tdiv (24 * Hour)
/-- The local variable `hours` of `formatDuration`: `int(d.Hours()) % 24` for a
`Duration` `d`. -/
def durationHours (d : Int) : Int :=
  if isDuration d then (intHours d).tmod 24 else (d.tdiv Hour).tmod 24
/-- The local variable `minutes` of `formatDuration`: `int(d.Minutes()) % 60` for
a `Duration` `d`. -/
def durationMinutes (d : Int) : Int :=
  if isDuration d then (intMinutes d).tmod 60 else (d.tdiv Minute).tmod 60
/-- The local variable `seconds` of `formatDuration`: `int(d.Seconds()) % 60` for
a `Duration` `d`. -/
def durationSeconds (d : Int) : Int :=
  if isDuration d then (intSeconds d).tmod 60 else (d.tdiv Second).tmod 60

/-- The slice `parts` that `formatDuration` builds. -/
def formatDurationParts (d : Int) : List String :=
  let days := durationDays d
  let hours := durationHours d
  let minutes := durationMinutes d
  let seconds := durationSeconds d
  let parts : List String := []
  let parts :=
    if days > 0 then
      if days = 1 then parts ++ ["1 day"] else parts ++ [fmtInt days ++ " days"]
    else parts
  let parts :=
    if hours > 0 then
      if hours = 1 then parts ++ ["1 hour"] else parts ++ [fmtInt hours ++ " hours"]
    else parts
  let parts :=
    if minutes > 0 ∧ days = 0 then
      if minutes = 1 then parts ++ ["1 minute"] else parts ++ [fmtInt minutes ++ " minutes"]
    else parts
  let parts :=
    if seconds > 0 ∧ hours = 0 ∧ days = 0 then
      if seconds = 1 then parts ++ ["1 second"] else parts ++ [fmtInt seconds ++ " seconds"]
    else parts
  parts

/-- The function `formatDuration` of `main.go`. -/
def formatDuration (d : Int) : String :=
  let parts := formatDurationParts d
  if parts.length = 0 then "Just now" else strings.Join parts ", "

/-- Specification of one part: "1 unit" for the count 1, "N units" otherwise. -/
def unitPart (n : Int) (unit : String) : String :=
  if n = 1 then "1 " ++ unit else fmtInt n ++ " " ++ unit ++ "s"

/-- Specification of `humanizeDuration` on a duration of `s` whole seconds. -/
def humanizeDurationSpec (s : Nat) : String :=
  let days := s / 86400
  let hours := (s / 3600) % 24
  let minutes := (s / 60) % 60
  let seconds := s % 60
  let shown : List String :=
    (if days > 0 then [unitPart (days : Nat) "day"] else []) ++
    (if hours > 0 then [unitPart (hours : Nat) "hour"] else []) ++
    (if minutes > 0 ∧ days = 0 then [unitPart (minutes : Nat) "minute"] else []) ++
    (if seconds > 0 ∧ hours = 0 ∧ days = 0 then [unitPart (seconds : Nat) "second"] else [])
  if shown = [] then "Just now" else ", ".intercalate shown

/-- Go's `time.Since(t)` when the clock reads `now`: the difference `now - t`,
or the largest (smallest) `Duration` when the difference is above (below) the
range of `int64`, as `Time.Sub` documents. -/
def timeSince (now t : Int) : Int :=
  if now - t > maxDuration then maxDuration
  else if now - t < minDuration then minDuration
  else now - t

/-- The function `formatCreatedTime` of `main.go`; `now` is the reading of the
clock that `time.Since` takes, `t` the creation time. -/
def formatCreatedTime (now t : Int) : String :=
  let duration := timeSince now t
  if duration < Minute then
    "Just now"
  else if duration < Hour then
    let mins := intMinutes duration
    if mins = 1 then "1 minute ago" else fmtInt mins ++ " minutes ago"
  else if duration < 24 * Hour then
    let hours := intHours duration
    if hours = 1 then "1 hour ago" else fmtInt hours ++ " hours ago"
  else if duration < 30 * 24 * Hour then
    let days := intDays duration
    if days = 1 then "Yesterday" else fmtInt days ++ " days ago"
  else if duration < 365 * 24 * Hour then
    let months := intMonths duration
    if months = 1 then "1 month ago" else fmtInt months ++ " months ago"
  else
    let years := intYears duration
    if years = 1 then "1 year ago" else fmtInt years ++ " years ago"

/-- Specification of a counted phrase: "1 unit ago" exactly when the count is 1,
"N units ago" otherwise. -/
def countAgo (n : Int) (unit : String) : String :=
  if n = 1 then "1 " ++ unit ++ " ago" else fmtInt n ++ " " ++ unit ++ "s ago"

/-- Specification of `relativeTime` on the elapsed duration `delta`
(nanoseconds), by buckets; the counts are whole minutes, whole hours and whole
days, months are whole days / 30 and years whole days / 365. -/
def relativeTimeSpec (delta : Int) : String :=
  let wholeMinutes := delta / Minute
  let wholeHours := delta / Hour
  let wholeDays := delta / (24 * Hour)
  if delta < Minute then "Just now"
  else if delta < Hour then countAgo wholeMinutes "minute"
  else if delta < 24 * Hour then countAgo wholeHours "hour"
  else if delta < 30 * (24 * Hour) then
    if wholeDays = 1 then "Yesterday" else fmtInt wholeDays ++ " days ago"
  else if delta < 365 * (24 * Hour) then countAgo (wholeDays / 30) "month"
  else countAgo (wholeDays / 365) "year"

/-! ## Filtering -/

/-- The part of package `regexp` the program uses, which is not part of the
repository: `Compile` yields a compiled expression or the text of an error,
`MatchString` tests a string against a compiled expression. -/
structure Regexp (RE : Type) where
  Compile : String → Except String RE
  MatchString : RE → String → Bool

/-- The loop that strips the leading '/' of each name (in `filterContainers` and
again in `printContainersMultiline`); `names` is the slice built so far. -/
def stripNamesLoop : List String → List String → List String
  | [], names => names
  | name :: rest, names =>
    if name.length > 0 ∧ name.data.head? = some '/' then
      stripNamesLoop rest (names ++ [⟨name.data.drop 1⟩])
    else
      stripNamesLoop rest (names ++ [name])

/-- The value of the local variable `containerName` for a record. -/
def containerName (c : Summary) : String := strings.Join (stripNamesLoop c.Names []) ", "

/-- The filtering loop of `filterContainers`; `filtered` is the slice built so far. -/
def filterLoop {RE : Type} (rx : Regexp RE) (re : RE) :
    List Summary → List Summary → List Summary
  | [], filtered => filtered
  | c :: cs, filtered =>
    if rx.MatchString re (containerName c) || rx.MatchString re c.Image then
      filterLoop rx re cs (filtered ++ [c])
    else
      filterLoop rx re cs filtered

/-- The function `filterContainers` of `main.go`. The second component is what
the call writes to the error stream. -/
def filterContainers {RE : Type} (rx : Regexp RE) (containers : List Summary)
    (pattern : String) : List Summary × List String :=
  if pattern = "" then (containers, [])
  else
    match rx.Compile pattern with
    | Except.error err =>
      (containers, ["Error compiling regex pattern '" ++ pattern ++ "': " ++ err ++ "\n"])
    | Except.ok re => (filterLoop rx re containers [], [])

/-- Specification of `displayName`: every name without its leading '/', joined
with ", ". -/
def displayName (c : Summary) : String :=
  ", ".intercalate (c.Names.map (fun name =>
    match name.data with
    | '/' :: rest => String.mk rest
    | _ => name))

/-- A stand-in for package `regexp`, for concrete evaluation: every pattern
compiles to itself and matches the strings that contain it. -/
def substringRegexp : Regexp String :=
  { Compile := fun p => Except.ok p, MatchString := fun re s => strings.Contains s re }

/-- A record with the given names and image, all other fields empty. -/
def namedRecord (names : List String) (image : String) : Summary :=
  { ID := "", Names := names, Image := image, Command := "", Created := 0, Ports := [],
    Status := "", NetworkSettings := some [], Mounts := [] }

/-! ## Auxiliary definitions used in the proofs -/

/-- The value of a decimal digit character. -/
def digitValue (c : Char) : Nat := c.toNat - 48

/-- The number a list of decimal digits denotes. -/
def decimalValue (l : List Char) : Nat := l.foldl (fun acc c => acc * 10 + digitValue c) 0

/-- The key under which `formatPortsMultiLine` records a port in `seen`. -/
def portKey (p : Port) : String := fmtNat p.PublicPort ++ ":" ++ fmtNat p.PrivatePort

/-- The rational number that a binary64 number stands for. -/
def F64.val (x : F64) : ℚ := (x.m : ℚ) * (2 : ℚ) ^ x.e

/-- A non-negative rational number is representable when it is `M * 2 ^ j` for
a natural number `M` of at most 53 bits (`2 ^ 53` itself included). -/
def F64.Rep (y : ℚ) : Prop := ∃ (M : Nat) (j : Int), M ≤ 2 ^ 53 ∧ y = (M : ℚ) * (2 : ℚ) ^ j

/-- The number `x` lies between the natural number `lo` and `hi + 1 - 2 ^ (-j)`;
for `lo = hi` its integer part is `lo`. -/
def F64.Between (x : F64) (lo hi j : Nat) : Prop :=
  (lo : ℚ) ≤ x.val ∧ x.val ≤ (hi : ℚ) + 1 - ((2 : ℚ) ^ j)⁻¹

/-! ## Rendering of the listing -/

/-- One `fmt.Print` of the program on the output stream: an empty `fmt.Println()`,
the `divider` line, a line of text, or the escape sequence that clears the
screen (written by `watchContainers` only). -/
inductive OutLine where
  | blank
  | divider
  | text (s : String)
  | clearScreen
  deriving DecidableEq, Repr

/-- What a run of a printing function has written when it ends, and whether it
ran to its end (`false`: it stopped in a run-time panic, of a slice expression
or of the dereference of a nil pointer). -/
structure Printed where
  lines : List OutLine
  completed : Bool
  deriving DecidableEq, Repr

/-- The characters of a string that lie within its first `n` bytes. -/
def takeBytes : Nat → List Char → List Char
  | _, [] => []
  | n, c :: cs => if c.utf8Size ≤ n then c :: takeBytes (n - c.utf8Size) cs else []

/-- The slice expression `s[:n]` of Go on a string: it panics (`none`) when `n`
exceeds the length of `s` in bytes; otherwise it is the first `n` bytes of `s`,
given here as the characters that lie within them (all of the first `n` bytes
when they are ASCII, as in a container id). -/
def sliceTo (s : String) (n : Nat) : Option String :=
  if n ≤ s.utf8ByteSize then some ⟨takeBytes n s.data⟩ else none

/-- Go's `Duration.Round(m)`: the multiple of `m` nearest to `d`, halfway values
away from zero; when that multiple is outside the range of `int64` the result
is the largest (smallest) `Duration`. -/
def durationRound (d m : Int) : Int :=
  if m ≤ 0 then d
  else
    let r := d.tmod m
    if d < 0 then
      let r := -r
      if r + r < m then d + r
      else
        let d1 := d - m + r
        if minDuration ≤ d1 then d1 else minDuration
    else
      if r + r < m then d - r
      else
        let d1 := d + m - r
        if d1 ≤ maxDuration then d1 else maxDuration

/-- The loop over `c.NetworkSettings.Networks`; `out` is what has been printed.
On an entry whose endpoint settings are the nil pointer the expression
`netConfig.IPAddress` panics. -/
def networksLoop (R : Style → String → String) : List (String × Option String) →
    List OutLine → Printed
  | [], out => ⟨out, true⟩
  | (netName, some ipAddress) :: rest, out =>
    networksLoop R rest
      (out ++ [OutLine.text ("      â€¢ " ++ R Style.boldStyle netName ++ " (" ++
        R Style.dimStyle ipAddress ++ ")")])
  | (_, none) :: _, out => ⟨out, false⟩

/-- The loop over `c.Mounts`; `out` is what has been printed. -/
def mountsLoop (R : Style → String → String) : List MountPoint → List OutLine → List OutLine
  | [], out => out
  | m :: rest, out =>
    if m.MountType = "volume" then
      mountsLoop R rest
        (out ++ [OutLine.text ("      â€¢ " ++ R Style.boldStyle m.Name ++ " â†’ " ++
          R Style.dimStyle m.Destination)])
    else if m.MountType = "bind" then
      mountsLoop R rest
        (out ++ [OutLine.text ("      â€¢ " ++ R Style.boldStyle m.Source ++ " â†’ " ++
          R Style.dimStyle m.Destination)])
    else
      mountsLoop R rest out

/-- The body of the loop of `printContainersMultiline` for the record `c` at
index `i`; `out` is what has been printed before. `clock k` is the `k`-th reading
of the clock in the call: `formatCreatedTime` takes one reading and the
computation of `age` the next. The run stops in a panic at the slice expression
`c.ID[:12]` when the id is shorter than 12 bytes and, above verbosity 1, at
`c.NetworkSettings.Networks` when `NetworkSettings` is the nil pointer and at
`netConfig.IPAddress` when the endpoint settings of a network are. -/
def printContainerAt (R : Style → String → String) (clock : Nat → Int) (verboseLevel : Int)
    (i : Nat) (c : ContainerInfo) (out : List OutLine) : Printed :=
  let containerName := containerName c.toSummary
  let created := formatCreatedTime (clock (2 * i)) c.CreatedTime
  let status := formatStatus R c.Status false
  let age := durationRound (timeSince (clock (2 * i + 1)) c.CreatedTime) Second
  let out := if verboseLevel > 0 ∧ i > 0 then out ++ [OutLine.divider] else out
  if verboseLevel = 0 then
    let portsStr :=
      if c.Ports.length > 0 then " | Ports: " ++ formatPortsMultiLine R c.Ports else ""
    let status := formatStatus R c.Status true
    let singleLine := status ++ " | " ++ R Style.nameStyle containerName ++ " | " ++
      R Style.imageStyle c.Image ++ portsStr
    ⟨out ++ [OutLine.text singleLine], true⟩
  else
    match sliceTo c.ID 12 with
    | none => ⟨out, false⟩
    | some id12 =>
      let idAndName := "ðŸ‹ " ++ R Style.containerIDStyle id12 ++ " | " ++
        R Style.nameStyle containerName
      let out := out ++ [OutLine.text idAndName]
      let statusLine := "   " ++ status ++ " | Age: " ++ R Style.dimStyle (formatDuration age) ++
        " | Created: " ++ R Style.dimStyle created
      let out := out ++ [OutLine.text statusLine]
      let imageCmdLine := "   Image: " ++ R Style.imageStyle c.Image ++ " | Command: " ++
        R Style.commandStyle c.Command
      let out := out ++ [OutLine.text imageCmdLine]
      let out :=
        if c.Ports.length > 0 then
          out ++ [OutLine.text ("   Ports: " ++ formatPortsVerbose R c.Ports)]
        else out
      if verboseLevel > 1 then
        match c.NetworkSettings with
        | none => ⟨out, false⟩
        | some networks =>
          let p : Printed :=
            if networks.length > 0 then
              networksLoop R networks (out ++ [OutLine.text "   Networks:"])
            else ⟨out, true⟩
          if p.completed then
            let out := p.lines
            let out :=
              if c.Mounts.length > 0 then
                mountsLoop R c.Mounts (out ++ [OutLine.text "   Volumes:"])
              else out
            ⟨out, true⟩
          else p
      else ⟨out, true⟩

/-- The loop `for i, c := range containerInfos` of `printContainersMultiline`. -/
def printContainersLoop (R : Style → String → String) (clock : Nat → Int)
    (verboseLevel : Int) : Nat → List ContainerInfo → List OutLine → Printed
  | _, [], out => ⟨out, true⟩
  | i, c :: cs, out =>
    let p := printContainerAt R clock verboseLevel i c out
    if p.completed then printContainersLoop R clock verboseLevel (i + 1) cs p.lines
    else p

/-- The function `printContainersMultiline` of `main.go`. -/
def printContainersMultiline (R : Style → String → String)
    (sortSlice : (ContainerInfo → ContainerInfo → Bool) → List ContainerInfo →
      List ContainerInfo)
    (clock : Nat → Int) (containers : List Summary) (verboseLevel : Int) : Printed :=
  if containers.length = 0 then
    ⟨[OutLine.text "No containers found"], true⟩
  else
    let containerInfos := sortSlice createdAfter (containerInfosOf containers)
    let out : List OutLine := if verboseLevel = 0 then [OutLine.blank] else [OutLine.blank]
    let out := if verboseLevel > 0 then out ++ [OutLine.divider] else out
    let p := printContainersLoop R clock verboseLevel 0 containerInfos out
    if p.completed then
      let out := p.lines
      let out := if verboseLevel > 0 then out ++ [OutLine.divider] else out
      let out := if verboseLevel = 0 then out ++ [OutLine.blank] else out ++ [OutLine.blank]
      ⟨out, true⟩
    else p

/-- Specification of the compact line of a record:
"<statusCompact> | <displayName> | <image>", followed by
" | Ports: <portsCompact>" when the record has ports. -/
def compactLine (R : Style → String → String) (c : Summary) : String :=
  formatStatus R c.Status true ++ " | " ++ R Style.nameStyle (displayName c) ++ " | " ++
    R Style.imageStyle c.Image ++
    (if c.Ports = [] then "" else " | Ports: " ++ formatPortsMultiLine R c.Ports)

/-- Specification of the line of one mount: "name, arrow, destination" for a volume
mount, "source, arrow, destination" for a bind mount, no line for any other kind. -/
def mountLine (R : Style → String → String) (m : MountPoint) : Option OutLine :=
  if m.MountType = "volume" then
    some (OutLine.text ("      â€¢ " ++ R Style.boldStyle m.Name ++ " â†’ " ++
      R Style.dimStyle m.Destination))
  else if m.MountType = "bind" then
    some (OutLine.text ("      â€¢ " ++ R Style.boldStyle m.Source ++ " â†’ " ++
      R Style.dimStyle m.Destination))
  else none

/-- Specification of the volumes block of a record: nothing when the record has
no mounts, otherwise the header and the lines of its mounts, in order. -/
def volumesBlock (R : Style → String → String) (c : Summary) : List OutLine :=
  if c.Mounts = [] then []
  else OutLine.text "   Volumes:" :: c.Mounts.filterMap (mountLine R)

/-- Whether the network settings of a record can be read: `NetworkSettings` is
not the nil pointer and neither are the endpoint settings of any of its
networks. -/
def networksPresent (c : Summary) : Bool :=
  match c.NetworkSettings with
  | none => false
  | some networks => networks.all (fun n => n.2.isSome)

/-- The line of one network with its address. -/
def networkLine (R : Style → String → String) (netName ipAddress : String) : OutLine :=
  OutLine.text ("      â€¢ " ++ R Style.boldStyle netName ++ " (" ++ R Style.dimStyle ipAddress ++
    ")")

/-- Specification of the networks block of a record whose network settings can
be read: nothing when the record has no networks, otherwise the header and one
line per network. -/
def networksBlock (R : Style → String → String) (c : Summary) : List OutLine :=
  match c.NetworkSettings with
  | none => []
  | some networks =>
    if networks = [] then []
    else OutLine.text "   Networks:" ::
      networks.filterMap (fun n => n.2.map (fun ip => networkLine R n.1 ip))

/-- A record named "/app" of image "img" with the given id, status, creation
time, ports and mounts, and network settings without networks. -/
def sampleRecord (id status : String) (created : Int) (ports : List Port)
    (mounts : List MountPoint) : Summary :=
  { ID := id, Names := ["/app"], Image := "img", Command := "run", Created := created,
    Ports := ports, Status := status, NetworkSettings := some [], Mounts := mounts }

/-! ## The watch loop -/

/-- What a `select` of the watch loop receives: a tick of the ticker or the
cancellation of the context. -/
inductive WatchEvent where
  | tick
  | cancelled
  deriving DecidableEq, Repr

/-- The state of the watch loop after the events observed so far: still in the
loop (`Running`), returned after a cancellation (`Stopped`), or ended by a
run-time panic inside a cycle (`Panicked`). -/
inductive WatchState where
  | Running
  | Stopped
  | Panicked
  deriving DecidableEq, Repr

/-- What one call of `refreshScreen` obtains from outside the program: the
formatted time of the header, the clock readings of the rendering, and the
result of `cli.ContainerList` (a listing or the text of an error). -/
structure CycleInput where
  timestamp : String
  clock : Nat → Int
  listing : Except String (List Summary)

/-- The output stream and the error stream. -/
structure Streams where
  stdout : List OutLine
  stderr : List String
  deriving DecidableEq, Repr

/-- The closure `refreshScreen` of `watchContainers`: one watch cycle, run on the
streams `w`; the second component tells whether the cycle ran to its end. -/
def refreshScreen {RE : Type} (R : Style → String → String) (rx : Regexp RE)
    (sortSlice : (ContainerInfo → ContainerInfo → Bool) → List ContainerInfo →
      List ContainerInfo)
    (filterRegex : String) (verbosityLevel : Int) (input : CycleInput) (w : Streams) :
    Streams × Bool :=
  let stdout := w.stdout ++ [OutLine.clearScreen]
  let stdout := stdout ++ [OutLine.text "Watching containers (Press Ctrl+C to exit)"]
  let stdout := stdout ++ [OutLine.text input.timestamp]
  match input.listing with
  | Except.error err =>
    (⟨stdout, w.stderr ++ ["Error: could not list containers: " ++ err ++ "\n"]⟩, true)
  | Except.ok containers =>
    let filtered :=
      if filterRegex ≠ "" then filterContainers rx containers filterRegex
      else (containers, [])
    let p := printContainersMultiline R sortSlice input.clock filtered.1 verbosityLevel
    (⟨stdout ++ p.lines, w.stderr ++ filtered.2⟩, p.completed)

/-- The `for`/`select` loop of `watchContainers`: `events` is what the successive
`select`s receive, `inputs k` what the `k`-th cycle obtains. When the events
are used up the loop is waiting in `select`. -/
def watchLoop {RE : Type} (R : Style → String → String) (rx : Regexp RE)
    (sortSlice : (ContainerInfo → ContainerInfo → Bool) → List ContainerInfo →
      List ContainerInfo)
    (filterRegex : String) (verbosityLevel : Int) (inputs : Nat → CycleInput) :
    Nat → List WatchEvent → Streams → WatchState × Streams
  | _, [], w => (WatchState.Running, w)
  | k, WatchEvent.tick :: es, w =>
    let r := refreshScreen R rx sortSlice filterRegex verbosityLevel (inputs k) w
    if r.2 then watchLoop R rx sortSlice filterRegex verbosityLevel inputs (k + 1) es r.1
    else (WatchState.Panicked, r.1)
  | _, WatchEvent.cancelled :: _, w =>
    (WatchState.Stopped, ⟨w.stdout ++ [OutLine.text "Watch mode stopped"], w.stderr⟩)

/-- The function `watchContainers` of `main.go`: the initial cycle, then the loop. -/
def watchContainers {RE : Type} (R : Style → String → String) (rx : Regexp RE)
    (sortSlice : (ContainerInfo → ContainerInfo → Bool) → List ContainerInfo →
      List ContainerInfo)
    (filterRegex : String) (verbosityLevel : Int) (inputs : Nat → CycleInput)
    (events : List WatchEvent) : WatchState × Streams :=
  let r := refreshScreen R rx sortSlice filterRegex verbosityLevel (inputs 0) ⟨[], []⟩
  if r.2 then watchLoop R rx sortSlice filterRegex verbosityLevel inputs 1 events r.1
  else (WatchState.Panicked, r.1)

/-- A stand-in for package `regexp` that rejects the pattern "(" and compiles
every other pattern to itself, matching the strings that contain it. -/
def strictRegexp : Regexp String :=
  { Compile := fun p =>
      if p = "(" then Except.error "error parsing regexp: missing closing ): (" else Except.ok p,
    MatchString := fun re s => strings.Contains s re }

/-- Cycle inputs for concrete evaluation: the listing fails in every cycle but
the first, which lists no container. -/
def failingInputs (k : Nat) : CycleInput :=
  { timestamp := "2024-01-01 00:00:00", clock := fun _ => 0,
    listing := if k = 0 then Except.ok [] else Except.error "connection refused" }

/-- The three lines that open the verbose rendering of a record, and the ports
line when the record has ports; `id12` is the value of `c.ID[:12]`. -/
def recordHeadLines (R : Style → String → String) (clock : Nat → Int) (i : Nat)
    (c : ContainerInfo) (id12 : String) : List OutLine :=
  [OutLine.text ("ðŸ‹ " ++ R Style.containerIDStyle id12 ++ " | " ++
      R Style.nameStyle (containerName c.toSummary)),
    OutLine.text ("   " ++ formatStatus R c.Status false ++ " | Age: " ++
      R Style.dimStyle
        (formatDuration (durationRound (timeSince (clock (2 * i + 1)) c.CreatedTime) Second)) ++
      " | Created: " ++ R Style.dimStyle (formatCreatedTime (clock (2 * i)) c.CreatedTime)),
    OutLine.text ("   Image: " ++ R Style.imageStyle c.Image ++ " | Command: " ++
      R Style.commandStyle c.Command)] ++
  (if c.Ports = [] then []
   else [OutLine.text ("   Ports: " ++ formatPortsVerbose R c.Ports)])
/-! ## Lemmas on the string primitives -/

namespace strings

theorem hasInfix_iff (sub s : List Char) : hasInfix sub s = true ↔ sub <:+: s := by
  induction s with
  | nil => simp [hasInfix, List.isPrefixOf_iff_prefix]
  | cons c cs ih =>
    simp only [hasInfix, Bool.or_eq_true, ih, List.isPrefixOf_iff_prefix, List.infix_cons_iff]

theorem dropWhile_append_cons {α : Type} (p : α → Bool) (a : List α) (c : α) (r : List α)
    (hc : p c = false) : (a ++ c :: r).dropWhile p = a.dropWhile p ++ c :: r := by
  induction a with
  | nil => simp [List.dropWhile, hc]
  | cons x xs ih =>
    simp only [List.cons_append, List.dropWhile]
    cases p x <;> simp [ih]

/-- Shape of a trimmed string: what `trimRight ∘ trimLeft` keeps of a string that
contains a block starting and ending with a character that is not white space. -/
theorem trim_append (a b t : List Char) (c d : Char) (u : List Char)
    (hc : isSpace c = false) (hd : isSpace d = false) (hcu : c :: t = u ++ [d]) :
    trimRight (trimLeft (a ++ (c :: t) ++ b)) =
      trimLeft a ++ (c :: t) ++ trimRight b := by
  have h1 : trimLeft (a ++ (c :: t) ++ b) = trimLeft a ++ (c :: t) ++ b := by
    simp only [trimLeft, List.append_assoc, List.cons_append]
    exact dropWhile_append_cons isSpace a c (t ++ b) hc
  rw [h1, hcu]
  simp only [trimRight, List.reverse_append, List.reverse_cons, List.reverse_nil,
    List.nil_append, List.append_assoc, List.singleton_append, List.reverse_reverse]
  rw [List.cons_append, dropWhile_append_cons isSpace b.reverse d _ hd]
  simp

theorem trimmed_within (s : List Char) : trimRight (trimLeft s) <:+: s := by
  have h1 : trimLeft s <:+: s := (List.dropWhile_suffix _).isInfix
  have h2 : trimRight (trimLeft s) <:+: trimLeft s := by
    unfold trimRight
    have := (List.dropWhile_suffix isSpace (l := (trimLeft s).reverse))
    have h3 := List.reverse_prefix.mpr this
    rw [List.reverse_reverse] at h3
    exact h3.isInfix
  exact h2.trans h1

/-- A block that starts and ends with a character that is not white space occurs
in a string exactly when it occurs in the trimmed string. -/
theorem infix_trim_iff (s t : List Char) (c d : Char) (u : List Char)
    (hc : isSpace c = false) (hd : isSpace d = false) (hcu : c :: t = u ++ [d]) :
    (c :: t) <:+: trimRight (trimLeft s) ↔ (c :: t) <:+: s := by
  constructor
  · intro h
    exact h.trans (trimmed_within s)
  · rintro ⟨a, b, rfl⟩
    rw [trim_append a b t c d u hc hd hcu]
    exact ⟨trimLeft a, trimRight b, rfl⟩

theorem Contains_TrimSpace (s : String) (t : List Char) (c d : Char) (u : List Char)
    (hc : isSpace c = false) (hd : isSpace d = false) (hcu : c :: t = u ++ [d]) :
    Contains (TrimSpace s) ⟨c :: t⟩ = Contains s ⟨c :: t⟩ := by
  rw [Bool.eq_iff_iff]
  simp only [Contains, TrimSpace, hasInfix_iff]
  exact infix_trim_iff s.data t c d u hc hd hcu

theorem Contains_TrimSpace_unhealthy (s : String) :
    Contains (TrimSpace s) "unhealthy" = Contains s "unhealthy" :=
  Contains_TrimSpace s "nhealthy".data 'u' 'y' "unhealth".data (by decide) (by decide) (by decide)

theorem Contains_TrimSpace_healthy (s : String) :
    Contains (TrimSpace s) "healthy" = Contains s "healthy" :=
  Contains_TrimSpace s "ealthy".data 'h' 'y' "health".data (by decide) (by decide) (by decide)

theorem splitGo_head (sep s cur x : List Char) :
    (splitGo sep s cur 0).headD x = cur.reverse ++ beforeFirst sep s := by
  induction s generalizing cur with
  | nil => simp [splitGo, beforeFirst]
  | cons c cs ih =>
    simp only [splitGo, beforeFirst]
    split
    · simp
    · rw [ih]; simp

theorem Split_head (s sep : String) : (Split s sep).headD "" = substringBefore s sep := by
  have h := splitGo_head sep.data s.data [] []
  simp only [Split, substringBefore]
  cases hs : splitGo sep.data s.data [] 0 with
  | nil => rw [hs] at h; simp at h; simp [h]
  | cons a as => rw [hs] at h; simp at h; simp [h]

/-- The first occurrence of `sep` lies in `x` as soon as `sep` occurs in `x`. -/
theorem beforeFirst_append (sep x y : List Char) (h : sep <:+: x) :
    beforeFirst sep (x ++ y) = beforeFirst sep x := by
  induction x with
  | nil =>
    have : sep = [] := List.infix_nil.mp h
    subst this
    cases y <;> simp [beforeFirst]
  | cons c cs ih =>
    simp only [List.cons_append, beforeFirst]
    by_cases hp : sep <+: c :: cs
    · have hp2 : sep <+: c :: (cs ++ y) := by
        have := hp.trans (List.prefix_append (c :: cs) y)
        simpa using this
      simp [List.isPrefixOf_iff_prefix, hp, hp2]
    · have hin : sep <:+: cs := by
        rcases List.infix_cons_iff.mp h with h1 | h1
        · exact absurd h1 hp
        · exact h1
      have hp2 : ¬ sep <+: c :: (cs ++ y) := by
        intro h2
        apply hp
        have h3 : c :: cs <+: c :: (cs ++ y) := by simp
        have hl : sep.length ≤ (c :: cs).length := by
          have := hin.length_le
          simp only [List.length_cons]; omega
        exact List.prefix_of_prefix_length_le h2 h3 hl
      simp [List.isPrefixOf_iff_prefix, hp, hp2, ih hin]

/-- What `TrimSpace` does to a string that starts with `Up`. -/
theorem TrimSpace_of_Up (raw : String) (h : HasPrefix raw "Up" = true) :
    ∃ b, raw.data = 'U' :: 'p' :: b ∧ (TrimSpace raw).data = 'U' :: 'p' :: trimRight b := by
  simp only [HasPrefix, List.isPrefixOf_iff_prefix] at h
  obtain ⟨b, hb⟩ := h
  refine ⟨b, by simpa using hb.symm, ?_⟩
  have := trim_append [] b ['p'] 'U' 'p' ['U'] (by decide) (by decide) (by simp)
  simp only [TrimSpace]
  rw [← hb]
  simpa [trimLeft] using this

/-- Trimming does not move the first occurrence of a separator that ends with a
character that is not white space, in a string that starts with such a character. -/
theorem beforeFirst_trim (s' sep u : List Char) (c d : Char)
    (hc : isSpace c = false) (hd : isSpace d = false) (hsep : sep = u ++ [d])
    (hin : sep <:+: c :: s') :
    beforeFirst sep (trimRight (trimLeft (c :: s'))) = beforeFirst sep (c :: s') := by
  obtain ⟨a, b, hab⟩ := hin
  have hX : ∃ t, a ++ sep = c :: t := by
    cases a with
    | nil =>
      subst hsep
      cases u with
      | nil => simp at hab; exact ⟨[], by simp [hab.1]⟩
      | cons x xs => simp at hab; exact ⟨xs ++ [d], by simp [hab.1]⟩
    | cons x xs => simp at hab; exact ⟨xs ++ sep, by simp [hab.1]⟩
  obtain ⟨t, ht⟩ := hX
  have hblock : c :: t = (a ++ u) ++ [d] := by rw [← ht, hsep]; simp
  have htrim := trim_append [] b t c d (a ++ u) hc hd hblock
  have hs : c :: s' = [] ++ (c :: t) ++ b := by rw [← hab, ← ht]; simp
  have hinX : sep <:+: c :: t := by rw [← ht]; exact ⟨a, [], by simp⟩
  rw [hs, htrim]
  simp only [trimLeft, List.dropWhile_nil, List.nil_append]
  rw [beforeFirst_append sep (c :: t) _ hinX, beforeFirst_append sep (c :: t) _ hinX]

/-- The prefixes "Exited", "Created" and "Restarting" exclude one another. -/
theorem prefix_exclusive (t : String) :
    (HasPrefix t "Created" = true → HasPrefix t "Exited" = false) ∧
    (HasPrefix t "Restarting" = true →
      HasPrefix t "Exited" = false ∧ HasPrefix t "Created" = false) := by
  have hE : ("Exited" : String).data = 'E' :: "xited".data := rfl
  have hC : ("Created" : String).data = 'C' :: "reated".data := rfl
  have hR : ("Restarting" : String).data = 'R' :: "estarting".data := rfl
  simp only [HasPrefix, hE, hC, hR]
  cases t.data with
  | nil => simp [List.isPrefixOf]
  | cons c cs =>
    simp only [List.isPrefixOf, Bool.and_eq_true, beq_iff_eq, Bool.and_eq_false_imp]
    refine ⟨?_, ?_⟩
    · rintro ⟨rfl, _⟩ h; exact absurd h (by decide)
    · rintro ⟨rfl, _⟩; exact ⟨fun h => absurd h (by decide), fun h => absurd h (by decide)⟩

end strings

/-! ## Lemmas on decimal rendering -/

theorem digitValue_digitChar (k : Nat) (hk : k < 10) :
    digitValue (Nat.digitChar k) = k ∧ Nat.digitChar k ≠ ':' := by
  interval_cases k <;> decide

theorem toDigitsCore_append (fuel n : Nat) (ds : List Char) :
    Nat.toDigitsCore 10 fuel n ds = Nat.toDigitsCore 10 fuel n [] ++ ds := by
  induction fuel generalizing n ds with
  | zero => simp [Nat.toDigitsCore]
  | succ f ih =>
    simp only [Nat.toDigitsCore]
    split
    · simp
    · rw [ih (n / 10) (Nat.digitChar (n % 10) :: ds), ih (n / 10) [Nat.digitChar (n % 10)]]
      simp

theorem toDigitsCore_spec (fuel n : Nat) (h : n < fuel) :
    decimalValue (Nat.toDigitsCore 10 fuel n []) = n ∧
    ':' ∉ Nat.toDigitsCore 10 fuel n [] := by
  induction fuel generalizing n with
  | zero => omega
  | succ f ih =>
    have hd := digitValue_digitChar (n % 10) (Nat.mod_lt _ (by decide))
    simp only [Nat.toDigitsCore]
    split
    · rename_i h0
      constructor
      · simp only [decimalValue, List.foldl, hd.1]; omega
      · simp only [List.mem_singleton]; exact fun hc => hd.2 hc.symm
    · rename_i h0
      rw [toDigitsCore_append]
      have hlt : n / 10 < f := by omega
      obtain ⟨h1, h2⟩ := ih (n / 10) hlt
      constructor
      · simp only [decimalValue, List.foldl_append, List.foldl] at h1 ⊢
        rw [h1, hd.1]; omega
      · simp only [List.mem_append, List.mem_singleton, not_or]
        exact ⟨h2, fun hc => hd.2 hc.symm⟩

theorem fmtNat_spec (n : Nat) :
    decimalValue (fmtNat n).data = n ∧ ':' ∉ (fmtNat n).data := by
  have := toDigitsCore_spec (n + 1) n (by omega)
  simpa [fmtNat, Nat.repr, Nat.toDigits, List.asString] using this

theorem fmtNat_injective (a b : Nat) (h : fmtNat a = fmtNat b) : a = b := by
  have ha := (fmtNat_spec a).1
  have hb := (fmtNat_spec b).1
  rw [h] at ha
  omega

/-- The key `"%d:%d"` determines the pair of numbers. -/
theorem key_injective (a b c d : Nat)
    (h : fmtNat a ++ ":" ++ fmtNat b = fmtNat c ++ ":" ++ fmtNat d) : a = c ∧ b = d := by
  have h1 : (fmtNat a).data ++ ':' :: (fmtNat b).data =
      (fmtNat c).data ++ ':' :: (fmtNat d).data := by
    have := congrArg String.data h
    simpa [String.data_append] using this
  have h2 := (List.append_cons_inj_of_not_mem (fmtNat_spec a).2 (fmtNat_spec b).2).mp h1
  exact ⟨fmtNat_injective a c (String.ext h2.1), fmtNat_injective b d (String.ext h2.2.2)⟩

theorem isDigit_digitChar (k : Nat) (hk : k < 10) : (Nat.digitChar k).isDigit = true := by
  interval_cases k <;> decide

theorem toDigitsCore_digits (fuel n : Nat) (h : n < fuel) :
    Nat.toDigitsCore 10 fuel n [] ≠ [] ∧
    ∀ c ∈ Nat.toDigitsCore 10 fuel n [], c.isDigit = true := by
  induction fuel generalizing n with
  | zero => omega
  | succ f ih =>
    have hd := isDigit_digitChar (n % 10) (Nat.mod_lt _ (by decide))
    simp only [Nat.toDigitsCore]
    split
    · simp [hd]
    · rename_i h0
      rw [toDigitsCore_append]
      have hlt : n / 10 < f := by omega
      obtain ⟨_, h2⟩ := ih (n / 10) hlt
      constructor
      · simp
      · intro c hc
        rcases List.mem_append.mp hc with hc | hc
        · exact h2 c hc
        · simp only [List.mem_singleton] at hc
          rw [hc]; exact hd

/-- A non-negative number is rendered as a non-empty string of digits. -/
theorem fmtInt_natCast (n : Nat) :
    fmtInt (n : Int) = fmtNat n ∧
    ∃ c r, (fmtNat n).data = c :: r ∧ c.isDigit = true := by
  refine ⟨rfl, ?_⟩
  obtain ⟨h1, h2⟩ := toDigitsCore_digits (n + 1) n (by omega)
  have hdata : (fmtNat n).data = Nat.toDigitsCore 10 (n + 1) n [] := by
    simp [fmtNat, Nat.repr, Nat.toDigits, List.asString]
  rw [hdata]
  cases hl : Nat.toDigitsCore 10 (n + 1) n [] with
  | nil => exact absurd hl h1
  | cons c r => exact ⟨c, r, rfl, h2 c (by rw [hl]; simp)⟩

theorem intercalate_go_data (sep : String) (l : List String) (acc : String) :
    ∃ r, (String.intercalate.go acc sep l).data = acc.data ++ r := by
  induction l generalizing acc with
  | nil => exact ⟨[], by simp [String.intercalate.go]⟩
  | cons a l ih =>
    obtain ⟨r, hr⟩ := ih (acc ++ sep ++ a)
    exact ⟨sep.data ++ a.data ++ r, by
      simp only [String.intercalate.go, hr, String.data_append, List.append_assoc]⟩

/-- A joined list starts with its first element. -/
theorem Join_cons_data (sep p : String) (ps : List String) :
    ∃ r, (strings.Join (p :: ps) sep).data = p.data ++ r :=
  intercalate_go_data sep ps p
/-! ## Lemmas on binary floating point -/

namespace F64

theorem bitsLenAux_zero (fuel : Nat) : bits.LenAux fuel 0 = 0 := by
  cases fuel <;> simp [bits.LenAux]

theorem bitsLenAux_spec : ∀ (fuel n : Nat), n ≤ fuel → 0 < n →
    2 ^ bits.LenAux fuel n ≤ 2 * n ∧ n < 2 ^ bits.LenAux fuel n := by
  intro fuel
  induction fuel with
  | zero => intro n h1 h2; omega
  | succ fuel ih =>
    intro n h1 h2
    have hn : n ≠ 0 := by omega
    simp only [bits.LenAux, hn, if_false]
    rcases Nat.eq_zero_or_pos (n / 2) with h0 | h0
    · rw [h0, bitsLenAux_zero]
      have : n = 1 := by omega
      subst this
      simp
    · obtain ⟨ha, hb⟩ := ih (n / 2) (by omega) h0
      rw [pow_succ]
      constructor <;> omega

theorem bitsLen_spec (n : Nat) (hn : 0 < n) : 2 ^ bits.Len n ≤ 2 * n ∧ n < 2 ^ bits.Len n :=
  bitsLenAux_spec n n (le_refl n) hn

theorem ilog2_spec (a b : Nat) (ha : 0 < a) (hb : 0 < b) :
    (2 : ℚ) ^ (ilog2 a b) ≤ (a : ℚ) / b ∧ (a : ℚ) / b < (2 : ℚ) ^ (ilog2 a b + 1) := by
  obtain ⟨ha1, ha2⟩ := bitsLen_spec a ha
  obtain ⟨hb1, hb2⟩ := bitsLen_spec b hb
  have hbq : (0 : ℚ) < b := by exact_mod_cast hb
  have h2 : (0 : ℚ) < 2 := by norm_num
  have hpa : (0 : ℚ) < (2 : ℚ) ^ (bits.Len b) := by positivity
  have ha1q : (2 : ℚ) ^ (bits.Len a) ≤ 2 * a := by exact_mod_cast ha1
  have ha2q : (a : ℚ) < (2 : ℚ) ^ (bits.Len a) := by exact_mod_cast ha2
  have hb1q : (2 : ℚ) ^ (bits.Len b) ≤ 2 * b := by exact_mod_cast hb1
  have hb2q : (b : ℚ) < (2 : ℚ) ^ (bits.Len b) := by exact_mod_cast hb2
  have e1 : (2 : ℚ) ^ ((bits.Len a : Int) - bits.Len b) = (2 : ℚ) ^ (bits.Len a) / (2 : ℚ) ^ (bits.Len b) := by
    rw [zpow_sub₀ (by norm_num), zpow_natCast, zpow_natCast]
  unfold ilog2
  simp only
  split
  · rename_i hc
    have hcq : (b : ℚ) * (2 : ℚ) ^ (bits.Len a) ≤ a * (2 : ℚ) ^ (bits.Len b) := by exact_mod_cast hc
    constructor
    · rw [e1, div_le_div_iff₀ hpa hbq]
      linarith
    · rw [zpow_add₀ (by norm_num), e1, zpow_one, div_mul_eq_mul_div, div_lt_div_iff₀ hbq hpa]
      nlinarith
  · rename_i hc
    have hcq : (a : ℚ) * (2 : ℚ) ^ (bits.Len b) < b * (2 : ℚ) ^ (bits.Len a) := by
      exact_mod_cast not_le.mp hc
    constructor
    · rw [zpow_sub₀ (by norm_num), e1, zpow_one, div_div, div_le_div_iff₀ (by positivity) hbq]
      nlinarith
    · rw [sub_add_cancel, e1, div_lt_div_iff₀ hbq hpa]
      linarith

theorem roundHalfEven_bounds (N D : Nat) (hD : 0 < D) :
    (∀ z : Nat, z * D ≤ N → z ≤ roundHalfEven N D) ∧
    (∀ z : Nat, N ≤ z * D → roundHalfEven N D ≤ z) := by
  have hdm := Nat.div_add_mod N D
  have hlt := Nat.mod_lt N hD
  have hq : ∀ z : Nat, z * D ≤ N → z ≤ N / D := fun z hz => (Nat.le_div_iff_mul_le hD).mpr hz
  have hc : ∀ z : Nat, N ≤ z * D → 0 < N % D → N / D + 1 ≤ z := by
    intro z hz hr
    by_contra hcon
    have h1 : z ≤ N / D := by omega
    have h2 : z * D ≤ N / D * D := Nat.mul_le_mul_right D h1
    have h3 : N / D * D = D * (N / D) := Nat.mul_comm _ _
    omega
  have hc0 : ∀ z : Nat, N ≤ z * D → N / D ≤ z := by
    intro z hz
    by_contra hcon
    have h1 : z + 1 ≤ N / D := by omega
    have h2 : (z + 1) * D ≤ N / D * D := Nat.mul_le_mul_right D h1
    have h3 : N / D * D = D * (N / D) := Nat.mul_comm _ _
    have h4 : (z + 1) * D = z * D + D := by ring
    omega
  unfold roundHalfEven
  simp only
  constructor
  · intro z hz
    have := hq z hz
    split_ifs <;> omega
  · intro z hz
    have h0 := hc0 z hz
    split_ifs
    · exact h0
    · exact hc z hz (by omega)
    · exact h0
    · exact hc z hz (by omega)

theorem roundNat_cases (a b : Nat) (k : Int) (ha : 0 < a) (hb : 0 < b) :
    ∃ m : Nat, roundNat a b k = ⟨(m : Int), ilog2 a b - 52 + k⟩ ∧
      (∀ z : Nat, (z : ℚ) * (2 : ℚ) ^ (ilog2 a b - 52) ≤ (a : ℚ) / b → z ≤ m) ∧
      (∀ z : Nat, (a : ℚ) / b ≤ (z : ℚ) * (2 : ℚ) ^ (ilog2 a b - 52) → m ≤ z) := by
  have hne : a ≠ 0 := by omega
  have hbq : (0 : ℚ) < b := by exact_mod_cast hb
  refine ⟨if 0 ≤ ilog2 a b - 52 then roundHalfEven a (b * 2 ^ (ilog2 a b - 52).toNat)
      else roundHalfEven (a * 2 ^ (-(ilog2 a b - 52)).toNat) b, ?_, ?_, ?_⟩
  · unfold roundNat
    simp only [hne, if_false]
  · intro z hz
    split
    · rename_i he
      obtain ⟨n, hn⟩ := Int.eq_ofNat_of_zero_le he
      rw [hn] at hz ⊢
      rw [Int.toNat_ofNat]
      rw [zpow_natCast, le_div_iff₀ hbq] at hz
      apply (roundHalfEven_bounds a (b * 2 ^ n) (by positivity)).1
      have : ((z * (b * 2 ^ n) : Nat) : ℚ) ≤ (a : ℚ) := by
        push_cast
        linarith
      exact_mod_cast this
    · rename_i he
      obtain ⟨n, hn⟩ := Int.eq_ofNat_of_zero_le (by omega : 0 ≤ -(ilog2 a b - 52))
      have hn2 : ilog2 a b - 52 = -(n : Int) := by omega
      rw [hn]
      rw [hn2, zpow_neg, zpow_natCast, le_div_iff₀ hbq] at hz
      rw [Int.toNat_ofNat]
      apply (roundHalfEven_bounds (a * 2 ^ n) b hb).1
      have hp : (0 : ℚ) < (2 : ℚ) ^ n := by positivity
      have : ((z * b : Nat) : ℚ) ≤ ((a * 2 ^ n : Nat) : ℚ) := by
        push_cast
        have h1 : (z : ℚ) * ((2 : ℚ) ^ n)⁻¹ * b * 2 ^ n ≤ a * 2 ^ n :=
          mul_le_mul_of_nonneg_right hz (le_of_lt hp)
        have h2 : (z : ℚ) * ((2 : ℚ) ^ n)⁻¹ * b * 2 ^ n = z * b := by
          field_simp
        linarith
      exact_mod_cast this
  · intro z hz
    split
    · rename_i he
      obtain ⟨n, hn⟩ := Int.eq_ofNat_of_zero_le he
      rw [hn] at hz ⊢
      rw [Int.toNat_ofNat]
      rw [zpow_natCast, div_le_iff₀ hbq] at hz
      apply (roundHalfEven_bounds a (b * 2 ^ n) (by positivity)).2
      have : (a : ℚ) ≤ ((z * (b * 2 ^ n) : Nat) : ℚ) := by
        push_cast
        linarith
      exact_mod_cast this
    · rename_i he
      obtain ⟨n, hn⟩ := Int.eq_ofNat_of_zero_le (by omega : 0 ≤ -(ilog2 a b - 52))
      have hn2 : ilog2 a b - 52 = -(n : Int) := by omega
      rw [hn]
      rw [hn2, zpow_neg, zpow_natCast, div_le_iff₀ hbq] at hz
      rw [Int.toNat_ofNat]
      apply (roundHalfEven_bounds (a * 2 ^ n) b hb).2
      have hp : (0 : ℚ) < (2 : ℚ) ^ n := by positivity
      have : ((a * 2 ^ n : Nat) : ℚ) ≤ ((z * b : Nat) : ℚ) := by
        push_cast
        have h1 : (a : ℚ) * 2 ^ n ≤ (z : ℚ) * ((2 : ℚ) ^ n)⁻¹ * b * 2 ^ n :=
          mul_le_mul_of_nonneg_right hz (le_of_lt hp)
        have h2 : (z : ℚ) * ((2 : ℚ) ^ n)⁻¹ * b * 2 ^ n = z * b := by
          field_simp
        linarith
      exact_mod_cast this

/-- The scaled quotient lies in `[2 ^ 52, 2 ^ 53)`. -/
theorem scaled_range (a b : Nat) (ha : 0 < a) (hb : 0 < b) :
    ((2 ^ 52 : Nat) : ℚ) * (2 : ℚ) ^ (ilog2 a b - 52) ≤ (a : ℚ) / b ∧
    (a : ℚ) / b ≤ ((2 ^ 53 : Nat) : ℚ) * (2 : ℚ) ^ (ilog2 a b - 52) := by
  obtain ⟨h1, h2⟩ := ilog2_spec a b ha hb
  have e1 : ((2 ^ 52 : Nat) : ℚ) * (2 : ℚ) ^ (ilog2 a b - 52) = (2 : ℚ) ^ (ilog2 a b) := by
    rw [zpow_sub₀ (by norm_num)]
    norm_num
    field_simp
  have e2 : ((2 ^ 53 : Nat) : ℚ) * (2 : ℚ) ^ (ilog2 a b - 52) = (2 : ℚ) ^ (ilog2 a b + 1) := by
    rw [zpow_sub₀ (by norm_num), zpow_add₀ (by norm_num)]
    norm_num
    ring
  rw [e1, e2]
  exact ⟨h1, le_of_lt h2⟩

theorem roundNat_val_nonneg (a b : Nat) (k : Int) : 0 ≤ (roundNat a b k).val := by
  unfold roundNat val
  split
  · simp
  · simp only
    apply mul_nonneg
    · exact_mod_cast Nat.zero_le _
    · positivity

/-- Rounding does not go above a representable upper bound. -/
theorem roundNat_le (a b : Nat) (k : Int) (hb : 0 < b) (y : ℚ) (hy : Rep y)
    (h : (a : ℚ) / b * (2 : ℚ) ^ k ≤ y) : (roundNat a b k).val ≤ y := by
  rcases Nat.eq_zero_or_pos a with ha | ha
  · subst ha
    have : roundNat 0 b k = ⟨0, 0⟩ := by simp [roundNat]
    rw [this]
    simp only [val, Int.cast_zero, zero_mul]
    simpa using h
  obtain ⟨m, hm, hlo, hhi⟩ := roundNat_cases a b k ha hb
  obtain ⟨r1, r2⟩ := scaled_range a b ha hb
  obtain ⟨M, j, hM, rfl⟩ := hy
  rw [hm]
  simp only [val, Int.cast_natCast]
  set e := ilog2 a b - 52 with he
  have hk : (0 : ℚ) < (2 : ℚ) ^ k := by positivity
  have hE : (0 : ℚ) < (2 : ℚ) ^ e := by positivity
  -- the bound, scaled: t ≤ M * 2 ^ (j - k - e)
  have hsc : (a : ℚ) / b ≤ (M : ℚ) * (2 : ℚ) ^ (j - k - e) * (2 : ℚ) ^ e := by
    have e3 : (M : ℚ) * (2 : ℚ) ^ (j - k - e) * (2 : ℚ) ^ e = (M : ℚ) * (2 : ℚ) ^ j / (2 : ℚ) ^ k := by
      rw [zpow_sub₀ (by norm_num), zpow_sub₀ (by norm_num)]
      field_simp
      ring
    rw [e3, le_div_iff₀ hk]
    exact h
  have hgoal : ∀ w : ℚ, (m : ℚ) ≤ w → w ≤ (M : ℚ) * (2 : ℚ) ^ (j - k - e) →
      (m : ℚ) * (2 : ℚ) ^ (e + k) ≤ (M : ℚ) * (2 : ℚ) ^ j := by
    intro w h1 h2
    have e4 : (M : ℚ) * (2 : ℚ) ^ j = (M : ℚ) * (2 : ℚ) ^ (j - k - e) * (2 : ℚ) ^ (e + k) := by
      rw [mul_assoc, ← zpow_add₀ (by norm_num)]
      congr 2
      ring
    rw [e4]
    exact mul_le_mul_of_nonneg_right (le_trans h1 h2) (by positivity)
  rcases le_or_lt 0 (j - k - e) with hj | hj
  · obtain ⟨n, hn⟩ := Int.eq_ofNat_of_zero_le hj
    rw [hn, zpow_natCast] at hsc
    have := hhi (M * 2 ^ n) (by push_cast; exact hsc)
    apply hgoal (((M * 2 ^ n : Nat)) : ℚ) (by exact_mod_cast this)
    rw [hn, zpow_natCast]
    push_cast
    exact le_refl _
  · have hle : (2 : ℚ) ^ (j - k - e) ≤ (2 : ℚ) ^ (-1 : Int) :=
      zpow_le_zpow_right₀ (by norm_num) (by omega)
    have hMq : (M : ℚ) ≤ 2 ^ 53 := by exact_mod_cast hM
    have hw : (M : ℚ) * (2 : ℚ) ^ (j - k - e) ≤ ((2 ^ 52 : Nat) : ℚ) := by
      have h3 : (M : ℚ) * (2 : ℚ) ^ (j - k - e) ≤ 2 ^ 53 * (2 : ℚ) ^ (-1 : Int) :=
        mul_le_mul hMq hle (by positivity) (by positivity)
      have h4 : (2 : ℚ) ^ 53 * (2 : ℚ) ^ (-1 : Int) = ((2 ^ 52 : Nat) : ℚ) := by norm_num
      linarith
    have h5 : (a : ℚ) / b ≤ ((2 ^ 52 : Nat) : ℚ) * (2 : ℚ) ^ e :=
      le_trans hsc (mul_le_mul_of_nonneg_right hw (le_of_lt hE))
    have := hhi (2 ^ 52) h5
    have h6 : ((2 ^ 52 : Nat) : ℚ) * (2 : ℚ) ^ e ≤ (M : ℚ) * (2 : ℚ) ^ (j - k - e) * (2 : ℚ) ^ e :=
      le_trans r1 hsc
    have h7 : ((2 ^ 52 : Nat) : ℚ) ≤ (M : ℚ) * (2 : ℚ) ^ (j - k - e) :=
      le_of_mul_le_mul_right h6 hE
    exact hgoal (((2 ^ 52 : Nat)) : ℚ) (by exact_mod_cast this) h7

/-- Rounding does not go below a representable lower bound. -/
theorem le_roundNat (a b : Nat) (k : Int) (hb : 0 < b) (y : ℚ) (hy : Rep y)
    (h : y ≤ (a : ℚ) / b * (2 : ℚ) ^ k) : y ≤ (roundNat a b k).val := by
  rcases Nat.eq_zero_or_pos a with ha | ha
  · subst ha
    have : roundNat 0 b k = ⟨0, 0⟩ := by simp [roundNat]
    rw [this]
    simp only [val, Int.cast_zero, zero_mul]
    simpa using h
  obtain ⟨m, hm, hlo, hhi⟩ := roundNat_cases a b k ha hb
  obtain ⟨r1, r2⟩ := scaled_range a b ha hb
  obtain ⟨M, j, hM, rfl⟩ := hy
  rw [hm]
  simp only [val, Int.cast_natCast]
  set e := ilog2 a b - 52 with he
  have hk : (0 : ℚ) < (2 : ℚ) ^ k := by positivity
  have hE : (0 : ℚ) < (2 : ℚ) ^ e := by positivity
  have hsc : (M : ℚ) * (2 : ℚ) ^ (j - k - e) * (2 : ℚ) ^ e ≤ (a : ℚ) / b := by
    have e3 : (M : ℚ) * (2 : ℚ) ^ (j - k - e) * (2 : ℚ) ^ e = (M : ℚ) * (2 : ℚ) ^ j / (2 : ℚ) ^ k := by
      rw [zpow_sub₀ (by norm_num), zpow_sub₀ (by norm_num)]
      field_simp
      ring
    rw [e3, div_le_iff₀ hk]
    exact h
  have hgoal : ∀ w : ℚ, w ≤ (m : ℚ) → (M : ℚ) * (2 : ℚ) ^ (j - k - e) ≤ w →
      (M : ℚ) * (2 : ℚ) ^ j ≤ (m : ℚ) * (2 : ℚ) ^ (e + k) := by
    intro w h1 h2
    have e4 : (M : ℚ) * (2 : ℚ) ^ j = (M : ℚ) * (2 : ℚ) ^ (j - k - e) * (2 : ℚ) ^ (e + k) := by
      rw [mul_assoc, ← zpow_add₀ (by norm_num)]
      congr 2
      ring
    rw [e4]
    exact mul_le_mul_of_nonneg_right (le_trans h2 h1) (by positivity)
  rcases le_or_lt 0 (j - k - e) with hj | hj
  · obtain ⟨n, hn⟩ := Int.eq_ofNat_of_zero_le hj
    rw [hn, zpow_natCast] at hsc
    have := hlo (M * 2 ^ n) (by push_cast; exact hsc)
    apply hgoal (((M * 2 ^ n : Nat)) : ℚ) (by exact_mod_cast this)
    rw [hn, zpow_natCast]
    push_cast
    exact le_refl _
  · have hle : (2 : ℚ) ^ (j - k - e) ≤ (2 : ℚ) ^ (-1 : Int) :=
      zpow_le_zpow_right₀ (by norm_num) (by omega)
    have hMq : (M : ℚ) ≤ 2 ^ 53 := by exact_mod_cast hM
    have hw : (M : ℚ) * (2 : ℚ) ^ (j - k - e) ≤ ((2 ^ 52 : Nat) : ℚ) := by
      have h3 : (M : ℚ) * (2 : ℚ) ^ (j - k - e) ≤ 2 ^ 53 * (2 : ℚ) ^ (-1 : Int) :=
        mul_le_mul hMq hle (by positivity) (by positivity)
      have h4 : (2 : ℚ) ^ 53 * (2 : ℚ) ^ (-1 : Int) = ((2 ^ 52 : Nat) : ℚ) := by norm_num
      linarith
    have := hlo (2 ^ 52) r1
    exact hgoal (((2 ^ 52 : Nat)) : ℚ) (by exact_mod_cast this) hw

theorem rep_zero : Rep 0 := ⟨0, 0, by norm_num, by simp⟩

theorem rep_nat (n : Nat) (hn : n ≤ 2 ^ 53) : Rep (n : ℚ) := ⟨n, 0, hn, by simp⟩

/-- The number `n - 2 ^ (-j)` is representable when `n * 2 ^ j` has at most 53 bits. -/
theorem rep_below (n j : Nat) (hn : 0 < n) (h : n * 2 ^ j ≤ 2 ^ 53) :
    Rep ((n : ℚ) - ((2 : ℚ) ^ j)⁻¹) := by
  refine ⟨n * 2 ^ j - 1, -(j : Int), by omega, ?_⟩
  have h1 : 1 ≤ n * 2 ^ j := Nat.mul_pos hn (by positivity)
  rw [zpow_neg, zpow_natCast]
  push_cast [h1]
  field_simp

theorem val_nonneg_iff (x : F64) : 0 ≤ x.val ↔ 0 ≤ x.m := by
  unfold val
  have hp : (0 : ℚ) < (2 : ℚ) ^ x.e := by positivity
  constructor
  · intro h
    have := nonneg_of_mul_nonneg_left h hp
    exact_mod_cast this
  · intro h
    exact mul_nonneg (by exact_mod_cast h) (le_of_lt hp)

theorem val_pos_iff (x : F64) : 0 < x.val ↔ 0 < x.m := by
  unfold val
  have hp : (0 : ℚ) < (2 : ℚ) ^ x.e := by positivity
  constructor
  · intro h
    have := pos_of_mul_pos_left h (le_of_lt hp)
    exact_mod_cast this
  · intro h
    exact mul_pos (by exact_mod_cast h) hp

theorem round_of_nonneg (a : Int) (b : Nat) (k : Int) (ha : 0 ≤ a) :
    round a b k = roundNat a.natAbs b k := by
  unfold round
  simp [not_lt.mpr ha]

theorem round_le (a : Int) (b : Nat) (k : Int) (hb : 0 < b) (ha : 0 ≤ a) (y : ℚ) (hy : Rep y)
    (h : (a : ℚ) / b * (2 : ℚ) ^ k ≤ y) : (round a b k).val ≤ y := by
  rw [round_of_nonneg a b k ha]
  obtain ⟨n, rfl⟩ := Int.eq_ofNat_of_zero_le ha
  exact roundNat_le n b k hb y hy (by simpa using h)

theorem le_round (a : Int) (b : Nat) (k : Int) (hb : 0 < b) (ha : 0 ≤ a) (y : ℚ) (hy : Rep y)
    (h : y ≤ (a : ℚ) / b * (2 : ℚ) ^ k) : y ≤ (round a b k).val := by
  rw [round_of_nonneg a b k ha]
  obtain ⟨n, rfl⟩ := Int.eq_ofNat_of_zero_le ha
  exact le_roundNat n b k hb y hy (by simpa using h)

theorem round_nonpos (a : Int) (b : Nat) (k : Int) (ha : a ≤ 0) : (round a b k).val ≤ 0 := by
  unfold round
  split
  · have h := roundNat_val_nonneg a.natAbs b k
    unfold val at h ⊢
    simp only [Int.cast_neg, neg_mul]
    linarith
  · have h0 : a = 0 := by omega
    subst h0
    simp [roundNat, val]

/-- The conversion of an integer of at most 53 bits is exact. -/
theorem ofInt_val (n : Nat) (hn : n ≤ 2 ^ 53) : (ofInt (n : Int)).val = (n : ℚ) := by
  unfold ofInt
  apply le_antisymm
  · exact round_le n 1 0 (by decide) (by positivity) n (rep_nat n hn) (by simp)
  · exact le_round n 1 0 (by decide) (by positivity) n (rep_nat n hn) (by simp)

theorem ofInt_nonpos (n : Int) (hn : n ≤ 0) : (ofInt n).val ≤ 0 := round_nonpos n 1 0 hn

theorem add_exact (x y : F64) :
    ((x.m * 2 ^ (x.e - min x.e y.e).toNat + y.m * 2 ^ (y.e - min x.e y.e).toNat : Int) : ℚ) /
      ((1 : Nat) : ℚ) * (2 : ℚ) ^ (min x.e y.e) = x.val + y.val := by
  obtain ⟨e, he⟩ : ∃ e, e = min x.e y.e := ⟨_, rfl⟩
  rw [← he]
  obtain ⟨n1, h1⟩ := Int.eq_ofNat_of_zero_le (by omega : 0 ≤ x.e - e)
  obtain ⟨n2, h2⟩ := Int.eq_ofNat_of_zero_le (by omega : 0 ≤ y.e - e)
  rw [h1, h2, Int.toNat_ofNat, Int.toNat_ofNat]
  have e1 : x.e = e + n1 := by omega
  have e2 : y.e = e + n2 := by omega
  unfold val
  rw [e1, e2, zpow_add₀ (by norm_num), zpow_add₀ (by norm_num), zpow_natCast, zpow_natCast]
  push_cast
  ring

theorem add_le (x y : F64) (h0 : 0 ≤ x.val + y.val) (hi : ℚ) (hr : Rep hi)
    (h : x.val + y.val ≤ hi) : (add x y).val ≤ hi := by
  have he := add_exact x y
  unfold add
  simp only
  apply round_le _ 1 _ (by decide) _ hi hr (by rw [he]; exact h)
  rw [← he] at h0
  have hp : (0 : ℚ) < (2 : ℚ) ^ (min x.e y.e) := by positivity
  simp only [Nat.cast_one, div_one] at h0
  have := nonneg_of_mul_nonneg_left h0 hp
  exact_mod_cast this

theorem le_add (x y : F64) (h0 : 0 ≤ x.val + y.val) (lo : ℚ) (hr : Rep lo)
    (h : lo ≤ x.val + y.val) : lo ≤ (add x y).val := by
  have he := add_exact x y
  unfold add
  simp only
  apply le_round _ 1 _ (by decide) _ lo hr (by rw [he]; exact h)
  rw [← he] at h0
  have hp : (0 : ℚ) < (2 : ℚ) ^ (min x.e y.e) := by positivity
  simp only [Nat.cast_one, div_one] at h0
  have := nonneg_of_mul_nonneg_left h0 hp
  exact_mod_cast this

theorem add_nonpos (x y : F64) (h0 : x.val + y.val ≤ 0) : (add x y).val ≤ 0 := by
  have he := add_exact x y
  unfold add
  simp only
  apply round_nonpos
  rw [← he] at h0
  have hp : (0 : ℚ) < (2 : ℚ) ^ (min x.e y.e) := by positivity
  simp only [Nat.cast_one, div_one] at h0
  by_contra hcon
  have h1 : (0 : ℚ) < ((x.m * 2 ^ (x.e - min x.e y.e).toNat +
      y.m * 2 ^ (y.e - min x.e y.e).toNat : Int) : ℚ) := by exact_mod_cast not_le.mp hcon
  have := mul_pos h1 hp
  linarith

theorem div_exact (x y : F64) (hy : 0 < y.m) :
    ((x.m * y.m.sign : Int) : ℚ) / ((y.m.natAbs : Nat) : ℚ) * (2 : ℚ) ^ (x.e - y.e) =
      x.val / y.val := by
  have hs : y.m.sign = 1 := Int.sign_eq_one_of_pos hy
  have hn : ((y.m.natAbs : Nat) : ℚ) = (y.m : ℚ) := by
    rw [Nat.cast_natAbs, abs_of_pos hy]
  have hyq : (y.m : ℚ) ≠ 0 := by exact_mod_cast (ne_of_gt hy)
  have hp : (2 : ℚ) ^ y.e ≠ 0 := by positivity
  rw [hs, hn, zpow_sub₀ (by norm_num)]
  unfold val
  push_cast
  field_simp

theorem div_le (x y : F64) (hx : 0 ≤ x.val) (hy : 0 < y.val) (hi : ℚ) (hr : Rep hi)
    (h : x.val / y.val ≤ hi) : (div x y).val ≤ hi := by
  have hym := (val_pos_iff y).mp hy
  have hxm := (val_nonneg_iff x).mp hx
  have he := div_exact x y hym
  unfold div
  apply round_le _ _ _ (by omega) _ hi hr (by rw [he]; exact h)
  rw [Int.sign_eq_one_of_pos hym]
  omega

theorem le_div (x y : F64) (hx : 0 ≤ x.val) (hy : 0 < y.val) (lo : ℚ) (hr : Rep lo)
    (h : lo ≤ x.val / y.val) : lo ≤ (div x y).val := by
  have hym := (val_pos_iff y).mp hy
  have hxm := (val_nonneg_iff x).mp hx
  have he := div_exact x y hym
  unfold div
  apply le_round _ _ _ (by omega) _ lo hr (by rw [he]; exact h)
  rw [Int.sign_eq_one_of_pos hym]
  omega

theorem div_nonpos (x y : F64) (hx : x.val ≤ 0) (hy : 0 < y.val) : (div x y).val ≤ 0 := by
  have hym := (val_pos_iff y).mp hy
  unfold div
  apply round_nonpos
  rw [Int.sign_eq_one_of_pos hym]
  have : ¬ 0 < x.m := fun hc => absurd ((val_pos_iff x).mpr hc) (not_lt.mpr hx)
  omega

/-- On a non-negative number the conversion to an integer is the floor. -/
theorem toInt_floor (x : F64) (hx : 0 ≤ x.val) : toInt x = ⌊x.val⌋ := by
  have hm := (val_nonneg_iff x).mp hx
  unfold toInt val
  split
  · rename_i he
    obtain ⟨n, hn⟩ := Int.eq_ofNat_of_zero_le he
    rw [hn, Int.toNat_ofNat, zpow_natCast]
    have : ((x.m : ℚ) * (2 : ℚ) ^ n) = ((x.m * 2 ^ n : Int) : ℚ) := by push_cast; ring
    rw [this, Int.floor_intCast]
  · rename_i he
    obtain ⟨n, hn⟩ := Int.eq_ofNat_of_zero_le (by omega : 0 ≤ -x.e)
    have hn2 : x.e = -(n : Int) := by omega
    rw [hn, Int.toNat_ofNat, hn2, zpow_neg, zpow_natCast]
    have : (x.m : ℚ) * ((2 : ℚ) ^ n)⁻¹ = (x.m : ℚ) / ((2 ^ n : Nat) : ℚ) := by
      push_cast
      rw [div_eq_mul_inv]
    rw [this, Rat.floor_intCast_div_natCast, Int.tdiv_eq_ediv hm (by positivity)]
    push_cast
    rfl

theorem toInt_nonpos (x : F64) (hx : x.val ≤ 0) : toInt x ≤ 0 := by
  have hm : x.m ≤ 0 := by
    by_contra hc
    exact absurd ((val_pos_iff x).mpr (not_le.mp hc)) (not_lt.mpr hx)
  unfold toInt
  split
  · exact Int.mul_nonpos_of_nonpos_of_nonneg hm (by positivity)
  · obtain ⟨n, hn⟩ := Int.eq_ofNat_of_zero_le (by omega : 0 ≤ -x.m)
    have : x.m = -(n : Int) := by omega
    rw [this, Int.neg_tdiv]
    have := Int.tdiv_nonneg (Int.ofNat_nonneg n)
      (by positivity : (0 : Int) ≤ 2 ^ (-x.e).toNat)
    omega

end F64

/-! ## `formatStatus`: the claims -/

/-- C1. A raw status that contains "unhealthy" is never given the Healthy
category (the green-heart marker), in Compact mode or in Full mode; and
"Up 2 hours (unhealthy)" is classified Unhealthy. -/
theorem formatStatus_unhealthy_never_healthy (raw : String) (extractUptime : Bool)
    (h : strings.Contains raw "unhealthy" = true) :
    (formatStatusParts raw extractUptime).category ≠ Category.Healthy ∧
    (formatStatusParts raw extractUptime).marker ≠ healthyMarker ∧
    (formatStatusParts "Up 2 hours (unhealthy)" extractUptime).category = Category.Unhealthy := by
  have hu : strings.Contains (strings.TrimSpace raw) "unhealthy" = true := by
    rw [strings.Contains_TrimSpace_unhealthy]; exact h
  have hm : (formatStatusParts raw extractUptime).marker ≠ healthyMarker := by
    simp only [formatStatusParts, hu]
    cases extractUptime <;> simp only [if_true] <;> split_ifs <;> dsimp only <;> decide
  refine ⟨?_, hm, ?_⟩
  · intro hc
    apply hm
    unfold Styled.category at hc
    by_contra hne
    rw [if_neg hne] at hc
    split_ifs at hc
  · cases extractUptime <;> decide

/-- Witness of C1 at the raw status "Up 2 hours (unhealthy)" in Compact mode. -/
theorem formatStatus_unhealthy_never_healthy_witness :
    strings.Contains "Up 2 hours (unhealthy)" "unhealthy" = true ∧
    (formatStatusParts "Up 2 hours (unhealthy)" true).category ≠ Category.Healthy :=
  ⟨by decide, (formatStatus_unhealthy_never_healthy "Up 2 hours (unhealthy)" true (by decide)).1⟩

/-- C2. In Compact mode, a raw status that starts with "Up" and contains
"healthy" is shown with the text of the white-space-trimmed status before its
first " (" (which is the text of the raw status before its first " (" whenever
the raw status contains " ("), under the marker of its category: Unhealthy when
it contains "unhealthy", Healthy otherwise. -/
theorem formatStatus_compact_health_text (R : Style → String → String) (raw : String)
    (hUp : strings.HasPrefix raw "Up" = true) (hH : strings.Contains raw "healthy" = true) :
    (formatStatusParts raw true).text =
        strings.substringBefore (strings.TrimSpace raw) " (" ∧
    (strings.Contains raw " (" = true →
        (formatStatusParts raw true).text = strings.substringBefore raw " (") ∧
    (formatStatusParts raw true).category =
        (if strings.Contains raw "unhealthy" = true then Category.Unhealthy
         else Category.Healthy) ∧
    formatStatus R raw true =
        (if strings.Contains raw "unhealthy" = true then
          unhealthyMarker ++
            R Style.unhealthyStyle (strings.substringBefore (strings.TrimSpace raw) " (")
         else
          healthyMarker ++
            R Style.runningStyle (strings.substringBefore (strings.TrimSpace raw) " (")) := by
  obtain ⟨b, hb, htb⟩ := strings.TrimSpace_of_Up raw hUp
  have hUp2 : strings.HasPrefix (strings.TrimSpace raw) "Up" = true := by
    simp [strings.HasPrefix, htb]
  have hH2 : strings.Contains (strings.TrimSpace raw) "healthy" = true := by
    rw [strings.Contains_TrimSpace_healthy]; exact hH
  have htext : (formatStatusParts raw true).text =
      strings.substringBefore (strings.TrimSpace raw) " (" := by
    simp only [formatStatusParts, hUp2, hH2, if_true, strings.Split_head]
    split_ifs <;> rfl
  refine ⟨htext, ?_, ?_, ?_⟩
  · intro hp
    rw [htext]
    simp only [strings.Contains, strings.hasInfix_iff] at hp
    rw [hb] at hp
    have := strings.beforeFirst_trim ('p' :: b) " (".data [' '] 'U' '(' (by decide) (by decide) rfl hp
    simp only [strings.substringBefore, strings.TrimSpace, hb, this]
  · simp only [formatStatusParts, hUp2, hH2, if_true, strings.Contains_TrimSpace_unhealthy]
    split_ifs <;> rfl
  · simp only [formatStatus, formatStatusParts, hUp2, hH2, if_true, strings.Split_head,
      strings.Contains_TrimSpace_unhealthy]
    split_ifs <;> rfl

/-- Witness of C2: "Up 3 hours (healthy)" in Compact mode is Healthy with the
text "Up 3 hours". -/
theorem formatStatus_compact_health_text_witness :
    strings.HasPrefix "Up 3 hours (healthy)" "Up" = true ∧
    strings.Contains "Up 3 hours (healthy)" "healthy" = true ∧
    (formatStatusParts "Up 3 hours (healthy)" true).text = "Up 3 hours" ∧
    (formatStatusParts "Up 3 hours (healthy)" true).category = Category.Healthy :=
  ⟨by decide, by decide,
    ((formatStatus_compact_health_text (fun _ s => s) "Up 3 hours (healthy)"
      (by decide) (by decide)).1).trans (by decide),
    ((formatStatus_compact_health_text (fun _ s => s) "Up 3 hours (healthy)"
      (by decide) (by decide)).2.2.1).trans (by decide)⟩

/-- C2 as stated fails: "Up healthy " starts with "Up" and contains "healthy",
but the text shown in Compact mode is not the part of the raw status before its
first " (" (which is the whole raw status, trailing space included). -/
theorem formatStatus_compact_text_differs :
    strings.HasPrefix "Up healthy " "Up" = true ∧
    strings.Contains "Up healthy " "healthy" = true ∧
    strings.substringBefore "Up healthy " " (" = "Up healthy " ∧
    (formatStatusParts "Up healthy " true).text = "Up healthy" ∧
    (formatStatusParts "Up healthy " true).text ≠ strings.substringBefore "Up healthy " " (" := by
  decide

/-- C3. When the white-space-trimmed raw status does not start with "Up", the
text shown is the trimmed status in both modes; the category is Stopped,
Created or Restarting when the trimmed status starts with "Exited", "Created"
or "Restarting", and otherwise Unknown, with no marker and no style, so that
the result is the trimmed status itself. -/
theorem formatStatus_not_up (R : Style → String → String) (raw : String)
    (extractUptime : Bool)
    (h : strings.HasPrefix (strings.TrimSpace raw) "Up" = false) :
    (formatStatusParts raw extractUptime).text = strings.TrimSpace raw ∧
    (strings.HasPrefix (strings.TrimSpace raw) "Exited" = true →
      (formatStatusParts raw extractUptime).category = Category.Stopped) ∧
    (strings.HasPrefix (strings.TrimSpace raw) "Created" = true →
      (formatStatusParts raw extractUptime).category = Category.Created) ∧
    (strings.HasPrefix (strings.TrimSpace raw) "Restarting" = true →
      (formatStatusParts raw extractUptime).category = Category.Restarting) ∧
    (strings.HasPrefix (strings.TrimSpace raw) "Exited" = false →
      strings.HasPrefix (strings.TrimSpace raw) "Created" = false →
      strings.HasPrefix (strings.TrimSpace raw) "Restarting" = false →
      (formatStatusParts raw extractUptime).category = Category.Unknown ∧
      (formatStatusParts raw extractUptime).marker = "" ∧
      (formatStatusParts raw extractUptime).style = none ∧
      formatStatus R raw extractUptime = strings.TrimSpace raw) := by
  have hEC : strings.HasPrefix (strings.TrimSpace raw) "Created" = true →
      strings.HasPrefix (strings.TrimSpace raw) "Exited" = false :=
    fun hc => (strings.prefix_exclusive _).1 hc
  have hER : strings.HasPrefix (strings.TrimSpace raw) "Restarting" = true →
      strings.HasPrefix (strings.TrimSpace raw) "Exited" = false ∧
      strings.HasPrefix (strings.TrimSpace raw) "Created" = false :=
    fun hc => (strings.prefix_exclusive _).2 hc
  refine ⟨?_, ?_, ?_, ?_, ?_⟩
  · cases extractUptime <;> simp only [formatStatusParts, h, Bool.false_eq_true, if_false,
      if_true] <;> split_ifs <;> rfl
  · intro hE
    cases extractUptime <;> simp only [formatStatusParts, h, hE, Bool.false_eq_true, if_false,
      if_true] <;> rfl
  · intro hC
    cases extractUptime <;> simp only [formatStatusParts, h, hC, hEC hC, Bool.false_eq_true,
      if_false, if_true] <;> rfl
  · intro hR
    cases extractUptime <;> simp only [formatStatusParts, h, hR, (hER hR).1, (hER hR).2,
      Bool.false_eq_true, if_false, if_true] <;> rfl
  · intro hE hC hR
    cases extractUptime <;> simp only [formatStatus, formatStatusParts, h, hE, hC, hR,
      Bool.false_eq_true, if_false, if_true, Styled.render] <;>
      refine ⟨by rfl, by trivial, by trivial, by simp⟩

/-- Witness of C3 at the raw status "Exited (1) 2 days ago" in Full mode. -/
theorem formatStatus_not_up_witness :
    strings.HasPrefix (strings.TrimSpace "Exited (1) 2 days ago") "Up" = false ∧
    (formatStatusParts "Exited (1) 2 days ago" false).text = "Exited (1) 2 days ago" ∧
    (formatStatusParts "Exited (1) 2 days ago" false).category = Category.Stopped :=
  ⟨by decide,
    ((formatStatus_not_up (fun _ s => s) "Exited (1) 2 days ago" false (by decide)).1).trans
      (by decide),
    (formatStatus_not_up (fun _ s => s) "Exited (1) 2 days ago" false (by decide)).2.1
      (by decide)⟩

/-- C3 as stated fails: " Up 3 hours" does not start with "Up", yet it is
classified Running (not Unknown) and shown without its leading space; and
"Exited (0) " starts with "Exited" but is shown without its trailing space. -/
theorem formatStatus_raw_prefix_not_decisive :
    strings.HasPrefix " Up 3 hours" "Up" = false ∧
    strings.HasPrefix " Up 3 hours" "Exited" = false ∧
    strings.HasPrefix " Up 3 hours" "Created" = false ∧
    strings.HasPrefix " Up 3 hours" "Restarting" = false ∧
    (formatStatusParts " Up 3 hours" true).category = Category.Running ∧
    (formatStatusParts " Up 3 hours" false).category = Category.Running ∧
    (formatStatusParts " Up 3 hours" false).text ≠ " Up 3 hours" ∧
    strings.HasPrefix "Exited (0) " "Exited" = true ∧
    (formatStatusParts "Exited (0) " false).text ≠ "Exited (0) " := by
  decide

/-! ## Port formatting: the claims -/

theorem portKey_eq_iff (p q : Port) : portKey q = portKey p ↔ portPair q = portPair p := by
  constructor
  · intro h
    have := key_injective _ _ _ _ h
    simp only [portPair, Prod.mk.injEq]
    exact this
  · intro h
    simp only [portPair, Prod.mk.injEq] at h
    simp only [portKey, h.1, h.2]

theorem compactLoop_step (R : Style → String → String) (p : Port) (ps : List Port)
    (acc seen : List String) (h : portKey p ∉ seen) :
    formatPortsMultiLineLoop R (p :: ps) acc seen =
      formatPortsMultiLineLoop R ps (acc ++ [compactEntry R p]) (portKey p :: seen) := by
  have h2 : fmtNat p.PublicPort ++ ":" ++ fmtNat p.PrivatePort ∉ seen := h
  simp only [formatPortsMultiLineLoop, h2, if_false, compactEntry, portKey]
  by_cases h0 : p.PublicPort = 0
  · simp only [h0, ne_eq, not_true_eq_false, if_false, if_true]
  · by_cases h1 : p.PublicPort = p.PrivatePort
    · simp only [h0, ne_eq, not_false_eq_true, if_true, if_false, if_pos h1]
    · simp only [h0, ne_eq, not_false_eq_true, if_true, if_false, if_neg h1]

theorem compactLoop_eq (R : Style → String → String) (ps : List Port)
    (acc seen : List String) :
    formatPortsMultiLineLoop R ps acc seen =
      acc ++ ((keepFirstByPair ps).filter (fun q => decide (portKey q ∉ seen))).map
        (compactEntry R) := by
  induction ps generalizing acc seen with
  | nil => simp [formatPortsMultiLineLoop, keepFirstByPair]
  | cons p ps ih =>
    by_cases hk : portKey p ∈ seen
    · have hstep : formatPortsMultiLineLoop R (p :: ps) acc seen =
          formatPortsMultiLineLoop R ps acc seen := by
        have h2 : fmtNat p.PublicPort ++ ":" ++ fmtNat p.PrivatePort ∈ seen := hk
        simp only [formatPortsMultiLineLoop, h2, if_true]
      rw [hstep, ih]
      simp only [keepFirstByPair, List.filter_cons, hk, not_true_eq_false, decide_False,
        Bool.false_eq_true, if_false, List.filter_filter]
      congr 2
      apply List.filter_congr
      intro q _
      by_cases hq : portKey q ∈ seen
      · simp [hq]
      · have : portPair q ≠ portPair p := by
          intro he
          exact hq ((portKey_eq_iff p q).mpr he ▸ hk)
        simp [hq, this]
    · rw [compactLoop_step R p ps acc seen hk, ih]
      simp only [keepFirstByPair, List.filter_cons, hk, not_false_eq_true, decide_True,
        if_true, List.filter_filter, List.map_cons, List.append_assoc, List.singleton_append]
      congr 3
      apply List.filter_congr
      intro q _
      simp only [List.mem_cons, not_or, portKey_eq_iff, Bool.decide_and, decide_not,
        Bool.and_comm]

theorem keepFirstByPair_sublist (ps : List Port) : (keepFirstByPair ps).Sublist ps := by
  induction ps with
  | nil => simp [keepFirstByPair]
  | cons p ps ih =>
    simp only [keepFirstByPair]
    exact List.Sublist.cons₂ p ((List.filter_sublist _).trans ih)

theorem keepFirstByPair_nodup (ps : List Port) : ((keepFirstByPair ps).map portPair).Nodup := by
  induction ps with
  | nil => simp [keepFirstByPair]
  | cons p ps ih =>
    simp only [keepFirstByPair, List.map_cons, List.nodup_cons, List.mem_map, List.mem_filter,
      not_exists, not_and]
    refine ⟨?_, ?_⟩
    · rintro q ⟨_, hq⟩ he
      simp at hq
      exact hq he
    · exact ih.sublist ((List.filter_sublist _).map portPair)

theorem keepFirstByPair_covers (ps : List Port) (p : Port) (hp : p ∈ ps) :
    portPair p ∈ (keepFirstByPair ps).map portPair := by
  induction ps with
  | nil => simp at hp
  | cons x xs ih =>
    simp only [keepFirstByPair, List.map_cons, List.mem_cons]
    by_cases hx : portPair p = portPair x
    · exact Or.inl hx
    · right
      have hpx : p ∈ xs := by
        rcases List.mem_cons.mp hp with h | h
        · exact absurd (h ▸ rfl) hx
        · exact h
      obtain ⟨q, hq, hqe⟩ := List.mem_map.mp (ih hpx)
      exact List.mem_map.mpr ⟨q, List.mem_filter.mpr ⟨hq, by simp [hqe, hx]⟩, hqe⟩

theorem keepFirstByPair_first (ps : List Port) (q : Port) (hq : q ∈ keepFirstByPair ps) :
    ps.find? (fun x => decide (portPair x = portPair q)) = some q := by
  induction ps with
  | nil => simp [keepFirstByPair] at hq
  | cons x xs ih =>
    simp only [keepFirstByPair, List.mem_cons, List.mem_filter] at hq
    rcases hq with rfl | ⟨hq1, hq2⟩
    · simp [List.find?]
    · have hne : portPair x ≠ portPair q := by
        intro he
        simp [he] at hq2
      simp only [List.find?, hne, decide_False]
      exact ih hq1

/-- C4. The compact port format is the ", "-join of the entries of the list
that keeps the first port of each (publicPort, privatePort) pair, in the
original order: that list is a sublist of the input, holds no pair twice, holds
every pair of the input, and each of its ports is the first port of the input
with its pair. An entry is privatePort alone when publicPort is zero, the single
number when both are equal, "public:private" otherwise. The list
[{8080,80,tcp},{8080,80,tcp}] yields the single entry "8080:80". -/
theorem formatPortsMultiLine_spec (R : Style → String → String) (ports : List Port) :
    formatPortsMultiLine R ports =
        strings.Join ((keepFirstByPair ports).map (compactEntry R)) ", " ∧
    (keepFirstByPair ports).Sublist ports ∧
    ((keepFirstByPair ports).map portPair).Nodup ∧
    (∀ p ∈ ports, portPair p ∈ (keepFirstByPair ports).map portPair) ∧
    (∀ q ∈ keepFirstByPair ports,
        ports.find? (fun x => decide (portPair x = portPair q)) = some q) ∧
    formatPortsMultiLineLoop R [⟨"", 80, 8080, "tcp"⟩, ⟨"", 80, 8080, "tcp"⟩] [] [] =
        [R Style.portPublicStyle "8080" ++ ":" ++ R Style.dimStyle "80"] ∧
    formatPortsMultiLine (fun _ s => s) [⟨"", 80, 8080, "tcp"⟩, ⟨"", 80, 8080, "tcp"⟩] =
        "8080:80" := by
  refine ⟨?_, keepFirstByPair_sublist ports, keepFirstByPair_nodup ports,
    keepFirstByPair_covers ports, keepFirstByPair_first ports, by rfl, by decide⟩
  unfold formatPortsMultiLine
  split
  · rename_i h
    have : ports = [] := List.length_eq_zero.mp h
    subst this
    rfl
  · rw [compactLoop_eq]
    simp

theorem verboseLoop_eq (R : Style → String → String) (ps : List Port) (acc : List String) :
    formatPortsVerboseLoop R ps acc = acc ++ ps.map (verboseEntry R) := by
  induction ps generalizing acc with
  | nil => simp [formatPortsVerboseLoop]
  | cons p ps ih =>
    simp only [formatPortsVerboseLoop]
    split <;> rw [ih] <;> simp [verboseEntry, *]

/-- C5. The detailed port format does not deduplicate: its entries are as many
as the ports of the input, the i-th entry being "public:private/protocol" when
the i-th port has a non-zero publicPort and "private/protocol" otherwise; the
result is their ", "-join, and the empty string for the empty list. -/
theorem formatPortsVerbose_spec (R : Style → String → String) (ports : List Port) :
    (formatPortsVerboseLoop R ports []).length = ports.length ∧
    (∀ (i : Nat) (p : Port), ports[i]? = some p →
      (formatPortsVerboseLoop R ports [])[i]? = some
        (if p.PublicPort ≠ 0 then
          R Style.portPublicStyle (fmtNat p.PublicPort) ++ ":" ++ fmtNat p.PrivatePort ++ "/" ++
            p.PortType
         else fmtNat p.PrivatePort ++ "/" ++ p.PortType)) ∧
    formatPortsVerbose R ports = strings.Join (formatPortsVerboseLoop R ports []) ", " ∧
    formatPortsVerbose R [] = "" ∧
    formatPortsVerbose (fun _ s => s) [⟨"", 80, 8080, "tcp"⟩, ⟨"", 80, 8080, "tcp"⟩] =
        "8080:80/tcp, 8080:80/tcp" := by
  refine ⟨?_, ?_, ?_, by rfl, by decide⟩
  · simp [verboseLoop_eq]
  · intro i p hp
    simp only [verboseLoop_eq, List.nil_append, List.getElem?_map, hp, Option.map_some']
    rfl
  · unfold formatPortsVerbose
    split
    · rename_i h
      have : ports = [] := List.length_eq_zero.mp h
      subst this
      rfl
    · rfl

/-! ## Lemmas on the ordering of the records -/

theorem createdAfter_strictWeakOrder : StrictWeakOrder createdAfter := by
  refine ⟨?_, ?_⟩
  · intro a b h
    simp only [createdAfter, decide_eq_true_eq, decide_eq_false_iff_not] at h ⊢
    omega
  · intro a b c h1 h2
    simp only [createdAfter, decide_eq_false_iff_not] at h1 h2 ⊢
    omega

theorem reversingSort_contract : SortSliceContract reversingSort := by
  intro less xs hless
  haveI : IsTotal ContainerInfo (fun a b => less b a = false) :=
    ⟨fun a b => by
      cases h : less b a
      · exact Or.inl rfl
      · exact Or.inr (hless.1 b a h)⟩
  haveI : IsTrans ContainerInfo (fun a b => less b a = false) :=
    ⟨fun a b c h1 h2 => hless.2 c b a h2 h1⟩
  refine ⟨?_, ?_⟩
  · exact (List.perm_insertionSort _ _).trans (List.reverse_perm xs)
  · exact List.sorted_insertionSort (fun a b => less b a = false) xs.reverse

/-! ## Lemmas on the counts of a duration -/

theorem tmod_of_neg (a b : Int) : (-a).tmod b = -(a.tmod b) := by
  rw [Int.tmod_def, Int.tmod_def, Int.neg_tdiv]
  ring

namespace F64

/-- The sum `float64(q) + float64(r) / U` for `r < U` lies between `q` and `q + 1`. -/
theorem fracSum_between (q r U : Nat) (hU : 0 < U) (hU2 : U ≤ 2 ^ 53) (hr : r < U)
    (hq : q + 2 ≤ 2 ^ 53) :
    Between (add (ofInt (q : Int)) (div (ofInt (r : Int)) (ofInt (U : Int)))) q (q + 1) 0 := by
  have hqv := ofInt_val q (by omega)
  have hrv := ofInt_val r (by omega)
  have hUv := ofInt_val U hU2
  have hUq : (0 : ℚ) < U := by exact_mod_cast hU
  have hrq : (r : ℚ) ≤ U := by exact_mod_cast le_of_lt hr
  have hr0 : (0 : ℚ) ≤ (ofInt (r : Int)).val := by rw [hrv]; positivity
  have hU0 : (0 : ℚ) < (ofInt (U : Int)).val := by rw [hUv]; exact hUq
  have hf0 : 0 ≤ (div (ofInt (r : Int)) (ofInt (U : Int))).val :=
    le_div _ _ hr0 hU0 0 rep_zero (by rw [hrv, hUv]; positivity)
  have hf1 : (div (ofInt (r : Int)) (ofInt (U : Int))).val ≤ 1 := by
    have h1 : Rep 1 := by simpa using rep_nat 1 (by norm_num)
    exact div_le _ _ hr0 hU0 1 h1 (by rw [hrv, hUv, div_le_one hUq]; exact hrq)
  have hq0 : (0 : ℚ) ≤ q := by positivity
  constructor
  · exact le_add (ofInt (q : Int)) (div (ofInt (r : Int)) (ofInt (U : Int)))
      (by rw [hqv]; linarith) q (rep_nat q (by omega)) (by rw [hqv]; linarith)
  · have h2 : Rep ((q : ℚ) + 1) := by
      have := rep_nat (q + 1) (by omega)
      simpa using this
    have := add_le (ofInt (q : Int)) (div (ofInt (r : Int)) (ofInt (U : Int)))
      (by rw [hqv]; linarith) ((q : ℚ) + 1) h2 (by rw [hqv]; linarith)
    push_cast
    simp only [pow_zero, inv_one]
    linarith

/-- The sum `float64(q) + float64(r) / U` stays below `q + 1` by `2 ^ (-j)` when
the quotient `r / U` does and `(q + 1) * 2 ^ j` has at most 53 bits. -/
theorem fracSum_exact (q r U j : Nat) (hU : 0 < U) (hU2 : U ≤ 2 ^ 53) (hr : r < U)
    (hj : (q + 1) * 2 ^ j ≤ 2 ^ 53) (hrj : r * 2 ^ j + U ≤ U * 2 ^ j) :
    Between (add (ofInt (q : Int)) (div (ofInt (r : Int)) (ofInt (U : Int)))) q q j := by
  have hp : 1 ≤ 2 ^ j := Nat.one_le_two_pow
  have hq53 : q + 1 ≤ 2 ^ 53 := by
    calc q + 1 = (q + 1) * 1 := (Nat.mul_one _).symm
      _ ≤ (q + 1) * 2 ^ j := Nat.mul_le_mul_left _ hp
      _ ≤ 2 ^ 53 := hj
  have hj53 : 1 * 2 ^ j ≤ 2 ^ 53 :=
    le_trans (Nat.mul_le_mul_right _ (by omega)) hj
  have hqv := ofInt_val q (by omega)
  have hrv := ofInt_val r (by omega)
  have hUv := ofInt_val U hU2
  have hUq : (0 : ℚ) < U := by exact_mod_cast hU
  have hpq : (0 : ℚ) < (2 : ℚ) ^ j := by positivity
  have hr0 : (0 : ℚ) ≤ (ofInt (r : Int)).val := by rw [hrv]; positivity
  have hU0 : (0 : ℚ) < (ofInt (U : Int)).val := by rw [hUv]; exact hUq
  have hf0 : 0 ≤ (div (ofInt (r : Int)) (ofInt (U : Int))).val :=
    le_div _ _ hr0 hU0 0 rep_zero (by rw [hrv, hUv]; positivity)
  have hrjq : (r : ℚ) * (2 : ℚ) ^ j + U ≤ U * (2 : ℚ) ^ j := by exact_mod_cast hrj
  have hf1 : (div (ofInt (r : Int)) (ofInt (U : Int))).val ≤ 1 - ((2 : ℚ) ^ j)⁻¹ := by
    have h1 : Rep (1 - ((2 : ℚ) ^ j)⁻¹) := by
      simpa using rep_below 1 j (by norm_num) hj53
    refine div_le _ _ hr0 hU0 _ h1 ?_
    rw [hrv, hUv, div_le_iff₀ hUq]
    have e : ((1 - ((2 : ℚ) ^ j)⁻¹) * U) * (2 : ℚ) ^ j = U * (2 : ℚ) ^ j - U := by
      field_simp
      ring
    have h3 : (r : ℚ) * (2 : ℚ) ^ j ≤ ((1 - ((2 : ℚ) ^ j)⁻¹) * U) * (2 : ℚ) ^ j := by
      rw [e]
      linarith
    exact le_of_mul_le_mul_right h3 hpq
  have hq0 : (0 : ℚ) ≤ q := by positivity
  constructor
  · exact le_add (ofInt (q : Int)) (div (ofInt (r : Int)) (ofInt (U : Int)))
      (by rw [hqv]; linarith) q (rep_nat q (by omega)) (by rw [hqv]; linarith)
  · have h2 : Rep ((q : ℚ) + 1 - ((2 : ℚ) ^ j)⁻¹) := by
      have := rep_below (q + 1) j (by omega) hj
      simpa using this
    exact add_le (ofInt (q : Int)) (div (ofInt (r : Int)) (ofInt (U : Int)))
      (by rw [hqv]; linarith) _ h2 (by rw [hqv]; linarith)

/-- Division by a constant `c ≤ 2 ^ s` keeps a number between two naturals
between their quotients by `c`. -/
theorem divConst_between (x : F64) (lo hi j c s : Nat) (hc : 0 < c) (hcs : c ≤ 2 ^ s)
    (hc53 : c ≤ 2 ^ 53) (h : Between x lo hi j) (hlo : lo / c ≤ 2 ^ 53)
    (hrep : (hi / c + 1) * 2 ^ (j + s) ≤ 2 ^ 53) :
    Between (div x (ofInt (c : Int))) (lo / c) (hi / c) (j + s) := by
  obtain ⟨h1, h2⟩ := h
  have hcv := ofInt_val c hc53
  have hcq : (0 : ℚ) < c := by exact_mod_cast hc
  have hx0 : 0 ≤ x.val := le_trans (by positivity) h1
  have hc0 : (0 : ℚ) < (ofInt (c : Int)).val := by rw [hcv]; exact hcq
  constructor
  · refine le_div _ _ hx0 hc0 _ (rep_nat _ hlo) ?_
    rw [hcv]
    exact le_trans Nat.cast_div_le (div_le_div_of_nonneg_right h1 (le_of_lt hcq))
  · have hr : Rep (((hi / c : Nat) : ℚ) + 1 - ((2 : ℚ) ^ (j + s))⁻¹) := by
      have := rep_below (hi / c + 1) (j + s) (Nat.succ_pos _) hrep
      simpa using this
    refine div_le _ _ hx0 hc0 _ hr ?_
    rw [hcv, div_le_iff₀ hcq]
    have hdm : hi + 1 ≤ (hi / c + 1) * c := by
      have h3 := Nat.div_add_mod hi c
      have h4 := Nat.mod_lt hi hc
      have h5 : (hi / c + 1) * c = c * (hi / c) + c := by ring
      omega
    have hdq : (hi : ℚ) + 1 ≤ (((hi / c : Nat) : ℚ) + 1) * c := by exact_mod_cast hdm
    have hcsq : (c : ℚ) ≤ (2 : ℚ) ^ s := by exact_mod_cast hcs
    have hpj : (0 : ℚ) < (2 : ℚ) ^ j := by positivity
    have hps : (0 : ℚ) < (2 : ℚ) ^ s := by positivity
    have heps : ((2 : ℚ) ^ (j + s))⁻¹ * c ≤ ((2 : ℚ) ^ j)⁻¹ := by
      rw [pow_add, mul_inv, mul_assoc]
      have h6 : ((2 : ℚ) ^ s)⁻¹ * c ≤ 1 := by
        rw [inv_mul_le_iff₀ hps]
        linarith
      calc ((2 : ℚ) ^ j)⁻¹ * (((2 : ℚ) ^ s)⁻¹ * c) ≤ ((2 : ℚ) ^ j)⁻¹ * 1 :=
            mul_le_mul_of_nonneg_left h6 (by positivity)
        _ = ((2 : ℚ) ^ j)⁻¹ := mul_one _
    have e : (((hi / c : Nat) : ℚ) + 1 - ((2 : ℚ) ^ (j + s))⁻¹) * c =
        (((hi / c : Nat) : ℚ) + 1) * c - ((2 : ℚ) ^ (j + s))⁻¹ * c := by ring
    rw [e]
    linarith

/-- The integer part of a number between `lo` and `hi + 1 - 2 ^ (-j)`. -/
theorem toInt_between (x : F64) (lo hi j : Nat) (h : Between x lo hi j) :
    (lo : Int) ≤ toInt x ∧ toInt x ≤ (hi : Int) := by
  obtain ⟨h1, h2⟩ := h
  have hx0 : 0 ≤ x.val := le_trans (by positivity) h1
  have hpj : (0 : ℚ) < ((2 : ℚ) ^ j)⁻¹ := by positivity
  rw [toInt_floor x hx0]
  constructor
  · rw [Int.le_floor]
    exact_mod_cast h1
  · have : ⌊x.val⌋ < (hi : Int) + 1 := by
      rw [Int.floor_lt]
      push_cast
      linarith
    omega

end F64

theorem Hours_natCast (n : Nat) :
    Duration.Hours (n : Int) =
      F64.add (F64.ofInt ((n / 3600000000000 : Nat) : Int))
        (F64.div (F64.ofInt ((n % 3600000000000 : Nat) : Int))
          (F64.ofInt ((3600000000000 : Nat) : Int))) := by
  have hH : Hour = ((3600000000000 : Nat) : Int) := by decide
  unfold Duration.Hours
  simp only [hH, ← Int.ofNat_tdiv, ← Int.ofNat_tmod]
  rfl

theorem Minutes_natCast (n : Nat) :
    Duration.Minutes (n : Int) =
      F64.add (F64.ofInt ((n / 60000000000 : Nat) : Int))
        (F64.div (F64.ofInt ((n % 60000000000 : Nat) : Int))
          (F64.ofInt ((60000000000 : Nat) : Int))) := by
  have hH : Minute = ((60000000000 : Nat) : Int) := by decide
  unfold Duration.Minutes
  simp only [hH, ← Int.ofNat_tdiv, ← Int.ofNat_tmod]
  rfl

theorem Seconds_natCast (n : Nat) :
    Duration.Seconds (n : Int) =
      F64.add (F64.ofInt ((n / 1000000000 : Nat) : Int))
        (F64.div (F64.ofInt ((n % 1000000000 : Nat) : Int))
          (F64.ofInt ((1000000000 : Nat) : Int))) := by
  have hH : Second = ((1000000000 : Nat) : Int) := by decide
  unfold Duration.Seconds
  simp only [hH, ← Int.ofNat_tdiv, ← Int.ofNat_tmod]
  rfl

/-- The value of `d.Hours()` lies between the whole hours and one more. -/
theorem hours_between (n : Nat) (hn : n ≤ 9223372036854775807) :
    F64.Between (Duration.Hours (n : Int)) (n / 3600000000000) (n / 3600000000000 + 1) 0 := by
  rw [Hours_natCast]
  exact F64.fracSum_between _ _ _ (by norm_num) (by norm_num) (Nat.mod_lt _ (by norm_num))
    (by norm_num; omega)

/-- Below 2048 hours the integer part of `d.Hours()` is the whole hours. -/
theorem hours_between_small (n : Nat) (hn : n / 3600000000000 + 1 ≤ 2048) :
    F64.Between (Duration.Hours (n : Int)) (n / 3600000000000) (n / 3600000000000) 42 := by
  rw [Hours_natCast]
  exact F64.fracSum_exact _ _ _ 42 (by norm_num) (by norm_num) (Nat.mod_lt _ (by norm_num))
    (by norm_num; omega) (by norm_num; omega)

/-- On whole seconds the integer part of `d.Hours()` is the whole hours. -/
theorem hours_between_whole (n : Nat) (hn : n ≤ 9223372036854775807)
    (hw : n % 1000000000 = 0) :
    F64.Between (Duration.Hours (n : Int)) (n / 3600000000000) (n / 3600000000000) 12 := by
  rw [Hours_natCast]
  exact F64.fracSum_exact _ _ _ 12 (by norm_num) (by norm_num) (Nat.mod_lt _ (by norm_num))
    (by norm_num; omega) (by norm_num; omega)

theorem minutes_between (n : Nat) (hn : n ≤ 9223372036854775807) :
    F64.Between (Duration.Minutes (n : Int)) (n / 60000000000) (n / 60000000000 + 1) 0 := by
  rw [Minutes_natCast]
  exact F64.fracSum_between _ _ _ (by norm_num) (by norm_num) (Nat.mod_lt _ (by norm_num))
    (by norm_num; omega)

theorem minutes_between_small (n : Nat) (hn : n / 60000000000 + 1 ≤ 131072) :
    F64.Between (Duration.Minutes (n : Int)) (n / 60000000000) (n / 60000000000) 36 := by
  rw [Minutes_natCast]
  exact F64.fracSum_exact _ _ _ 36 (by norm_num) (by norm_num) (Nat.mod_lt _ (by norm_num))
    (by norm_num; omega) (by norm_num; omega)

theorem minutes_between_whole (n : Nat) (hn : n ≤ 9223372036854775807)
    (hw : n % 1000000000 = 0) :
    F64.Between (Duration.Minutes (n : Int)) (n / 60000000000) (n / 60000000000) 6 := by
  rw [Minutes_natCast]
  exact F64.fracSum_exact _ _ _ 6 (by norm_num) (by norm_num) (Nat.mod_lt _ (by norm_num))
    (by norm_num; omega) (by norm_num; omega)

theorem seconds_between (n : Nat) (hn : n ≤ 9223372036854775807) :
    F64.Between (Duration.Seconds (n : Int)) (n / 1000000000) (n / 1000000000 + 1) 0 := by
  rw [Seconds_natCast]
  exact F64.fracSum_between _ _ _ (by norm_num) (by norm_num) (Nat.mod_lt _ (by norm_num))
    (by norm_num; omega)

theorem seconds_between_small (n : Nat) (hn : n / 1000000000 + 1 ≤ 8388608) :
    F64.Between (Duration.Seconds (n : Int)) (n / 1000000000) (n / 1000000000) 30 := by
  rw [Seconds_natCast]
  exact F64.fracSum_exact _ _ _ 30 (by norm_num) (by norm_num) (Nat.mod_lt _ (by norm_num))
    (by norm_num; omega) (by norm_num; omega)

theorem seconds_between_whole (n : Nat) (hn : n ≤ 9223372036854775807)
    (hw : n % 1000000000 = 0) :
    F64.Between (Duration.Seconds (n : Int)) (n / 1000000000) (n / 1000000000) 0 := by
  rw [Seconds_natCast]
  exact F64.fracSum_exact _ _ _ 0 (by norm_num) (by norm_num) (Nat.mod_lt _ (by norm_num))
    (by norm_num; omega) (by norm_num; omega)

theorem intDays_of_between (d : Int) (lo hi j : Nat)
    (h : F64.Between (Duration.Hours d) lo hi j) (hlo : lo / 24 ≤ 2 ^ 53)
    (hrep : (hi / 24 + 1) * 2 ^ (j + 5) ≤ 2 ^ 53) :
    ((lo / 24 : Nat) : Int) ≤ intDays d ∧ intDays d ≤ ((hi / 24 : Nat) : Int) :=
  F64.toInt_between _ _ _ _
    (F64.divConst_between _ lo hi j 24 5 (by norm_num) (by norm_num) (by norm_num) h hlo hrep)

theorem intMonths_of_between (d : Int) (lo hi j : Nat)
    (h : F64.Between (Duration.Hours d) lo hi j) (hlo : lo / 24 ≤ 2 ^ 53)
    (hrep : (hi / 24 + 1) * 2 ^ (j + 5) ≤ 2 ^ 53)
    (hrep2 : (hi / 24 / 30 + 1) * 2 ^ (j + 5 + 5) ≤ 2 ^ 53) :
    ((lo / 24 / 30 : Nat) : Int) ≤ intMonths d ∧ intMonths d ≤ ((hi / 24 / 30 : Nat) : Int) :=
  F64.toInt_between _ _ _ _
    (F64.divConst_between _ (lo / 24) (hi / 24) (j + 5) 30 5 (by norm_num) (by norm_num)
      (by norm_num)
      (F64.divConst_between _ lo hi j 24 5 (by norm_num) (by norm_num) (by norm_num) h hlo hrep)
      (le_trans (Nat.div_le_self _ _) hlo) hrep2)

theorem intYears_of_between (d : Int) (lo hi j : Nat)
    (h : F64.Between (Duration.Hours d) lo hi j) (hlo : lo / 24 ≤ 2 ^ 53)
    (hrep : (hi / 24 + 1) * 2 ^ (j + 5) ≤ 2 ^ 53)
    (hrep2 : (hi / 24 / 365 + 1) * 2 ^ (j + 5 + 9) ≤ 2 ^ 53) :
    ((lo / 24 / 365 : Nat) : Int) ≤ intYears d ∧ intYears d ≤ ((hi / 24 / 365 : Nat) : Int) :=
  F64.toInt_between _ _ _ _
    (F64.divConst_between _ (lo / 24) (hi / 24) (j + 5) 365 9 (by norm_num) (by norm_num)
      (by norm_num)
      (F64.divConst_between _ lo hi j 24 5 (by norm_num) (by norm_num) (by norm_num) h hlo hrep)
      (le_trans (Nat.div_le_self _ _) hlo) hrep2)

theorem natCast_div_units (n : Nat) :
    (n : Int) / Hour = ((n / 3600000000000 : Nat) : Int) ∧
    (n : Int) / Minute = ((n / 60000000000 : Nat) : Int) ∧
    (n : Int) / Second = ((n / 1000000000 : Nat) : Int) := by
  have hH : Hour = ((3600000000000 : Nat) : Int) := by decide
  have hM : Minute = ((60000000000 : Nat) : Int) := by decide
  have hS : Second = ((1000000000 : Nat) : Int) := by decide
  rw [hH, hM, hS]
  exact ⟨rfl, rfl, rfl⟩

/-- The counts that the program computes in `float64` on a non-negative
duration: each is the exact count or one more. -/
theorem counts_bounds (D : Int) (h0 : 0 ≤ D) (h1 : D ≤ maxDuration) :
    (D / Hour ≤ intHours D ∧ intHours D ≤ D / Hour + 1) ∧
    (D / Hour / 24 ≤ intDays D ∧ intDays D ≤ (D / Hour + 1) / 24) ∧
    (D / Hour / 24 / 30 ≤ intMonths D ∧ intMonths D ≤ (D / Hour + 1) / 24 / 30) ∧
    (D / Hour / 24 / 365 ≤ intYears D ∧ intYears D ≤ (D / Hour + 1) / 24 / 365) ∧
    (D / Minute ≤ intMinutes D ∧ intMinutes D ≤ D / Minute + 1) ∧
    (D / Second ≤ intSeconds D ∧ intSeconds D ≤ D / Second + 1) := by
  obtain ⟨n, rfl⟩ := Int.eq_ofNat_of_zero_le h0
  have hn : n ≤ 9223372036854775807 := by
    unfold maxDuration at h1
    exact_mod_cast h1
  obtain ⟨e1, e2, e3⟩ := natCast_div_units n
  have hb := hours_between n hn
  have a1 := F64.toInt_between _ _ _ _ hb
  have a2 := intDays_of_between _ _ _ _ hb (by norm_num; omega) (by norm_num; omega)
  have a3 := intMonths_of_between _ _ _ _ hb (by norm_num; omega) (by norm_num; omega)
    (by norm_num; omega)
  have a4 := intYears_of_between _ _ _ _ hb (by norm_num; omega) (by norm_num; omega)
    (by norm_num; omega)
  have a5 := F64.toInt_between _ _ _ _ (minutes_between n hn)
  have a6 := F64.toInt_between _ _ _ _ (seconds_between n hn)
  rw [e1, e2, e3]
  push_cast at a1 a2 a3 a4 a5 a6 ⊢
  exact ⟨a1, a2, a3, a4, a5, a6⟩

/-- On a non-negative duration of whole seconds the counts that the program
computes in `float64` are the exact counts. -/
theorem counts_whole (D : Int) (h0 : 0 ≤ D) (h1 : D ≤ maxDuration) (hw : D % Second = 0) :
    intHours D = D / Hour ∧ intDays D = D / Hour / 24 ∧
    intMonths D = D / Hour / 24 / 30 ∧ intYears D = D / Hour / 24 / 365 ∧
    intMinutes D = D / Minute ∧ intSeconds D = D / Second := by
  obtain ⟨n, rfl⟩ := Int.eq_ofNat_of_zero_le h0
  have hn : n ≤ 9223372036854775807 := by
    unfold maxDuration at h1
    exact_mod_cast h1
  have hwn : n % 1000000000 = 0 := by
    have hS : Second = ((1000000000 : Nat) : Int) := by decide
    rw [hS] at hw
    exact_mod_cast hw
  obtain ⟨e1, e2, e3⟩ := natCast_div_units n
  have hb := hours_between_whole n hn hwn
  have a1 := F64.toInt_between _ _ _ _ hb
  have a2 := intDays_of_between _ _ _ _ hb (by norm_num; omega) (by norm_num; omega)
  have a3 := intMonths_of_between _ _ _ _ hb (by norm_num; omega) (by norm_num; omega)
    (by norm_num; omega)
  have a4 := intYears_of_between _ _ _ _ hb (by norm_num; omega) (by norm_num; omega)
    (by norm_num; omega)
  have a5 := F64.toInt_between _ _ _ _ (minutes_between_whole n hn hwn)
  have a6 := F64.toInt_between _ _ _ _ (seconds_between_whole n hn hwn)
  rw [e1, e2, e3]
  push_cast at a1 a2 a3 a4 a5 a6 ⊢
  simp only [intHours, intMinutes, intSeconds]
  refine ⟨?_, ?_, ?_, ?_, ?_, ?_⟩ <;> omega

/-- On a short non-negative duration the counts that the program computes in
`float64` are the exact counts: hours and days below 64 days, minutes and
seconds below one day. -/
theorem counts_small (D : Int) (h0 : 0 ≤ D) :
    (D < 1536 * Hour → intHours D = D / Hour ∧ intDays D = D / Hour / 24) ∧
    (D < 24 * Hour → intMinutes D = D / Minute ∧ intSeconds D = D / Second) := by
  obtain ⟨n, rfl⟩ := Int.eq_ofNat_of_zero_le h0
  obtain ⟨e1, e2, e3⟩ := natCast_div_units n
  have hH : Hour = 3600000000000 := by decide
  constructor
  · intro h
    have hn : n < 1536 * 3600000000000 := by
      rw [hH] at h
      exact_mod_cast h
    have hb := hours_between_small n (by omega)
    have a1 := F64.toInt_between _ _ _ _ hb
    have a2 := intDays_of_between _ _ _ _ hb (by norm_num; omega) (by norm_num; omega)
    rw [e1]
    push_cast at a1 a2 ⊢
    simp only [intHours]
    constructor <;> omega
  · intro h
    have hn : n < 24 * 3600000000000 := by
      rw [hH] at h
      exact_mod_cast h
    have a5 := F64.toInt_between _ _ _ _ (minutes_between_small n (by omega))
    have a6 := F64.toInt_between _ _ _ _ (seconds_between_small n (by omega))
    rw [e2, e3]
    push_cast at a5 a6 ⊢
    simp only [intMinutes, intSeconds]
    constructor <;> omega

theorem hours_nonpos (D : Int) (h0 : D ≤ 0) : (Duration.Hours D).val ≤ 0 := by
  unfold Duration.Hours
  simp only
  have hq : D.tdiv Hour ≤ 0 := by
    have := Int.tdiv_nonneg (by omega : 0 ≤ -D) (by decide : (0 : Int) ≤ Hour)
    rw [Int.neg_tdiv] at this
    omega
  have hr : D.tmod Hour ≤ 0 := by
    have := Int.tmod_nonneg Hour (by omega : 0 ≤ -D)
    rw [tmod_of_neg] at this
    omega
  have hU : 0 < (F64.ofInt 3600000000000).val := by
    have := F64.ofInt_val 3600000000000 (by norm_num)
    rw [show ((3600000000000 : Nat) : Int) = 3600000000000 from rfl] at this
    rw [this]
    norm_num
  exact F64.add_nonpos _ _ (add_nonpos (F64.ofInt_nonpos _ hq)
    (F64.div_nonpos _ _ (F64.ofInt_nonpos _ hr) hU))

theorem minutes_nonpos (D : Int) (h0 : D ≤ 0) : (Duration.Minutes D).val ≤ 0 := by
  unfold Duration.Minutes
  simp only
  have hq : D.tdiv Minute ≤ 0 := by
    have := Int.tdiv_nonneg (by omega : 0 ≤ -D) (by decide : (0 : Int) ≤ Minute)
    rw [Int.neg_tdiv] at this
    omega
  have hr : D.tmod Minute ≤ 0 := by
    have := Int.tmod_nonneg Minute (by omega : 0 ≤ -D)
    rw [tmod_of_neg] at this
    omega
  have hU : 0 < (F64.ofInt 60000000000).val := by
    have := F64.ofInt_val 60000000000 (by norm_num)
    rw [show ((60000000000 : Nat) : Int) = 60000000000 from rfl] at this
    rw [this]
    norm_num
  exact F64.add_nonpos _ _ (add_nonpos (F64.ofInt_nonpos _ hq)
    (F64.div_nonpos _ _ (F64.ofInt_nonpos _ hr) hU))

theorem seconds_nonpos (D : Int) (h0 : D ≤ 0) : (Duration.Seconds D).val ≤ 0 := by
  unfold Duration.Seconds
  simp only
  have hq : D.tdiv Second ≤ 0 := by
    have := Int.tdiv_nonneg (by omega : 0 ≤ -D) (by decide : (0 : Int) ≤ Second)
    rw [Int.neg_tdiv] at this
    omega
  have hr : D.tmod Second ≤ 0 := by
    have := Int.tmod_nonneg Second (by omega : 0 ≤ -D)
    rw [tmod_of_neg] at this
    omega
  have hU : 0 < (F64.ofInt 1000000000).val := by
    have := F64.ofInt_val 1000000000 (by norm_num)
    rw [show ((1000000000 : Nat) : Int) = 1000000000 from rfl] at this
    rw [this]
    norm_num
  exact F64.add_nonpos _ _ (add_nonpos (F64.ofInt_nonpos _ hq)
    (F64.div_nonpos _ _ (F64.ofInt_nonpos _ hr) hU))

/-- On a duration that is not positive none of the counts is positive. -/
theorem counts_nonpos (D : Int) (h0 : D ≤ 0) :
    intHours D ≤ 0 ∧ intDays D ≤ 0 ∧ intMinutes D ≤ 0 ∧ intSeconds D ≤ 0 := by
  have h24 : 0 < (F64.ofInt 24).val := by
    have := F64.ofInt_val 24 (by norm_num)
    rw [show ((24 : Nat) : Int) = 24 from rfl] at this
    rw [this]
    norm_num
  exact ⟨F64.toInt_nonpos _ (hours_nonpos D h0),
    F64.toInt_nonpos _ (F64.div_nonpos _ _ (hours_nonpos D h0) h24),
    F64.toInt_nonpos _ (minutes_nonpos D h0), F64.toInt_nonpos _ (seconds_nonpos D h0)⟩

/-! ## `formatDuration`: the claims -/

theorem unitPart_day (n : Int) :
    unitPart n "day" = if n = 1 then "1 day" else fmtInt n ++ " days" := by
  unfold unitPart
  split
  · rfl
  · rw [String.append_assoc, String.append_assoc]; rfl

theorem unitPart_hour (n : Int) :
    unitPart n "hour" = if n = 1 then "1 hour" else fmtInt n ++ " hours" := by
  unfold unitPart
  split
  · rfl
  · rw [String.append_assoc, String.append_assoc]; rfl

theorem unitPart_minute (n : Int) :
    unitPart n "minute" = if n = 1 then "1 minute" else fmtInt n ++ " minutes" := by
  unfold unitPart
  split
  · rfl
  · rw [String.append_assoc, String.append_assoc]; rfl

theorem unitPart_second (n : Int) :
    unitPart n "second" = if n = 1 then "1 second" else fmtInt n ++ " seconds" := by
  unfold unitPart
  split
  · rfl
  · rw [String.append_assoc, String.append_assoc]; rfl

theorem append_part_step (c e : Prop) [Decidable c] [Decidable e] (parts : List String)
    (a b : String) :
    (if c then (if e then parts ++ [a] else parts ++ [b]) else parts) =
      parts ++ (if c then [if e then a else b] else []) := by
  split_ifs <;> simp

/-- The slice `parts` as a concatenation of the four optional parts. -/
theorem formatDurationParts_eq (d : Int) :
    formatDurationParts d =
      (if durationDays d > 0 then [unitPart (durationDays d) "day"] else []) ++
      (if durationHours d > 0 then [unitPart (durationHours d) "hour"] else []) ++
      (if durationMinutes d > 0 ∧ durationDays d = 0 then
        [unitPart (durationMinutes d) "minute"] else []) ++
      (if durationSeconds d > 0 ∧ durationHours d = 0 ∧ durationDays d = 0 then
        [unitPart (durationSeconds d) "second"] else []) := by
  have h0 : ∀ (c e : Prop) [Decidable c] [Decidable e] (a b : String),
      (if c then (if e then [a] else [b]) else []) = (if c then [if e then a else b] else []) := by
    intros; split_ifs <;> rfl
  simp only [formatDurationParts, unitPart_day, unitPart_hour, unitPart_minute,
    unitPart_second, append_part_step, List.nil_append, h0]

theorem tmod_nonpos (a b : Int) (ha : a ≤ 0) : a.tmod b ≤ 0 := by
  have := Int.tmod_nonneg b (by omega : 0 ≤ -a)
  rw [tmod_of_neg] at this
  omega

theorem isDuration_iff (d : Int) : isDuration d = true ↔ minDuration ≤ d ∧ d ≤ maxDuration := by
  simp [isDuration]

theorem nonneg_counts (d : Int) (hd : 0 ≤ d) :
    0 ≤ durationDays d ∧ 0 ≤ durationHours d ∧ 0 ≤ durationMinutes d ∧
    0 ≤ durationSeconds d := by
  unfold durationDays durationHours durationMinutes durationSeconds
  by_cases hr : isDuration d = true
  · simp only [hr, if_true]
    obtain ⟨⟨a1, -⟩, ⟨a2, -⟩, -, -, ⟨a5, -⟩, ⟨a6, -⟩⟩ :=
      counts_bounds d hd ((isDuration_iff d).mp hr).2
    have b1 : 0 ≤ d / Hour := Int.ediv_nonneg hd (by decide)
    have b2 : 0 ≤ d / Hour / 24 := Int.ediv_nonneg b1 (by decide)
    have b5 : 0 ≤ d / Minute := Int.ediv_nonneg hd (by decide)
    have b6 : 0 ≤ d / Second := Int.ediv_nonneg hd (by decide)
    exact ⟨by omega, Int.tmod_nonneg _ (by omega), Int.tmod_nonneg _ (by omega),
      Int.tmod_nonneg _ (by omega)⟩
  · simp only [if_neg hr]
    refine ⟨?_, ?_, ?_, ?_⟩
    · exact Int.tdiv_nonneg hd (by decide)
    · exact Int.tmod_nonneg _ (Int.tdiv_nonneg hd (by decide))
    · exact Int.tmod_nonneg _ (Int.tdiv_nonneg hd (by decide))
    · exact Int.tmod_nonneg _ (Int.tdiv_nonneg hd (by decide))

theorem nonpos_counts (d : Int) (hd : d ≤ 0) :
    durationDays d ≤ 0 ∧ durationHours d ≤ 0 ∧ durationMinutes d ≤ 0 ∧
    durationSeconds d ≤ 0 := by
  have hq : ∀ u : Int, 0 ≤ u → d.tdiv u ≤ 0 := by
    intro u hu
    have := Int.tdiv_nonneg (by omega : 0 ≤ -d) hu
    rw [Int.neg_tdiv] at this
    omega
  unfold durationDays durationHours durationMinutes durationSeconds
  by_cases hr : isDuration d = true
  · simp only [hr, if_true]
    obtain ⟨a1, a2, a3, a4⟩ := counts_nonpos d hd
    exact ⟨a2, tmod_nonpos _ _ a1, tmod_nonpos _ _ a3, tmod_nonpos _ _ a4⟩
  · simp only [if_neg hr]
    exact ⟨hq _ (by decide), tmod_nonpos _ _ (hq _ (by decide)),
      tmod_nonpos _ _ (hq _ (by decide)), tmod_nonpos _ _ (hq _ (by decide))⟩

/-- The counts of a duration all have the sign of the duration. -/
theorem counts_sign (d : Int) :
    (0 ≤ durationDays d ∧ 0 ≤ durationHours d ∧ 0 ≤ durationMinutes d ∧
      0 ≤ durationSeconds d) ∨
    (durationDays d ≤ 0 ∧ durationHours d ≤ 0 ∧ durationMinutes d ≤ 0 ∧
      durationSeconds d ≤ 0) := by
  rcases le_total 0 d with h | h
  · exact Or.inl (nonneg_counts d h)
  · exact Or.inr (nonpos_counts d h)

theorem formatDurationParts_nil_iff (d : Int) :
    formatDurationParts d = [] ↔
      (durationDays d ≤ 0 ∧ durationHours d ≤ 0 ∧ durationMinutes d ≤ 0 ∧
        durationSeconds d ≤ 0) := by
  have hs := counts_sign d
  rw [formatDurationParts_eq]
  simp only [List.append_eq_nil, ite_eq_right_iff, List.cons_ne_nil, imp_false, not_and,
    gt_iff_lt, not_lt]
  constructor
  · rintro ⟨⟨⟨h1, h2⟩, h3⟩, h4⟩
    refine ⟨h1, h2, ?_, ?_⟩
    · by_contra hm
      have := h3 (by omega)
      omega
    · by_contra hsec
      have := h4 (by omega)
      omega
  · rintro ⟨h1, h2, h3, h4⟩
    exact ⟨⟨⟨h1, h2⟩, fun h => by omega⟩, fun h => by omega⟩

/-- A part with a positive count starts with a digit. -/
theorem unitPart_head (n : Int) (unit : String) (hn : 0 < n) :
    ∃ c r, (unitPart n unit).data = c :: r ∧ c.isDigit = true := by
  unfold unitPart
  split
  · exact ⟨'1', ' ' :: unit.data, by simp only [String.data_append]; rfl, by decide⟩
  · obtain ⟨m, rfl⟩ := Int.eq_ofNat_of_zero_le (le_of_lt hn)
    obtain ⟨he, c, r, hr, hc⟩ := fmtInt_natCast m
    refine ⟨c, r ++ " ".data ++ unit.data ++ "s".data, ?_, hc⟩
    simp only [String.data_append, he, hr, List.cons_append, List.append_assoc]

theorem formatDuration_justNow_iff (d : Int) :
    formatDuration d = "Just now" ↔ formatDurationParts d = [] := by
  unfold formatDuration
  constructor
  · intro h
    by_contra hne
    have hlen : ¬ (formatDurationParts d).length = 0 := by
      simpa [List.length_eq_zero] using hne
    simp only [hlen, if_false] at h
    obtain ⟨p, ps, hp⟩ := List.exists_cons_of_ne_nil hne
    have hmem : p ∈ formatDurationParts d := by rw [hp]; simp
    have hhead : ∃ c r, p.data = c :: r ∧ c.isDigit = true := by
      rw [formatDurationParts_eq] at hmem
      simp only [List.mem_append] at hmem
      rcases hmem with ((hm | hm) | hm) | hm <;>
        · split at hm
          · rename_i hc
            simp only [List.mem_singleton] at hm
            rw [hm]
            exact unitPart_head _ _ (by omega)
          · simp at hm
    obtain ⟨c, r, hcr, hc⟩ := hhead
    obtain ⟨r2, hr2⟩ := Join_cons_data ", " p ps
    rw [hp] at h
    rw [h, hcr] at hr2
    have : c = 'J' := by
      have h3 : ("Just now" : String).data = 'J' :: "ust now".data := rfl
      rw [h3] at hr2
      simp only [List.cons_append, List.cons.injEq] at hr2
      exact hr2.1.symm
    rw [this] at hc
    exact absurd hc (by decide)
  · intro h
    simp [h]

/-- A duration below one second has all four counts zero. -/
theorem counts_below_second (d : Int) (h0 : 0 ≤ d) (h1 : d < Second) :
    durationDays d = 0 ∧ durationHours d = 0 ∧ durationMinutes d = 0 ∧
    durationSeconds d = 0 := by
  have hS : Second = 1000000000 := by decide
  have hM : Minute = 60000000000 := by decide
  have hH : Hour = 3600000000000 := by decide
  have hr : isDuration d = true := by
    rw [isDuration_iff]
    unfold minDuration maxDuration
    omega
  obtain ⟨c1, c2⟩ := counts_small d h0
  obtain ⟨a1, a2⟩ := c1 (by rw [hH]; omega)
  obtain ⟨a5, a6⟩ := c2 (by rw [hH]; omega)
  have b1 : d / Hour = 0 := by rw [hH]; omega
  have b5 : d / Minute = 0 := by rw [hM]; omega
  have b6 : d / Second = 0 := by rw [hS]; omega
  unfold durationDays durationHours durationMinutes durationSeconds
  simp only [hr, if_true, a1, a2, a5, a6, b1, b5, b6]
  decide

/-- A duration of one second or more has a part to show. -/
theorem counts_from_second (d : Int) (h1 : Second ≤ d) :
    ¬ (durationDays d ≤ 0 ∧ durationHours d ≤ 0 ∧ durationMinutes d ≤ 0 ∧
        durationSeconds d ≤ 0) := by
  have hS : Second = 1000000000 := by decide
  have hM : Minute = 60000000000 := by decide
  have hH : Hour = 3600000000000 := by decide
  have h0 : 0 ≤ d := by rw [hS] at h1; omega
  unfold durationDays durationHours durationMinutes durationSeconds
  by_cases hr : isDuration d = true
  · simp only [hr, if_true]
    by_cases hday : 24 * Hour ≤ d
    · obtain ⟨-, ⟨a2, -⟩, -⟩ := counts_bounds d h0 ((isDuration_iff d).mp hr).2
      have : 1 ≤ d / Hour / 24 := by rw [hH] at hday ⊢; omega
      omega
    · obtain ⟨c1, c2⟩ := counts_small d h0
      obtain ⟨a1, a2⟩ := c1 (by rw [hH] at hday ⊢; omega)
      obtain ⟨a5, a6⟩ := c2 (by omega)
      rw [a1, a5, a6]
      have e1 : (d / Hour).tmod 24 = d / Hour := by
        rw [Int.tmod_eq_emod (Int.ediv_nonneg h0 (by decide)) (by decide)]
        rw [hH] at hday ⊢
        omega
      rw [e1]
      by_cases hhour : Hour ≤ d
      · have : 1 ≤ d / Hour := by rw [hH] at hhour ⊢; omega
        omega
      · have e5 : (d / Minute).tmod 60 = d / Minute := by
          rw [Int.tmod_eq_emod (Int.ediv_nonneg h0 (by decide)) (by decide)]
          rw [hH] at hhour
          rw [hM]
          omega
        rw [e5]
        by_cases hmin : Minute ≤ d
        · have : 1 ≤ d / Minute := by rw [hM] at hmin ⊢; omega
          omega
        · have e6 : (d / Second).tmod 60 = d / Second := by
            rw [Int.tmod_eq_emod (Int.ediv_nonneg h0 (by decide)) (by decide)]
            rw [hM] at hmin
            rw [hS]
            omega
          rw [e6]
          have : 1 ≤ d / Second := by rw [hS] at h1 ⊢; omega
          omega
  · simp only [if_neg hr]
    have hbig : maxDuration < d := by
      have := (isDuration_iff d).not.mp hr
      unfold minDuration at this
      by_contra hc
      exact this ⟨by omega, by omega⟩
    have : 1 ≤ d.tdiv (24 * Hour) := by
      rw [Int.tdiv_eq_ediv h0 (by decide), hH]
      unfold maxDuration at hbig
      omega
    omega

/-- The counts of a duration of `s` whole seconds. -/
theorem counts_of_seconds (s : Nat) :
    durationDays (s * Second) = ((s / 86400 : Nat) : Int) ∧
    durationHours (s * Second) = (((s / 3600) % 24 : Nat) : Int) ∧
    durationMinutes (s * Second) = (((s / 60) % 60 : Nat) : Int) ∧
    durationSeconds (s * Second) = ((s % 60 : Nat) : Int) := by
  have h0 : (0 : Int) ≤ s * 1000000000 := by positivity
  have hq : ∀ k : Nat, 0 < k → ((s : Int) * 1000000000).tdiv ((k : Int) * 1000000000) =
      ((s / k : Nat) : Int) := by
    intro k hk
    rw [Int.tdiv_eq_ediv h0 (by positivity),
      Int.mul_ediv_mul_of_pos_left _ _ (by decide : (0 : Int) < 1000000000)]
    norm_cast
  have hm : ∀ (a k : Nat), ((a : Int)).tmod (k : Int) = ((a % k : Nat) : Int) := by
    intro a k
    exact (Int.ofNat_tmod a k).symm
  have h1 := hq 86400 (by decide)
  have h2 := hq 3600 (by decide)
  have h3 := hq 60 (by decide)
  have h4 := hq 1 (by decide)
  simp only [Nat.cast_ofNat, Nat.div_one, Nat.cast_one, one_mul] at h1 h2 h3 h4
  have hS : Second = 1000000000 := by decide
  have hM : Minute = 60000000000 := by decide
  have hH : Hour = 3600000000000 := by decide
  have g1 : ((s : Int) * 1000000000).tdiv (24 * 3600000000000) = ((s / 86400 : Nat) : Int) := by
    rw [← h1]; norm_num
  have g2 : (((s : Int) * 1000000000).tdiv 3600000000000).tmod 24 =
      (((s / 3600) % 24 : Nat) : Int) := by
    rw [← hm, ← h2]; norm_num
  have g3 : (((s : Int) * 1000000000).tdiv 60000000000).tmod 60 =
      (((s / 60) % 60 : Nat) : Int) := by
    rw [← hm, ← h3]; norm_num
  have g4 : (((s : Int) * 1000000000).tdiv 1000000000).tmod 60 = ((s % 60 : Nat) : Int) := by
    have := hm (s / 1) 60
    simp only [Nat.div_one] at this
    rw [h4]; exact_mod_cast this
  unfold durationDays durationHours durationMinutes durationSeconds
  rw [hS, hH, hM]
  by_cases hr : isDuration ((s : Int) * 1000000000) = true
  · simp only [hr, if_true]
    have hw : ((s : Int) * 1000000000) % Second = 0 := by rw [hS]; omega
    obtain ⟨a1, a2, -, -, a5, a6⟩ :=
      counts_whole ((s : Int) * 1000000000) h0 ((isDuration_iff _).mp hr).2 hw
    have t1 : ∀ u : Int, 0 ≤ u →
        (((s : Int) * 1000000000) / u).tmod 60 = ((s : Int) * 1000000000) / u % 60 :=
      fun u hu => Int.tmod_eq_emod (Int.ediv_nonneg h0 hu) (by decide)
    have t2 : (((s : Int) * 1000000000) / 3600000000000).tmod 24 =
        ((s : Int) * 1000000000) / 3600000000000 % 24 :=
      Int.tmod_eq_emod (Int.ediv_nonneg h0 (by decide)) (by decide)
    rw [a1, a2, a5, a6, hH, hM, hS, t2, t1 60000000000 (by decide), t1 1000000000 (by decide)]
    push_cast
    refine ⟨?_, ?_, ?_, ?_⟩ <;> omega
  · simp only [if_neg hr]
    exact ⟨g1, g2, g3, g4⟩

/-- C7. For every duration, negative ones included, each part that
`formatDuration` emits is the text of a unit whose count, as the function
computes it, is positive (never 0), and the result is "Just now" exactly when
none of the four counts is positive; for a non-negative duration, exactly when
all four counts are zero. In terms of the duration itself the result is
"Just now" exactly below one second, that is, for a non-negative duration,
exactly when its whole days, hours within the day, minutes within the hour and
seconds within the minute are all zero. On a duration of whole seconds the
counts that the function computes are these exact counts. -/
theorem formatDuration_no_zero_unit (d : Int) :
    (∀ part ∈ formatDurationParts d, ∃ (n : Int) (unit : String),
      0 < n ∧ part = unitPart n unit ∧
      ((unit = "day" ∧ n = durationDays d) ∨ (unit = "hour" ∧ n = durationHours d) ∨
       (unit = "minute" ∧ n = durationMinutes d) ∨
       (unit = "second" ∧ n = durationSeconds d))) ∧
    (formatDuration d = "Just now" ↔
      (durationDays d ≤ 0 ∧ durationHours d ≤ 0 ∧ durationMinutes d ≤ 0 ∧
        durationSeconds d ≤ 0)) ∧
    (0 ≤ d →
      (formatDuration d = "Just now" ↔
        (durationDays d = 0 ∧ durationHours d = 0 ∧ durationMinutes d = 0 ∧
          durationSeconds d = 0))) ∧
    (formatDuration d = "Just now" ↔ d < Second) ∧
    (0 ≤ d →
      (d < Second ↔
        (d / (24 * Hour) = 0 ∧ d / Hour % 24 = 0 ∧ d / Minute % 60 = 0 ∧
          d / Second % 60 = 0))) ∧
    (∀ s : Nat, d = (s : Int) * Second →
      durationDays d = ((s / 86400 : Nat) : Int) ∧
      durationHours d = (((s / 3600) % 24 : Nat) : Int) ∧
      durationMinutes d = (((s / 60) % 60 : Nat) : Int) ∧
      durationSeconds d = ((s % 60 : Nat) : Int)) := by
  refine ⟨?_, ?_, ?_, ?_, ?_, ?_⟩
  · intro part hmem
    rw [formatDurationParts_eq] at hmem
    simp only [List.mem_append] at hmem
    rcases hmem with ((hm | hm) | hm) | hm
    · split at hm
      · rename_i hc
        exact ⟨_, "day", hc, List.mem_singleton.mp hm, Or.inl ⟨rfl, rfl⟩⟩
      · simp at hm
    · split at hm
      · rename_i hc
        exact ⟨_, "hour", hc, List.mem_singleton.mp hm, Or.inr (Or.inl ⟨rfl, rfl⟩)⟩
      · simp at hm
    · split at hm
      · rename_i hc
        exact ⟨_, "minute", hc.1, List.mem_singleton.mp hm,
          Or.inr (Or.inr (Or.inl ⟨rfl, rfl⟩))⟩
      · simp at hm
    · split at hm
      · rename_i hc
        exact ⟨_, "second", hc.1, List.mem_singleton.mp hm,
          Or.inr (Or.inr (Or.inr ⟨rfl, rfl⟩))⟩
      · simp at hm
  · rw [formatDuration_justNow_iff, formatDurationParts_nil_iff]
  · intro hd
    have hn := nonneg_counts d hd
    rw [formatDuration_justNow_iff, formatDurationParts_nil_iff]
    constructor
    · intro h; omega
    · intro h; omega
  · rw [formatDuration_justNow_iff, formatDurationParts_nil_iff]
    constructor
    · intro h
      by_contra hc
      exact counts_from_second d (by omega) h
    · intro h
      rcases le_total 0 d with h0 | h0
      · obtain ⟨a1, a2, a3, a4⟩ := counts_below_second d h0 h
        omega
      · exact nonpos_counts d h0
  · intro hd
    have hS : Second = 1000000000 := by decide
    have hM : Minute = 60000000000 := by decide
    have hH : Hour = 3600000000000 := by decide
    rw [hS, hM, hH]
    constructor
    · intro h
      refine ⟨?_, ?_, ?_, ?_⟩ <;> omega
    · rintro ⟨h1, h2, h3, h4⟩
      omega
  · intro s hs
    rw [hs]
    exact counts_of_seconds s

/-- C7 as stated fails. For a negative duration: minus five seconds has the
seconds count -5, not zero, and is rendered "Just now". For a count taken of
the duration itself: one nanosecond less than 4105 hours has 0 hours within the
day (4104 = 171 * 24), and the function, whose `float64` value of `d.Hours()` is
rounded to 4105, emits "1 hour". -/
theorem formatDuration_negative_justNow :
    formatDuration (-5 * Second) = "Just now" ∧
    durationSeconds (-5 * Second) = -5 ∧
    ¬ (durationDays (-5 * Second) = 0 ∧ durationHours (-5 * Second) = 0 ∧
        durationMinutes (-5 * Second) = 0 ∧ durationSeconds (-5 * Second) = 0) ∧
    formatDuration (4105 * Hour - 1) = "171 days, 1 hour" ∧
    (4105 * Hour - 1) / Hour % 24 = 0 := by
  decide

/-- C8. On a duration of `s` whole seconds, `formatDuration` is the ", "-join,
in the order days, hours, minutes, seconds, of the days part iff days > 0, the
hours part iff hours > 0, the minutes part iff minutes > 0 and days = 0, the
seconds part iff seconds > 0 and hours = 0 and days = 0, each part written
"1 unit" for the count 1 and "N units" otherwise, and "Just now" when no part
qualifies. -/
theorem formatDuration_whole_seconds (s : Nat) :
    formatDuration ((s : Int) * Second) = humanizeDurationSpec s := by
  obtain ⟨h1, h2, h3, h4⟩ := counts_of_seconds s
  unfold formatDuration humanizeDurationSpec
  simp only [formatDurationParts_eq, h1, h2, h3, h4, List.length_eq_zero, gt_iff_lt,
    Nat.cast_pos, Nat.cast_eq_zero]
  rfl

/-! ## `formatCreatedTime`: the claims -/

theorem countAgo_minute (n : Int) :
    countAgo n "minute" = if n = 1 then "1 minute ago" else fmtInt n ++ " minutes ago" := by
  unfold countAgo
  split
  · rfl
  · rw [String.append_assoc, String.append_assoc]; rfl

theorem countAgo_hour (n : Int) :
    countAgo n "hour" = if n = 1 then "1 hour ago" else fmtInt n ++ " hours ago" := by
  unfold countAgo
  split
  · rfl
  · rw [String.append_assoc, String.append_assoc]; rfl

theorem countAgo_month (n : Int) :
    countAgo n "month" = if n = 1 then "1 month ago" else fmtInt n ++ " months ago" := by
  unfold countAgo
  split
  · rfl
  · rw [String.append_assoc, String.append_assoc]; rfl

theorem countAgo_year (n : Int) :
    countAgo n "year" = if n = 1 then "1 year ago" else fmtInt n ++ " years ago" := by
  unfold countAgo
  split
  · rfl
  · rw [String.append_assoc, String.append_assoc]; rfl

theorem timeSince_range (now t : Int) :
    minDuration ≤ timeSince now t ∧ timeSince now t ≤ maxDuration := by
  unfold timeSince
  have : minDuration ≤ maxDuration := by decide
  split_ifs <;> constructor <;> omega

theorem timeSince_of_range (now t : Int) (h1 : minDuration ≤ now - t)
    (h2 : now - t ≤ maxDuration) : timeSince now t = now - t := by
  unfold timeSince
  rw [if_neg (by omega), if_neg (by omega)]

/-- The elapsed duration is below one minute exactly when the difference of
the two times is. -/
theorem timeSince_lt_minute (now t : Int) : timeSince now t < Minute ↔ now - t < Minute := by
  unfold timeSince
  have h1 : Minute ≤ maxDuration := by decide
  have h2 : minDuration < Minute := by decide
  split_ifs <;> constructor <;> intro h <;> omega

/-- The branches of `formatCreatedTime`, with each phrase as a counted phrase. -/
theorem formatCreatedTime_branches (now t : Int) :
    (timeSince now t < Minute → formatCreatedTime now t = "Just now") ∧
    (Minute ≤ timeSince now t → timeSince now t < Hour →
      formatCreatedTime now t = countAgo (intMinutes (timeSince now t)) "minute") ∧
    (Hour ≤ timeSince now t → timeSince now t < 24 * Hour →
      formatCreatedTime now t = countAgo (intHours (timeSince now t)) "hour") ∧
    (24 * Hour ≤ timeSince now t → timeSince now t < 30 * (24 * Hour) →
      formatCreatedTime now t =
        if intDays (timeSince now t) = 1 then "Yesterday"
        else fmtInt (intDays (timeSince now t)) ++ " days ago") ∧
    (30 * (24 * Hour) ≤ timeSince now t → timeSince now t < 365 * (24 * Hour) →
      formatCreatedTime now t = countAgo (intMonths (timeSince now t)) "month") ∧
    (365 * (24 * Hour) ≤ timeSince now t →
      formatCreatedTime now t = countAgo (intYears (timeSince now t)) "year") := by
  have hM : Minute = 60000000000 := by decide
  have hH : Hour = 3600000000000 := by decide
  unfold formatCreatedTime
  generalize timeSince now t = D
  simp only [countAgo_minute, countAgo_hour, countAgo_month, countAgo_year]
  refine ⟨?_, ?_, ?_, ?_, ?_, ?_⟩
  · intro h
    rw [if_pos h]
  · intro h1 h2
    rw [if_neg (by omega), if_pos h2]
  · intro h1 h2
    rw [if_neg (by rw [hM, hH] at *; omega), if_neg (by omega), if_pos h2]
  · intro h1 h2
    rw [if_neg (by rw [hM, hH] at *; omega), if_neg (by rw [hH] at *; omega),
      if_neg (by omega), if_pos (by rw [hH] at *; omega)]
  · intro h1 h2
    rw [if_neg (by rw [hM, hH] at *; omega), if_neg (by rw [hH] at *; omega),
      if_neg (by rw [hH] at *; omega), if_neg (by rw [hH] at *; omega),
      if_pos (by rw [hH] at *; omega)]
  · intro h1
    rw [if_neg (by rw [hM, hH] at *; omega), if_neg (by rw [hH] at *; omega),
      if_neg (by rw [hH] at *; omega), if_neg (by rw [hH] at *; omega),
      if_neg (by rw [hH] at *; omega)]

/-- The counts of `formatCreatedTime` in their buckets: exact for minutes, hours
and days; for months and years between the exact count and the count taken one
hour later. -/
theorem created_counts (D : Int) (hD : D ≤ maxDuration) :
    (Minute ≤ D → D < Hour → intMinutes D = D / Minute) ∧
    (Hour ≤ D → D < 24 * Hour → intHours D = D / Hour) ∧
    (24 * Hour ≤ D → D < 30 * (24 * Hour) → intDays D = D / (24 * Hour)) ∧
    (30 * (24 * Hour) ≤ D →
      D / (24 * Hour) / 30 ≤ intMonths D ∧ intMonths D ≤ (D + Hour) / (24 * Hour) / 30 ∧
      D / (24 * Hour) / 365 ≤ intYears D ∧ intYears D ≤ (D + Hour) / (24 * Hour) / 365) ∧
    (0 ≤ D → D % Second = 0 →
      intMinutes D = D / Minute ∧ intHours D = D / Hour ∧ intDays D = D / (24 * Hour) ∧
      intMonths D = D / (24 * Hour) / 30 ∧ intYears D = D / (24 * Hour) / 365) := by
  have hM : Minute = 60000000000 := by decide
  have hH : Hour = 3600000000000 := by decide
  refine ⟨?_, ?_, ?_, ?_, ?_⟩
  · intro h1 h2
    have h0 : 0 ≤ D := by rw [hM] at h1; omega
    exact ((counts_small D h0).2 (by rw [hH] at *; omega)).1
  · intro h1 h2
    have h0 : 0 ≤ D := by rw [hH] at h1; omega
    exact ((counts_small D h0).1 (by rw [hH] at *; omega)).1
  · intro h1 h2
    have h0 : 0 ≤ D := by rw [hH] at h1; omega
    rw [((counts_small D h0).1 (by rw [hH] at *; omega)).2, hH]
    omega
  · intro h1
    have h0 : 0 ≤ D := by rw [hH] at h1; omega
    obtain ⟨-, -, ⟨a3, b3⟩, ⟨a4, b4⟩, -, -⟩ := counts_bounds D h0 hD
    rw [hH] at a3 b3 a4 b4 ⊢
    refine ⟨?_, ?_, ?_, ?_⟩ <;> omega
  · intro h0 hw
    obtain ⟨a1, a2, a3, a4, a5, -⟩ := counts_whole D h0 hD hw
    rw [a1, a2, a3, a4, a5, hH]
    refine ⟨rfl, rfl, ?_, ?_, ?_⟩ <;> omega

/-- C9. With `D` the elapsed duration that `time.Since` returns,
`formatCreatedTime` gives "Just now" for `D` below one minute, "N minute(s) ago"
with the whole minutes below one hour, "N hour(s) ago" with the whole hours below
one day, "Yesterday" for one whole day and "N days ago" otherwise below 30 days,
"N month(s) ago" below 365 days and "N year(s) ago" from there on, the singular
form exactly for the count 1. The months and years are the counts that the
function computes in `float64`, `int(D.Hours() / 24 / 30)` and
`int(D.Hours() / 24 / 365)`: at least whole days / 30 (whole days / 365), at most
that count taken one hour later, and equal to it when `D` is a number of whole
seconds; on whole seconds the function is the bucket table of the
specification. An elapsed duration of 90 seconds gives "1 minute ago" and one
of 45 seconds "Just now". -/
theorem formatCreatedTime_spec (now t : Int) :
    (timeSince now t < Minute → formatCreatedTime now t = "Just now") ∧
    (Minute ≤ timeSince now t → timeSince now t < Hour →
      formatCreatedTime now t = countAgo (timeSince now t / Minute) "minute") ∧
    (Hour ≤ timeSince now t → timeSince now t < 24 * Hour →
      formatCreatedTime now t = countAgo (timeSince now t / Hour) "hour") ∧
    (24 * Hour ≤ timeSince now t → timeSince now t < 30 * (24 * Hour) →
      formatCreatedTime now t =
        if timeSince now t / (24 * Hour) = 1 then "Yesterday"
        else fmtInt (timeSince now t / (24 * Hour)) ++ " days ago") ∧
    (30 * (24 * Hour) ≤ timeSince now t → timeSince now t < 365 * (24 * Hour) →
      formatCreatedTime now t = countAgo (intMonths (timeSince now t)) "month" ∧
      timeSince now t / (24 * Hour) / 30 ≤ intMonths (timeSince now t) ∧
      intMonths (timeSince now t) ≤ (timeSince now t + Hour) / (24 * Hour) / 30) ∧
    (365 * (24 * Hour) ≤ timeSince now t →
      formatCreatedTime now t = countAgo (intYears (timeSince now t)) "year" ∧
      timeSince now t / (24 * Hour) / 365 ≤ intYears (timeSince now t) ∧
      intYears (timeSince now t) ≤ (timeSince now t + Hour) / (24 * Hour) / 365) ∧
    (timeSince now t % Second = 0 →
      formatCreatedTime now t = relativeTimeSpec (timeSince now t)) ∧
    formatCreatedTime (t + 90 * Second) t = "1 minute ago" ∧
    formatCreatedTime (t + 45 * Second) t = "Just now" := by
  have hM : Minute = 60000000000 := by decide
  have hH : Hour = 3600000000000 := by decide
  obtain ⟨b1, b2, b3, b4, b5, b6⟩ := formatCreatedTime_branches now t
  obtain ⟨c1, c2, c3, c4, c5⟩ := created_counts (timeSince now t) (timeSince_range now t).2
  refine ⟨b1, ?_, ?_, ?_, ?_, ?_, ?_, ?_, ?_⟩
  · intro h1 h2
    rw [b2 h1 h2, c1 h1 h2]
  · intro h1 h2
    rw [b3 h1 h2, c2 h1 h2]
  · intro h1 h2
    rw [b4 h1 h2, c3 h1 h2]
  · intro h1 h2
    exact ⟨b5 h1 h2, (c4 h1).1, (c4 h1).2.1⟩
  · intro h1
    exact ⟨b6 h1, (c4 (by rw [hH] at *; omega)).2.2.1, (c4 (by rw [hH] at *; omega)).2.2.2⟩
  · intro hw
    unfold relativeTimeSpec
    simp only
    by_cases k1 : timeSince now t < Minute
    · rw [if_pos k1, b1 k1]
    · have h0 : 0 ≤ timeSince now t := by rw [hM] at k1; omega
      obtain ⟨d1, d2, d3, d4, d5⟩ := c5 h0 hw
      rw [if_neg k1]
      by_cases k2 : timeSince now t < Hour
      · rw [if_pos k2, b2 (by omega) k2, d1]
      · rw [if_neg k2]
        by_cases k3 : timeSince now t < 24 * Hour
        · rw [if_pos k3, b3 (by omega) k3, d2]
        · rw [if_neg k3]
          by_cases k4 : timeSince now t < 30 * (24 * Hour)
          · rw [if_pos k4, b4 (by omega) k4, d3]
          · rw [if_neg k4]
            by_cases k5 : timeSince now t < 365 * (24 * Hour)
            · rw [if_pos k5, b5 (by omega) k5, d4]
            · rw [if_neg k5, b6 (by omega), d5]
  · have e : timeSince (t + 90 * Second) t = 90 * Second := by
      rw [timeSince_of_range _ _ (by rw [add_sub_cancel_left]; decide)
        (by rw [add_sub_cancel_left]; decide), add_sub_cancel_left]
    simp only [formatCreatedTime, e]
    decide
  · have e : timeSince (t + 45 * Second) t = 45 * Second := by
      rw [timeSince_of_range _ _ (by rw [add_sub_cancel_left]; decide)
        (by rw [add_sub_cancel_left]; decide), add_sub_cancel_left]
    simp only [formatCreatedTime, e]
    decide

/-- C9 as stated fails. One nanosecond less than 180 days has 179 whole days and
179 / 30 = 5, and the function prints "6 months ago"; one nanosecond less than
730 days has 729 / 365 = 1 and the function prints "2 years ago": the `float64`
value of `D.Hours()` is rounded up to the next whole hour. And for a creation
time more than 292 years before the clock reading `time.Since` returns the
largest `Duration`, not the difference: a difference of 371 years is printed as
"292 years ago". -/
theorem formatCreatedTime_rounds_up :
    formatCreatedTime (180 * (24 * Hour) - 1) 0 = "6 months ago" ∧
    (180 * (24 * Hour) - 1) / (24 * Hour) / 30 = 5 ∧
    relativeTimeSpec (180 * (24 * Hour) - 1) = "5 months ago" ∧
    formatCreatedTime (730 * (24 * Hour) - 1) 0 = "2 years ago" ∧
    (730 * (24 * Hour) - 1) / (24 * Hour) / 365 = 1 ∧
    relativeTimeSpec (730 * (24 * Hour) - 1) = "1 year ago" ∧
    formatCreatedTime (1700000000 * Second) (-10000000000 * Second) = "292 years ago" ∧
    relativeTimeSpec (1700000000 * Second - -10000000000 * Second) = "371 years ago" := by
  set_option maxRecDepth 100000 in decide

/-! ## Filtering: the claims -/

theorem stripNamesLoop_eq (l names : List String) :
    stripNamesLoop l names = names ++ l.map (fun name =>
      match name.data with
      | '/' :: rest => String.mk rest
      | _ => name) := by
  induction l generalizing names with
  | nil => simp [stripNamesLoop]
  | cons n ns ih =>
    simp only [stripNamesLoop, List.map_cons]
    rcases n with ⟨data⟩
    cases data with
    | nil => simp [ih]
    | cons c cs =>
      by_cases hc : c = '/'
      · subst hc
        simp [ih]
      · have : (if (String.mk (c :: cs)).length > 0 ∧
            (String.mk (c :: cs)).data.head? = some '/' then
            stripNamesLoop ns (names ++ [⟨(String.mk (c :: cs)).data.drop 1⟩])
            else stripNamesLoop ns (names ++ [String.mk (c :: cs)])) =
            stripNamesLoop ns (names ++ [String.mk (c :: cs)]) := by
          rw [if_neg]
          simp [hc]
        rw [this, ih]
        have h2 : (match (String.mk (c :: cs)).data with
            | '/' :: rest => String.mk rest
            | _ => String.mk (c :: cs)) = String.mk (c :: cs) := by
          split
          · rename_i rest heq
            simp at heq
            exact absurd heq.1 hc
          · rfl
        simp [h2]

theorem containerName_eq (c : Summary) : containerName c = displayName c := by
  simp [containerName, displayName, stripNamesLoop_eq, strings.Join]

theorem filterLoop_eq {RE : Type} (rx : Regexp RE) (re : RE) (cs filtered : List Summary) :
    filterLoop rx re cs filtered = filtered ++ cs.filter (fun c =>
      rx.MatchString re (displayName c) || rx.MatchString re c.Image) := by
  induction cs generalizing filtered with
  | nil => simp [filterLoop]
  | cons c cs ih =>
    simp only [filterLoop, containerName_eq, List.filter_cons]
    split <;> simp [ih]

/-- C10. For a pattern that compiles (the empty pattern, which the program does
not compile, being one that matches every string), `filterContainers` returns
exactly the records, in their original order, whose displayName or whose image
matches the compiled expression; and for the pattern "" it returns the input
unchanged. -/
theorem filterContainers_spec {RE : Type} (rx : Regexp RE) (containers : List Summary)
    (pattern : String) (re : RE) (hre : rx.Compile pattern = Except.ok re)
    (hempty : pattern = "" → ∀ s, rx.MatchString re s = true) :
    (filterContainers rx containers pattern).1 =
      containers.filter (fun c =>
        rx.MatchString re (displayName c) || rx.MatchString re c.Image) ∧
    filterContainers rx containers "" = (containers, []) := by
  refine ⟨?_, by simp [filterContainers]⟩
  unfold filterContainers
  split
  · rename_i hp
    have := hempty hp
    simp [this]
  · simp [hre, filterLoop_eq]

/-- Witness of C10: the pattern "mongo" keeps the record named "/mongo-db" and
the record whose image is "mongo:7", in their order. -/
theorem filterContainers_spec_witness :
    substringRegexp.Compile "mongo" = Except.ok "mongo" ∧
    (filterContainers substringRegexp
      [namedRecord ["/mongo-db"] "db:1", namedRecord ["/web"] "nginx",
        namedRecord ["/cache"] "mongo:7"] "mongo").1 =
      [namedRecord ["/mongo-db"] "db:1", namedRecord ["/cache"] "mongo:7"] :=
  ⟨rfl,
    ((filterContainers_spec substringRegexp
      [namedRecord ["/mongo-db"] "db:1", namedRecord ["/web"] "nginx",
        namedRecord ["/cache"] "mongo:7"] "mongo" "mongo" rfl
      (fun h => absurd h (by decide))).1).trans (by decide)⟩

/-! ## Filtering with a pattern that does not compile, and display names -/

/-- C11. For a non-empty pattern that fails to compile, `filterContainers`
writes exactly one message to the error stream, which names the pattern and
carries the text of the compilation error, and returns the input unchanged. -/
theorem filterContainers_compile_error {RE : Type} (rx : Regexp RE)
    (containers : List Summary) (pattern err : String) (hne : pattern ≠ "")
    (herr : rx.Compile pattern = Except.error err) :
    (filterContainers rx containers pattern).1 = containers ∧
    (filterContainers rx containers pattern).2 =
      ["Error compiling regex pattern '" ++ pattern ++ "': " ++ err ++ "\n"] ∧
    (filterContainers rx containers pattern).2.length = 1 ∧
    (∀ msg ∈ (filterContainers rx containers pattern).2,
      strings.Contains msg pattern = true) := by
  have h : filterContainers rx containers pattern =
      (containers, ["Error compiling regex pattern '" ++ pattern ++ "': " ++ err ++ "\n"]) := by
    simp only [filterContainers, hne, if_false, herr]
  refine ⟨by rw [h], by rw [h], by rw [h]; rfl, ?_⟩
  intro msg hmsg
  rw [h] at hmsg
  simp only [List.mem_singleton] at hmsg
  subst hmsg
  simp only [strings.Contains, strings.hasInfix_iff, String.data_append]
  exact ⟨"Error compiling regex pattern '".data, "': ".data ++ err.data ++ "\n".data, by
    simp only [List.append_assoc]⟩

/-- Witness of C11: the pattern "(" is rejected, the two records come back
unchanged and one message is written. -/
theorem filterContainers_compile_error_witness :
    strictRegexp.Compile "(" = Except.error "error parsing regexp: missing closing ): (" ∧
    (filterContainers strictRegexp [namedRecord ["/web"] "nginx", namedRecord ["/db"] "mongo"]
      "(").1 = [namedRecord ["/web"] "nginx", namedRecord ["/db"] "mongo"] ∧
    (filterContainers strictRegexp [namedRecord ["/web"] "nginx", namedRecord ["/db"] "mongo"]
      "(").2 =
      ["Error compiling regex pattern '(': error parsing regexp: missing closing ): (\n"] :=
  ⟨rfl,
    (filterContainers_compile_error strictRegexp
      [namedRecord ["/web"] "nginx", namedRecord ["/db"] "mongo"] "("
      "error parsing regexp: missing closing ): (" (by decide) rfl).1,
    ((filterContainers_compile_error strictRegexp
      [namedRecord ["/web"] "nginx", namedRecord ["/db"] "mongo"] "("
      "error parsing regexp: missing closing ): (" (by decide) rfl).2.1).trans (by decide)⟩

theorem intercalate_two_ne_empty (sep a b : String) (rest : List String)
    (hsep : sep ≠ "") : sep.intercalate (a :: b :: rest) ≠ "" := by
  intro h
  obtain ⟨r, hr⟩ := intercalate_go_data sep rest (a ++ sep ++ b)
  have h2 : sep.intercalate (a :: b :: rest) =
      String.intercalate.go (a ++ sep ++ b) sep rest := rfl
  rw [h2] at h
  rw [h] at hr
  simp only [String.data_append, List.append_assoc] at hr
  have h3 : sep.data = [] := by
    have := List.append_eq_nil.mp hr.symm
    exact (List.append_eq_nil.mp this.2).1
  exact hsep (String.ext h3)

/-- The stripped form of a name is empty exactly for the names "" and "/". -/
theorem stripped_eq_empty_iff (name : String) :
    (match name.data with
      | '/' :: rest => String.mk rest
      | _ => name) = "" ↔ name = "" ∨ name = "/" := by
  rcases name with ⟨data⟩
  cases data with
  | nil => simp
  | cons c cs =>
    by_cases hc : c = '/'
    · subst hc
      constructor
      · intro h
        right
        have : cs = [] := by
          have h2 := congrArg String.data h
          simpa using h2
        subst this
        rfl
      · rintro (h | h)
        · exact absurd (congrArg String.data h) (by simp)
        · have h2 := congrArg String.data h
          have : cs = [] := by
            have h3 : ("/" : String).data = ['/'] := rfl
            rw [h3] at h2
            simpa using h2
          subst this
          rfl
    · have hm : (match (String.mk (c :: cs)).data with
          | '/' :: rest => String.mk rest
          | _ => String.mk (c :: cs)) = String.mk (c :: cs) := by
        split
        · rename_i rest heq
          simp at heq
          exact absurd heq.1 hc
        · rfl
      rw [hm]
      constructor
      · intro h
        exact absurd (congrArg String.data h) (by simp)
      · rintro (h | h)
        · exact absurd (congrArg String.data h) (by simp)
        · have h2 := congrArg String.data h
          have h3 : ("/" : String).data = ['/'] := rfl
          rw [h3] at h2
          simp at h2
          exact absurd h2.1 hc

/-- C12. The display name that the filter and the renderer build for a record
(the variable `containerName` of both, equal to the specified displayName) is
the empty string exactly when the names sequence is empty or consists of the
single name "" or "/"; for every other non-empty names sequence it is not empty. -/
theorem containerName_empty_iff (c : Summary) :
    containerName c = displayName c ∧
    (containerName c = "" ↔ c.Names = [] ∨ c.Names = [""] ∨ c.Names = ["/"]) := by
  refine ⟨containerName_eq c, ?_⟩
  rw [containerName_eq]
  unfold displayName
  cases hN : c.Names with
  | nil => simp; rfl
  | cons a rest =>
    cases rest with
    | nil =>
      have h1 : (", " : String).intercalate
          (List.map (fun name => match name.data with
            | '/' :: rest => String.mk rest
            | _ => name) [a]) =
          (match a.data with
            | '/' :: rest => String.mk rest
            | _ => a) := rfl
      rw [h1, stripped_eq_empty_iff]
      simp
    | cons b rest2 =>
      simp only [List.map_cons]
      constructor
      · intro h
        exact absurd h (intercalate_two_ne_empty ", " _ _ _ (by decide))
      · rintro (h | h | h) <;> simp at h

/-- C12 as stated fails: a record whose only name is "/" has a non-empty names
sequence and the empty display name. -/
theorem containerName_empty_of_slash :
    (namedRecord ["/"] "nginx").Names ≠ [] ∧
    containerName (namedRecord ["/"] "nginx") = "" ∧
    displayName (namedRecord ["/"] "nginx") = "" := by
  decide

/-! ## `formatStatus`: the two modes compared -/

theorem beforeFirst_of_not_infix (sep s : List Char) (h : ¬ sep <:+: s) :
    strings.beforeFirst sep s = s := by
  induction s with
  | nil => rfl
  | cons c cs ih =>
    have hp : ¬ sep <+: c :: cs := fun hp => h hp.isInfix
    have hin : ¬ sep <:+: cs := fun hi => h (List.infix_cons_iff.mpr (Or.inr hi))
    simp only [strings.beforeFirst, List.isPrefixOf_iff_prefix, hp, if_false, ih hin]

/-- C19. For every raw status the Compact and the Full result of `formatStatus`
have the same marker, style and category; their texts differ only when the
white-space-trimmed status starts with "Up", contains "healthy" and contains
" (". -/
theorem formatStatus_modes_agree (raw : String) :
    (formatStatusParts raw true).marker = (formatStatusParts raw false).marker ∧
    (formatStatusParts raw true).style = (formatStatusParts raw false).style ∧
    (formatStatusParts raw true).category = (formatStatusParts raw false).category ∧
    ((formatStatusParts raw true).text ≠ (formatStatusParts raw false).text →
      strings.HasPrefix (strings.TrimSpace raw) "Up" = true ∧
      strings.Contains (strings.TrimSpace raw) "healthy" = true ∧
      strings.Contains (strings.TrimSpace raw) " (" = true) := by
  have hm : (formatStatusParts raw true).marker = (formatStatusParts raw false).marker := by
    simp only [formatStatusParts, if_true, Bool.false_eq_true, if_false]
    split_ifs <;> rfl
  refine ⟨hm, ?_, ?_, ?_⟩
  · simp only [formatStatusParts, if_true, Bool.false_eq_true, if_false]
    split_ifs <;> rfl
  · simp only [Styled.category, hm]
  · intro hne
    by_cases hUp : strings.HasPrefix (strings.TrimSpace raw) "Up" = true
    · by_cases hH : strings.Contains (strings.TrimSpace raw) "healthy" = true
      · refine ⟨hUp, hH, ?_⟩
        by_contra hP
        apply hne
        have hnot : ¬ (" " : String).data ++ ['('] <:+: (strings.TrimSpace raw).data := by
          intro hin
          apply hP
          simp only [strings.Contains, strings.hasInfix_iff]
          exact hin
        have hsub : strings.substringBefore (strings.TrimSpace raw) " (" =
            strings.TrimSpace raw := by
          simp only [strings.substringBefore]
          have := beforeFirst_of_not_infix (" (" : String).data (strings.TrimSpace raw).data hnot
          rw [this]
        simp only [formatStatusParts, hUp, hH, if_true, Bool.false_eq_true, if_false,
          strings.Split_head, hsub]
      · exfalso
        apply hne
        simp only [formatStatusParts, hUp, hH, if_true, Bool.false_eq_true, if_false]
    · exfalso
      apply hne
      simp only [formatStatusParts, hUp, if_true, Bool.false_eq_true, if_false]

/-! ## `formatCreatedTime`: the range of the counts -/

/-- The counts of `formatCreatedTime` stay in the range of their bucket. -/
theorem created_ranges (D : Int) (hD : D ≤ maxDuration) :
    (Minute ≤ D → D < Hour → 1 ≤ intMinutes D ∧ intMinutes D ≤ 59) ∧
    (Hour ≤ D → D < 24 * Hour → 1 ≤ intHours D ∧ intHours D ≤ 23) ∧
    (24 * Hour ≤ D → D < 30 * (24 * Hour) → 1 ≤ intDays D ∧ intDays D ≤ 29) ∧
    (30 * (24 * Hour) ≤ D → D < 365 * (24 * Hour) → 1 ≤ intMonths D ∧ intMonths D ≤ 12) ∧
    (365 * (24 * Hour) ≤ D → 1 ≤ intYears D) := by
  have hM : Minute = 60000000000 := by decide
  have hH : Hour = 3600000000000 := by decide
  obtain ⟨c1, c2, c3, c4, -⟩ := created_counts D hD
  refine ⟨?_, ?_, ?_, ?_, ?_⟩
  · intro h1 h2
    rw [c1 h1 h2]
    rw [hM, hH] at *
    omega
  · intro h1 h2
    rw [c2 h1 h2]
    rw [hH] at *
    omega
  · intro h1 h2
    rw [c3 h1 h2]
    rw [hH] at *
    omega
  · intro h1 h2
    obtain ⟨a, b, -, -⟩ := c4 h1
    rw [hH] at *
    omega
  · intro h1
    obtain ⟨-, -, a, -⟩ := c4 (by rw [hH] at *; omega)
    rw [hH] at *
    omega

/-- C20. With `D` the elapsed duration that `time.Since` returns: below one
minute, negative durations included (a creation time after the clock reading),
the result is "Just now"; from one minute on, the count that the function
computes and prints is never 0 and lies in the range of its bucket: 1..59
minutes, 1..23 hours, 2..29 in "N days ago" (one day being "Yesterday"), 1..12
months, at least 1 year. -/
theorem formatCreatedTime_count_ranges (now t : Int) :
    (now - t < Minute → formatCreatedTime now t = "Just now") ∧
    (timeSince now t < Minute → formatCreatedTime now t = "Just now") ∧
    (Minute ≤ timeSince now t → timeSince now t < Hour →
      formatCreatedTime now t = countAgo (intMinutes (timeSince now t)) "minute" ∧
      1 ≤ intMinutes (timeSince now t) ∧ intMinutes (timeSince now t) ≤ 59) ∧
    (Hour ≤ timeSince now t → timeSince now t < 24 * Hour →
      formatCreatedTime now t = countAgo (intHours (timeSince now t)) "hour" ∧
      1 ≤ intHours (timeSince now t) ∧ intHours (timeSince now t) ≤ 23) ∧
    (24 * Hour ≤ timeSince now t → timeSince now t < 30 * (24 * Hour) →
      ((intDays (timeSince now t) = 1 ∧ formatCreatedTime now t = "Yesterday") ∨
       (formatCreatedTime now t = fmtInt (intDays (timeSince now t)) ++ " days ago" ∧
        2 ≤ intDays (timeSince now t) ∧ intDays (timeSince now t) ≤ 29))) ∧
    (30 * (24 * Hour) ≤ timeSince now t → timeSince now t < 365 * (24 * Hour) →
      formatCreatedTime now t = countAgo (intMonths (timeSince now t)) "month" ∧
      1 ≤ intMonths (timeSince now t) ∧ intMonths (timeSince now t) ≤ 12) ∧
    (365 * (24 * Hour) ≤ timeSince now t →
      formatCreatedTime now t = countAgo (intYears (timeSince now t)) "year" ∧
      1 ≤ intYears (timeSince now t)) := by
  obtain ⟨b1, b2, b3, b4, b5, b6⟩ := formatCreatedTime_branches now t
  obtain ⟨r1, r2, r3, r4, r5⟩ := created_ranges (timeSince now t) (timeSince_range now t).2
  refine ⟨fun h => b1 ((timeSince_lt_minute now t).mpr h), b1, ?_, ?_, ?_, ?_, ?_⟩
  · intro h1 h2
    exact ⟨b2 h1 h2, r1 h1 h2⟩
  · intro h1 h2
    exact ⟨b3 h1 h2, r2 h1 h2⟩
  · intro h1 h2
    obtain ⟨a, b⟩ := r3 h1 h2
    by_cases hd : intDays (timeSince now t) = 1
    · left
      refine ⟨hd, ?_⟩
      rw [b4 h1 h2, if_pos hd]
    · right
      refine ⟨?_, by omega, b⟩
      rw [b4 h1 h2, if_neg hd]
  · intro h1 h2
    exact ⟨b5 h1 h2, r4 h1 h2⟩
  · intro h1
    exact ⟨b6 h1, r5 h1⟩

/-! ## `printContainersMultiline`: the claims -/

/-- C13. Applied to an empty list of records, `printContainersMultiline`
prints the one line "No containers found" and nothing else, whatever the
verbosity level, and runs to its end. -/
theorem printContainersMultiline_empty (R : Style → String → String)
    (sortSlice : (ContainerInfo → ContainerInfo → Bool) → List ContainerInfo →
      List ContainerInfo)
    (clock : Nat → Int) (verboseLevel : Int) :
    printContainersMultiline R sortSlice clock [] verboseLevel =
      ⟨[OutLine.text "No containers found"], true⟩ ∧
    (printContainersMultiline R sortSlice clock [] verboseLevel).lines.length = 1 ∧
    OutLine.blank ∉ (printContainersMultiline R sortSlice clock [] verboseLevel).lines ∧
    OutLine.divider ∉ (printContainersMultiline R sortSlice clock [] verboseLevel).lines := by
  have h : printContainersMultiline R sortSlice clock [] verboseLevel =
      ⟨[OutLine.text "No containers found"], true⟩ := by
    simp [printContainersMultiline]
  rw [h]
  simp

theorem printContainerAt_compact (R : Style → String → String) (clock : Nat → Int) (i : Nat)
    (c : ContainerInfo) (out : List OutLine) :
    printContainerAt R clock 0 i c out =
      ⟨out ++ [OutLine.text (compactLine R c.toSummary)], true⟩ := by
  have hp : (c.Ports.length > 0) = ¬ (c.Ports = []) := by
    simp [List.length_pos]
  simp only [printContainerAt, gt_iff_lt, lt_self_iff_false, false_and, if_false, if_true,
    compactLine, containerName_eq]
  congr 3
  by_cases h : c.Ports = []
  · simp [h]
  · have : 0 < c.Ports.length := List.length_pos.mpr h
    simp [h, this]

theorem printContainersLoop_compact (R : Style → String → String) (clock : Nat → Int)
    (i : Nat) (cs : List ContainerInfo) (out : List OutLine) :
    printContainersLoop R clock 0 i cs out =
      ⟨out ++ cs.map (fun c => OutLine.text (compactLine R c.toSummary)), true⟩ := by
  induction cs generalizing i out with
  | nil => simp [printContainersLoop]
  | cons c cs ih =>
    simp only [printContainersLoop, printContainerAt_compact, if_true, ih, List.map_cons,
      List.append_assoc, List.singleton_append]

/-- What the contract of `sort.Slice` gives for the order in which the records
are printed. -/
theorem sortedContainerInfos_order
    (sortSlice : (ContainerInfo → ContainerInfo → Bool) → List ContainerInfo →
      List ContainerInfo)
    (hsort : SortSliceContract sortSlice) (containers : List Summary) :
    (sortedContainerInfos sortSlice containers).Perm (containerInfosOf containers) ∧
    ((sortedContainerInfos sortSlice containers).map ContainerInfo.toSummary).Perm containers ∧
    (sortedContainerInfos sortSlice containers).Pairwise
      (fun a b => a.Created ≥ b.Created) := by
  obtain ⟨hperm, hsorted⟩ := hsort createdAfter (containerInfosOf containers)
    createdAfter_strictWeakOrder
  have hmem : ∀ c ∈ sortedContainerInfos sortSlice containers,
      c.CreatedTime = timeUnix c.Created 0 := by
    intro c hc
    have := hperm.subset hc
    simp only [containerInfosOf, List.mem_map] at this
    obtain ⟨s, _, rfl⟩ := this
    rfl
  refine ⟨hperm, ?_, ?_⟩
  · have := hperm.map ContainerInfo.toSummary
    simpa [sortedContainerInfos, containerInfosOf, Function.comp_def] using this
  · have h2 : (sortedContainerInfos sortSlice containers).Pairwise
        (fun a b => createdAfter b a = false) := hsorted
    refine List.Pairwise.imp_of_mem ?_ h2
    intro a b ha hb hab
    simp only [createdAfter, decide_eq_false_iff_not, hmem a ha, hmem b hb, timeUnix] at hab
    omega

/-- C14. At verbosity 0, for a non-empty list of n records,
`printContainersMultiline` prints n + 2 lines and runs to its end: a blank
line, then for each record, in the newest-first order that `sort.Slice` yields,
the line "<statusCompact> | <displayName> | <image>", with
" | Ports: <portsCompact>" appended exactly when the record has ports, then a
blank line; no divider is printed. -/
theorem printContainersMultiline_compact (R : Style → String → String)
    (sortSlice : (ContainerInfo → ContainerInfo → Bool) → List ContainerInfo →
      List ContainerInfo)
    (clock : Nat → Int) (hsort : SortSliceContract sortSlice) (containers : List Summary)
    (hne : containers ≠ []) :
    printContainersMultiline R sortSlice clock containers 0 =
      ⟨OutLine.blank ::
        ((sortedContainerInfos sortSlice containers).map
          (fun c => OutLine.text (compactLine R c.toSummary)) ++ [OutLine.blank]), true⟩ ∧
    (printContainersMultiline R sortSlice clock containers 0).lines.length =
      containers.length + 2 ∧
    OutLine.divider ∉ (printContainersMultiline R sortSlice clock containers 0).lines ∧
    ((sortedContainerInfos sortSlice containers).map ContainerInfo.toSummary).Perm containers ∧
    (sortedContainerInfos sortSlice containers).Pairwise
      (fun a b => a.Created ≥ b.Created) := by
  obtain ⟨hperm, hperm2, hsorted⟩ := sortedContainerInfos_order sortSlice hsort containers
  have hlen : ¬ containers.length = 0 := by
    simpa [List.length_eq_zero] using hne
  have h : printContainersMultiline R sortSlice clock containers 0 =
      ⟨OutLine.blank ::
        ((sortedContainerInfos sortSlice containers).map
          (fun c => OutLine.text (compactLine R c.toSummary)) ++ [OutLine.blank]), true⟩ := by
    simp only [printContainersMultiline, hlen, if_false, if_true, gt_iff_lt, lt_self_iff_false,
      printContainersLoop_compact, sortedContainerInfos, List.singleton_append,
      List.cons_append, List.nil_append]
  refine ⟨h, ?_, ?_, hperm2, hsorted⟩
  · rw [h]
    have := hperm.length_eq
    simp only [containerInfosOf, List.length_map] at this
    simp [this]
  · rw [h]
    simp

/-- Witness of C14: two records, the newer one without ports, give four lines. -/
theorem printContainersMultiline_compact_witness :
    SortSliceContract reversingSort ∧
    [sampleRecord "aaaaaaaaaaaa" "Up 3 hours (healthy)" 100 [⟨"", 80, 8080, "tcp"⟩] [],
      sampleRecord "b" "Exited (0) 2 days ago" 200 [] []] ≠ [] ∧
    (printContainersMultiline (fun _ s => s) reversingSort (fun _ => 0)
      [sampleRecord "aaaaaaaaaaaa" "Up 3 hours (healthy)" 100 [⟨"", 80, 8080, "tcp"⟩] [],
        sampleRecord "b" "Exited (0) 2 days ago" 200 [] []] 0).lines =
      [OutLine.blank,
        OutLine.text (stoppedMarker ++ "Exited (0) 2 days ago | app | img"),
        OutLine.text (healthyMarker ++ "Up 3 hours | app | img | Ports: 8080:80"),
        OutLine.blank] :=
  ⟨reversingSort_contract, by decide,
    (congrArg Printed.lines (printContainersMultiline_compact (fun _ s => s) reversingSort
      (fun _ => 0) reversingSort_contract
      [sampleRecord "aaaaaaaaaaaa" "Up 3 hours (healthy)" 100 [⟨"", 80, 8080, "tcp"⟩] [],
        sampleRecord "b" "Exited (0) 2 days ago" 200 [] []] (by decide)).1).trans (by decide)⟩

theorem sliceTo_isSome (s : String) (n : Nat) : (sliceTo s n).isSome = true ↔ n ≤ s.utf8ByteSize := by
  unfold sliceTo
  split <;> simp [*]

theorem mountsLoop_eq (R : Style → String → String) (ms : List MountPoint)
    (out : List OutLine) : mountsLoop R ms out = out ++ ms.filterMap (mountLine R) := by
  induction ms generalizing out with
  | nil => simp [mountsLoop]
  | cons m ms ih =>
    simp only [mountsLoop, mountLine]
    by_cases h1 : m.MountType = "volume"
    · simp [h1, ih, List.filterMap_cons, mountLine]
    · by_cases h2 : m.MountType = "bind"
      · simp [h1, h2, ih, List.filterMap_cons, mountLine]
      · simp [h1, h2, ih, List.filterMap_cons, mountLine]

theorem networksLoop_completed (R : Style → String → String)
    (ns : List (String × Option String)) (out : List OutLine) :
    (networksLoop R ns out).completed = ns.all (fun n => n.2.isSome) := by
  induction ns generalizing out with
  | nil => rfl
  | cons n ns ih =>
    rcases n with ⟨a, _ | b⟩
    · simp [networksLoop]
    · simp [networksLoop, ih]

theorem networksLoop_eq (R : Style → String → String) (ns : List (String × Option String))
    (out : List OutLine) (h : ns.all (fun n => n.2.isSome) = true) :
    networksLoop R ns out =
      ⟨out ++ ns.filterMap (fun n => n.2.map (fun ip => networkLine R n.1 ip)), true⟩ := by
  induction ns generalizing out with
  | nil => simp [networksLoop]
  | cons n ns ih =>
    rcases n with ⟨a, _ | b⟩
    · simp at h
    · have h2 : ns.all (fun n => n.2.isSome) = true := by
        simpa using h
      simp only [networksLoop, ih _ h2, List.filterMap_cons, Option.map_some', networkLine,
        List.append_assoc, List.singleton_append]

/-- The part of the body of the loop that comes after the ports line. -/
theorem printContainerAt_cases (R : Style → String → String) (clock : Nat → Int)
    (verboseLevel : Int) (hv : verboseLevel ≠ 0) (i : Nat) (c : ContainerInfo)
    (out : List OutLine) (id12 : String) (hid : sliceTo c.ID 12 = some id12) :
    (¬ 1 < verboseLevel →
      printContainerAt R clock verboseLevel i c out =
        ⟨out ++ (if verboseLevel > 0 ∧ i > 0 then [OutLine.divider] else []) ++
          recordHeadLines R clock i c id12, true⟩) ∧
    (1 < verboseLevel → c.NetworkSettings = none →
      printContainerAt R clock verboseLevel i c out =
        ⟨out ++ (if verboseLevel > 0 ∧ i > 0 then [OutLine.divider] else []) ++
          recordHeadLines R clock i c id12, false⟩) ∧
    (1 < verboseLevel → networksPresent c.toSummary = true →
      printContainerAt R clock verboseLevel i c out =
        ⟨out ++ (if verboseLevel > 0 ∧ i > 0 then [OutLine.divider] else []) ++
          recordHeadLines R clock i c id12 ++
          (networksBlock R c.toSummary ++ volumesBlock R c.toSummary), true⟩) ∧
    (1 < verboseLevel → networksPresent c.toSummary = false →
      (printContainerAt R clock verboseLevel i c out).completed = false) := by
  have hP : (c.Ports.length > 0) ↔ ¬ c.Ports = [] := by
    rw [gt_iff_lt, List.length_pos]
  have hM : (c.Mounts.length > 0) ↔ ¬ c.Mounts = [] := by
    rw [gt_iff_lt, List.length_pos]
  have hL : ∀ l : List (String × Option String), (l.length > 0) ↔ ¬ l = [] := by
    intro l
    rw [gt_iff_lt, List.length_pos]
  refine ⟨?_, ?_, ?_, ?_⟩
  · intro h1
    simp only [printContainerAt, hv, if_false, hid, hP, h1, recordHeadLines]
    congr 1
    by_cases h2 : verboseLevel > 0 ∧ i > 0 <;> by_cases h3 : c.Ports = [] <;> simp [h2, h3]
  · intro h1 hn
    have h1b : verboseLevel > 1 := h1
    simp only [printContainerAt, hv, if_false, hid, hP, h1b, if_true, hn, recordHeadLines]
    congr 1
    by_cases h2 : verboseLevel > 0 ∧ i > 0 <;> by_cases h3 : c.Ports = [] <;> simp [h2, h3]
  · intro h1 hn
    have h1b : verboseLevel > 1 := h1
    unfold networksPresent at hn
    cases hns : c.NetworkSettings with
    | none => rw [hns] at hn; simp at hn
    | some networks =>
      rw [hns] at hn
      simp only at hn
      simp only [printContainerAt, hv, if_false, hid, hP, hM, hL, h1b, if_true, hns,
        networksLoop_eq R networks _ hn, mountsLoop_eq, recordHeadLines, networksBlock,
        volumesBlock]
      by_cases h2 : verboseLevel > 0 ∧ i > 0 <;> by_cases h3 : c.Ports = [] <;>
        by_cases h4 : networks = [] <;> by_cases h5 : c.Mounts = [] <;>
        simp [h2, h3, h4, h5]
  · intro h1 hn
    have h1b : verboseLevel > 1 := h1
    unfold networksPresent at hn
    cases hns : c.NetworkSettings with
    | none =>
      simp only [printContainerAt, hv, if_false, hid, h1b, if_true, hns]
    | some networks =>
      rw [hns] at hn
      simp only at hn
      have hne : networks ≠ [] := by
        rintro rfl
        simp at hn
      have hlen : networks.length > 0 := List.length_pos.mpr hne
      have hc : ∀ o, (networksLoop R networks o).completed = false := fun o => by
        rw [networksLoop_completed, hn]
      simp only [printContainerAt, hv, if_false, hid, h1b, if_true, hns, hlen, hc,
        Bool.false_eq_true]

theorem printContainerAt_completed (R : Style → String → String) (clock : Nat → Int)
    (verboseLevel : Int) (hv : verboseLevel ≠ 0) (i : Nat) (c : ContainerInfo)
    (out : List OutLine) :
    (printContainerAt R clock verboseLevel i c out).completed = true ↔
      (12 ≤ c.ID.utf8ByteSize ∧ (1 < verboseLevel → networksPresent c.toSummary = true)) := by
  rw [← sliceTo_isSome]
  cases hs : sliceTo c.ID 12 with
  | none =>
    simp only [printContainerAt, hv, if_false, hs]
    simp
  | some id12 =>
    obtain ⟨k1, k2, k3, k4⟩ := printContainerAt_cases R clock verboseLevel hv i c out id12 hs
    simp only [Option.isSome_some, true_and]
    by_cases h1 : 1 < verboseLevel
    · by_cases hn : networksPresent c.toSummary = true
      · rw [k3 h1 hn]
        simp [hn]
      · have hn2 : networksPresent c.toSummary = false := by simpa using hn
        rw [k4 h1 hn2]
        simp [h1, hn2]
    · rw [k1 h1]
      simp [h1]

theorem printContainersLoop_completed (R : Style → String → String) (clock : Nat → Int)
    (verboseLevel : Int) (hv : verboseLevel ≠ 0) (i : Nat) (cs : List ContainerInfo)
    (out : List OutLine) :
    (printContainersLoop R clock verboseLevel i cs out).completed = true ↔
      ∀ c ∈ cs, 12 ≤ c.ID.utf8ByteSize ∧
        (1 < verboseLevel → networksPresent c.toSummary = true) := by
  induction cs generalizing i out with
  | nil => simp [printContainersLoop]
  | cons c cs ih =>
    simp only [printContainersLoop, List.mem_cons, forall_eq_or_imp]
    by_cases hc : (printContainerAt R clock verboseLevel i c out).completed = true
    · simp only [hc, if_true, ih]
      rw [printContainerAt_completed R clock verboseLevel hv] at hc
      constructor
      · intro h
        exact ⟨hc, h⟩
      · intro h
        exact h.2
    · have hc2 := hc
      rw [printContainerAt_completed R clock verboseLevel hv] at hc2
      simp only [hc, if_false]
      constructor
      · intro h
        exact absurd h hc
      · intro h
        exact absurd h.1 hc2

theorem ite_completed (p : Printed) (l : List OutLine) :
    (if p.completed = true then (⟨l, true⟩ : Printed) else p).completed = p.completed := by
  cases h : p.completed <;> simp [h]

theorem printContainersMultiline_completed_iff (R : Style → String → String)
    (sortSlice : (ContainerInfo → ContainerInfo → Bool) → List ContainerInfo →
      List ContainerInfo)
    (clock : Nat → Int) (containers : List Summary) (hne : containers ≠ [])
    (verboseLevel : Int) :
    (printContainersMultiline R sortSlice clock containers verboseLevel).completed =
      (printContainersLoop R clock verboseLevel 0 (sortedContainerInfos sortSlice containers)
        (if verboseLevel > 0 then [OutLine.blank, OutLine.divider] else [OutLine.blank])).completed := by
  have hlen : ¬ containers.length = 0 := by
    simpa [List.length_eq_zero] using hne
  simp only [printContainersMultiline, hlen, if_false, ite_self, sortedContainerInfos]
  have e : (if verboseLevel > 0 then [OutLine.blank] ++ [OutLine.divider] else [OutLine.blank]) =
      (if verboseLevel > 0 then [OutLine.blank, OutLine.divider] else [OutLine.blank]) := by
    split <;> rfl
  rw [e]
  split <;> simp only [ite_completed]

/-- C18. For a non-empty list of records, `printContainersMultiline` runs to
its end at verbosity 0 whatever the ids are. At any other verbosity up to 1 it
runs to its end exactly when the id of every record is at least 12 bytes long
(the header takes `c.ID[:12]`). Above verbosity 1 it runs to its end exactly when
moreover the network settings of every record can be read: `NetworkSettings` is
not the nil pointer and neither are the endpoint settings of any network. So
for records whose network settings can be read, it runs to its end at a
verbosity other than 0 exactly when every id is at least 12 bytes long. -/
theorem printContainersMultiline_completes (R : Style → String → String)
    (sortSlice : (ContainerInfo → ContainerInfo → Bool) → List ContainerInfo →
      List ContainerInfo)
    (clock : Nat → Int) (hsort : SortSliceContract sortSlice) (containers : List Summary)
    (hne : containers ≠ []) (verboseLevel : Int) :
    (printContainersMultiline R sortSlice clock containers 0).completed = true ∧
    (verboseLevel ≠ 0 → verboseLevel ≤ 1 →
      ((printContainersMultiline R sortSlice clock containers verboseLevel).completed = true ↔
        ∀ c ∈ containers, 12 ≤ c.ID.utf8ByteSize)) ∧
    (1 < verboseLevel →
      ((printContainersMultiline R sortSlice clock containers verboseLevel).completed = true ↔
        ∀ c ∈ containers, 12 ≤ c.ID.utf8ByteSize ∧ networksPresent c = true)) ∧
    (verboseLevel ≠ 0 → (∀ c ∈ containers, networksPresent c = true) →
      ((printContainersMultiline R sortSlice clock containers verboseLevel).completed = true ↔
        ∀ c ∈ containers, 12 ≤ c.ID.utf8ByteSize)) := by
  have hperm := (sortedContainerInfos_order sortSlice hsort containers).2.1
  have key : verboseLevel ≠ 0 →
      ((printContainersMultiline R sortSlice clock containers verboseLevel).completed = true ↔
        ∀ c ∈ containers, 12 ≤ c.ID.utf8ByteSize ∧
          (1 < verboseLevel → networksPresent c = true)) := by
    intro hv
    rw [printContainersMultiline_completed_iff R sortSlice clock containers hne,
      printContainersLoop_completed R clock verboseLevel hv]
    constructor
    · intro h c hc
      have hc2 : c ∈ (sortedContainerInfos sortSlice containers).map ContainerInfo.toSummary :=
        hperm.symm.subset hc
      obtain ⟨ci, hci, rfl⟩ := List.mem_map.mp hc2
      exact h ci hci
    · intro h ci hci
      exact h ci.toSummary (hperm.subset (List.mem_map.mpr ⟨ci, hci, rfl⟩))
  refine ⟨?_, ?_, ?_, ?_⟩
  · rw [printContainersMultiline_completed_iff R sortSlice clock containers hne,
      printContainersLoop_compact]
  · intro hv h1
    rw [key hv]
    constructor
    · intro h c hc
      exact (h c hc).1
    · intro h c hc
      exact ⟨h c hc, fun h2 => absurd h2 (by omega)⟩
  · intro h1
    rw [key (by omega)]
    constructor
    · intro h c hc
      exact ⟨(h c hc).1, (h c hc).2 h1⟩
    · intro h c hc
      exact ⟨(h c hc).1, fun _ => (h c hc).2⟩
  · intro hv hnet
    rw [key hv]
    constructor
    · intro h c hc
      exact (h c hc).1
    · intro h c hc
      exact ⟨h c hc, fun _ => hnet c hc⟩

/-- Witness of C18: of two records the second has an id of five bytes; the
listing runs to its end at verbosity 0 and panics at verbosity 1. -/
theorem printContainersMultiline_completes_witness :
    SortSliceContract reversingSort ∧
    (printContainersMultiline (fun _ s => s) reversingSort (fun _ => 0)
      [sampleRecord "0123456789abcdef" "Up 1 hour" 100 [] [],
        sampleRecord "short" "Up 1 hour" 200 [] []] 0).completed = true ∧
    (printContainersMultiline (fun _ s => s) reversingSort (fun _ => 0)
      [sampleRecord "0123456789abcdef" "Up 1 hour" 100 [] [],
        sampleRecord "short" "Up 1 hour" 200 [] []] 1).completed = false ∧
    ¬ (∀ c ∈ [sampleRecord "0123456789abcdef" "Up 1 hour" 100 [] [],
        sampleRecord "short" "Up 1 hour" 200 [] []], 12 ≤ c.ID.utf8ByteSize) :=
  ⟨reversingSort_contract,
    (printContainersMultiline_completes (fun _ s => s) reversingSort (fun _ => 0)
      reversingSort_contract
      [sampleRecord "0123456789abcdef" "Up 1 hour" 100 [] [],
        sampleRecord "short" "Up 1 hour" 200 [] []] (by decide) 1).1,
    by decide, by decide⟩

/-- C18 as stated fails: a record with an id of 16 bytes whose
`NetworkSettings` is the nil pointer. Every id is at least 12 bytes long, and at
verbosity 2 the listing does not run to its end: after the three lines of the
record it panics at `c.NetworkSettings.Networks`. At verbosity 1 it runs to its
end. -/
theorem printContainersMultiline_nil_settings :
    (∀ c ∈ [{ sampleRecord "0123456789abcdef" "Up 1 hour" 0 [] [] with
        NetworkSettings := none }], 12 ≤ c.ID.utf8ByteSize) ∧
    (printContainersMultiline (fun _ s => s) reversingSort (fun _ => 0)
      [{ sampleRecord "0123456789abcdef" "Up 1 hour" 0 [] [] with NetworkSettings := none }]
      2).completed = false ∧
    (printContainersMultiline (fun _ s => s) reversingSort (fun _ => 0)
      [{ sampleRecord "0123456789abcdef" "Up 1 hour" 0 [] [] with NetworkSettings := none }]
      2).lines.length = 5 ∧
    (printContainersMultiline (fun _ s => s) reversingSort (fun _ => 0)
      [{ sampleRecord "0123456789abcdef" "Up 1 hour" 0 [] [] with NetworkSettings := none }]
      1).completed = true := by
  decide

theorem printContainersLoop_extends (R : Style → String → String) (clock : Nat → Int)
    (verboseLevel : Int) (hv : 1 < verboseLevel) (i : Nat) (cs : List ContainerInfo)
    (out : List OutLine)
    (hids : ∀ c ∈ cs, 12 ≤ c.ID.utf8ByteSize ∧ networksPresent c.toSummary = true) :
    out <+: (printContainersLoop R clock verboseLevel i cs out).lines := by
  have hv0 : verboseLevel ≠ 0 := by omega
  induction cs generalizing i out with
  | nil => simp [printContainersLoop]
  | cons c cs ih =>
    have hc : 12 ≤ c.ID.utf8ByteSize := (hids c (by simp)).1
    obtain ⟨id12, hid⟩ := Option.isSome_iff_exists.mp ((sliceTo_isSome c.ID 12).mpr hc)
    have hp := (printContainerAt_cases R clock verboseLevel hv0 i c out id12 hid).2.2.1 hv
      (hids c (by simp)).2
    simp only [printContainersLoop, hp, if_true]
    refine List.IsPrefix.trans ?_ (ih (i + 1) _ (fun c' hc' => hids c' (by simp [hc'])))
    simp only [List.append_assoc]
    exact List.prefix_append _ _

/-- In the formats above verbosity 1 the volumes block of every record is part
of what the loop prints. -/
theorem printContainersLoop_volumes (R : Style → String → String) (clock : Nat → Int)
    (verboseLevel : Int) (hv : 1 < verboseLevel) (i : Nat) (cs : List ContainerInfo)
    (out : List OutLine)
    (hids : ∀ c ∈ cs, 12 ≤ c.ID.utf8ByteSize ∧ networksPresent c.toSummary = true) :
    ∀ c ∈ cs, volumesBlock R c.toSummary <:+:
      (printContainersLoop R clock verboseLevel i cs out).lines := by
  have hv0 : verboseLevel ≠ 0 := by omega
  induction cs generalizing i out with
  | nil => intro c hc; simp at hc
  | cons c cs ih =>
    have hc : 12 ≤ c.ID.utf8ByteSize := (hids c (by simp)).1
    obtain ⟨id12, hid⟩ := Option.isSome_iff_exists.mp ((sliceTo_isSome c.ID 12).mpr hc)
    have hp := (printContainerAt_cases R clock verboseLevel hv0 i c out id12 hid).2.2.1 hv
      (hids c (by simp)).2
    have hids2 : ∀ c' ∈ cs, 12 ≤ c'.ID.utf8ByteSize ∧ networksPresent c'.toSummary = true :=
      fun c' hc' => hids c' (by simp [hc'])
    intro c' hc'
    simp only [printContainersLoop, hp, if_true]
    rcases List.mem_cons.mp hc' with rfl | hmem
    · have hpre := printContainersLoop_extends R clock verboseLevel hv (i + 1) cs
        (out ++ (if verboseLevel > 0 ∧ i > 0 then [OutLine.divider] else []) ++
          recordHeadLines R clock i c' id12 ++
          (networksBlock R c'.toSummary ++ volumesBlock R c'.toSummary)) hids2
      refine List.IsInfix.trans ?_ hpre.isInfix
      refine List.IsSuffix.isInfix ?_
      rw [← List.append_assoc]
      exact List.suffix_append _ _
    · exact ih (i + 1) _ hids2 c' hmem

/-- C15. At every verbosity above 1, so at verbosity 2, for records whose ids
are at least 12 bytes long and whose network settings can be read, the listing
runs to its end and the volumes block of every record is part of the output;
the lines of such a record are those of verbosity 1 followed by its networks
block and its volumes block. A record whose `NetworkSettings` is the nil pointer
stops the listing after the lines of verbosity 1, before any volumes block. The
volumes block is empty exactly when the record has no mounts, and otherwise it
is the header "Volumes:" followed, in the order of the mounts, by one line per
mount of kind "volume" (name and destination) or "bind" (source and
destination), a mount of any other kind having no line. -/
theorem printContainersMultiline_volumes (R : Style → String → String)
    (sortSlice : (ContainerInfo → ContainerInfo → Bool) → List ContainerInfo →
      List ContainerInfo)
    (clock : Nat → Int) (hsort : SortSliceContract sortSlice) (containers : List Summary)
    (verboseLevel : Int) (hv : 1 < verboseLevel)
    (hids : ∀ c ∈ containers, 12 ≤ c.ID.utf8ByteSize)
    (hnet : ∀ c ∈ containers, networksPresent c = true) :
    (printContainersMultiline R sortSlice clock containers verboseLevel).completed = true ∧
    (∀ c ∈ containers, volumesBlock R c <:+:
      (printContainersMultiline R sortSlice clock containers verboseLevel).lines) ∧
    (∀ (i : Nat) (c : ContainerInfo) (out : List OutLine), 12 ≤ c.ID.utf8ByteSize →
      networksPresent c.toSummary = true →
      (printContainerAt R clock verboseLevel i c out).lines =
        (printContainerAt R clock 1 i c out).lines ++ networksBlock R c.toSummary ++
          volumesBlock R c.toSummary) ∧
    (∀ (i : Nat) (c : ContainerInfo) (out : List OutLine), 12 ≤ c.ID.utf8ByteSize →
      c.NetworkSettings = none →
      printContainerAt R clock verboseLevel i c out =
        ⟨(printContainerAt R clock 1 i c out).lines, false⟩) ∧
    (∀ c : Summary, (volumesBlock R c = [] ↔ c.Mounts = []) ∧
      (c.Mounts ≠ [] →
        volumesBlock R c = OutLine.text "   Volumes:" :: c.Mounts.filterMap (mountLine R)) ∧
      (volumesBlock R c).length =
        (if c.Mounts = [] then 0
         else 1 + (c.Mounts.filter (fun m =>
           decide (m.MountType = "volume" ∨ m.MountType = "bind"))).length)) := by
  have hv0 : verboseLevel ≠ 0 := by omega
  obtain ⟨hperm, hperm2, _⟩ := sortedContainerInfos_order sortSlice hsort containers
  have hids2 : ∀ ci ∈ sortedContainerInfos sortSlice containers,
      12 ≤ ci.ID.utf8ByteSize ∧ networksPresent ci.toSummary = true := by
    intro ci hci
    have hm := hperm2.subset (List.mem_map.mpr ⟨ci, hci, rfl⟩)
    exact ⟨hids ci.toSummary hm, hnet ci.toSummary hm⟩
  have hids3 : ∀ ci ∈ sortedContainerInfos sortSlice containers,
      12 ≤ ci.ID.utf8ByteSize ∧ (1 < verboseLevel → networksPresent ci.toSummary = true) :=
    fun ci hci => ⟨(hids2 ci hci).1, fun _ => (hids2 ci hci).2⟩
  refine ⟨?_, ?_, ?_, ?_, ?_⟩
  · by_cases hne : containers = []
    · subst hne
      simp [printContainersMultiline]
    · rw [printContainersMultiline_completed_iff R sortSlice clock containers hne,
        printContainersLoop_completed R clock verboseLevel hv0]
      exact hids3
  · intro c hc
    have hne : containers ≠ [] := List.ne_nil_of_mem hc
    have hlen : ¬ containers.length = 0 := by
      simpa [List.length_eq_zero] using hne
    have hcomp := (printContainersLoop_completed R clock verboseLevel hv0 0
      (sortedContainerInfos sortSlice containers) ([OutLine.blank] ++ [OutLine.divider])).mpr hids3
    have hc2 : c ∈ (sortedContainerInfos sortSlice containers).map ContainerInfo.toSummary :=
      hperm2.symm.subset hc
    obtain ⟨ci, hci, rfl⟩ := List.mem_map.mp hc2
    have hin := printContainersLoop_volumes R clock verboseLevel hv 0
      (sortedContainerInfos sortSlice containers) ([OutLine.blank] ++ [OutLine.divider]) hids2
      ci hci
    have hpos : verboseLevel > 0 := by omega
    simp only [sortedContainerInfos] at hcomp hin
    simp only [printContainersMultiline, hlen, if_false, ite_self, hpos, if_true, hcomp]
    refine List.IsInfix.trans hin (List.IsPrefix.isInfix ?_)
    simp only [List.append_assoc]
    exact List.prefix_append _ _
  · intro i c out hc hn
    obtain ⟨id12, hid⟩ := Option.isSome_iff_exists.mp ((sliceTo_isSome c.ID 12).mpr hc)
    rw [(printContainerAt_cases R clock verboseLevel hv0 i c out id12 hid).2.2.1 hv hn,
      (printContainerAt_cases R clock 1 (by decide) i c out id12 hid).1 (by decide)]
    have hpos : verboseLevel > 0 := by omega
    simp [hpos]
  · intro i c out hc hn
    obtain ⟨id12, hid⟩ := Option.isSome_iff_exists.mp ((sliceTo_isSome c.ID 12).mpr hc)
    rw [(printContainerAt_cases R clock verboseLevel hv0 i c out id12 hid).2.1 hv hn,
      (printContainerAt_cases R clock 1 (by decide) i c out id12 hid).1 (by decide)]
    have hpos : verboseLevel > 0 := by omega
    simp [hpos]
  · intro c
    refine ⟨?_, ?_, ?_⟩
    · unfold volumesBlock
      split <;> simp [*]
    · intro h
      simp [volumesBlock, h]
    · unfold volumesBlock
      split
      · rfl
      · simp only [List.length_cons]
        have : ∀ ms : List MountPoint, (ms.filterMap (mountLine R)).length =
            (ms.filter (fun m =>
              decide (m.MountType = "volume" ∨ m.MountType = "bind"))).length := by
          intro ms
          induction ms with
          | nil => rfl
          | cons m ms ih =>
            by_cases h1 : m.MountType = "volume"
            · simp [List.filterMap_cons, mountLine, h1, ih]
            · by_cases h2 : m.MountType = "bind"
              · simp [List.filterMap_cons, mountLine, h1, h2, ih]
              · simp [List.filterMap_cons, mountLine, h1, h2, ih]
        rw [this]; omega

/-- Witness of C15: a record with a volume mount, a tmpfs mount and a bind mount,
at verbosity 2. -/
theorem printContainersMultiline_volumes_witness :
    SortSliceContract reversingSort ∧
    (∀ c ∈ [sampleRecord "0123456789abcdef" "Up 1 hour" 0 []
        [⟨"volume", "data", "/var/lib/docker/volumes/data", "/data"⟩,
          ⟨"tmpfs", "", "", "/tmp"⟩, ⟨"bind", "", "/host", "/mnt"⟩]],
      12 ≤ c.ID.utf8ByteSize) ∧
    (∀ c ∈ [sampleRecord "0123456789abcdef" "Up 1 hour" 0 []
        [⟨"volume", "data", "/var/lib/docker/volumes/data", "/data"⟩,
          ⟨"tmpfs", "", "", "/tmp"⟩, ⟨"bind", "", "/host", "/mnt"⟩]],
      networksPresent c = true) ∧
    volumesBlock (fun _ s => s) (sampleRecord "0123456789abcdef" "Up 1 hour" 0 []
        [⟨"volume", "data", "/var/lib/docker/volumes/data", "/data"⟩,
          ⟨"tmpfs", "", "", "/tmp"⟩, ⟨"bind", "", "/host", "/mnt"⟩]) =
      [OutLine.text "   Volumes:", OutLine.text "      â€¢ data â†’ /data",
        OutLine.text "      â€¢ /host â†’ /mnt"] ∧
    volumesBlock (fun _ s => s) (sampleRecord "0123456789abcdef" "Up 1 hour" 0 []
        [⟨"volume", "data", "/var/lib/docker/volumes/data", "/data"⟩,
          ⟨"tmpfs", "", "", "/tmp"⟩, ⟨"bind", "", "/host", "/mnt"⟩]) <:+:
      (printContainersMultiline (fun _ s => s) reversingSort (fun _ => 0)
        [sampleRecord "0123456789abcdef" "Up 1 hour" 0 []
          [⟨"volume", "data", "/var/lib/docker/volumes/data", "/data"⟩,
            ⟨"tmpfs", "", "", "/tmp"⟩, ⟨"bind", "", "/host", "/mnt"⟩]] 2).lines :=
  ⟨reversingSort_contract, by decide, by decide, by decide,
    (printContainersMultiline_volumes (fun _ s => s) reversingSort (fun _ => 0)
      reversingSort_contract
      [sampleRecord "0123456789abcdef" "Up 1 hour" 0 []
        [⟨"volume", "data", "/var/lib/docker/volumes/data", "/data"⟩,
          ⟨"tmpfs", "", "", "/tmp"⟩, ⟨"bind", "", "/host", "/mnt"⟩]] 2 (by decide)
      (by decide) (by decide)).2.1 _ (List.mem_singleton.mpr rfl)⟩

/-- C15 as stated fails: a record whose only mount is of kind "tmpfs" has a
non-empty mounts collection, and at verbosity 2 its volumes block is the header
alone, followed at once by the closing divider: the mount has no line. -/
theorem printContainersMultiline_volumes_other_kind :
    (sampleRecord "0123456789abcdef" "Up 1 hour" 0 [] [⟨"tmpfs", "", "", "/tmp"⟩]).Mounts.length
      = 1 ∧
    (printContainersMultiline (fun _ s => s) reversingSort (fun _ => 0)
      [sampleRecord "0123456789abcdef" "Up 1 hour" 0 [] [⟨"tmpfs", "", "", "/tmp"⟩]]
      2).completed = true ∧
    (printContainersMultiline (fun _ s => s) reversingSort (fun _ => 0)
      [sampleRecord "0123456789abcdef" "Up 1 hour" 0 [] [⟨"tmpfs", "", "", "/tmp"⟩]]
      2).lines.length = 8 ∧
    (printContainersMultiline (fun _ s => s) reversingSort (fun _ => 0)
      [sampleRecord "0123456789abcdef" "Up 1 hour" 0 [] [⟨"tmpfs", "", "", "/tmp"⟩]]
      2).lines.drop 5 = [OutLine.text "   Volumes:", OutLine.divider, OutLine.blank] := by
  decide

/-! ## Ordering of the records: the claims -/

theorem watchLoop_stopped {RE : Type} (R : Style → String → String) (rx : Regexp RE)
    (sortSlice : (ContainerInfo → ContainerInfo → Bool) → List ContainerInfo →
      List ContainerInfo)
    (filterRegex : String) (verbosityLevel : Int) (inputs : Nat → CycleInput)
    (events : List WatchEvent) (k : Nat) (w : Streams)
    (h : (watchLoop R rx sortSlice filterRegex verbosityLevel inputs k events w).1 =
      WatchState.Stopped) :
    WatchEvent.cancelled ∈ events := by
  induction events generalizing k w with
  | nil => simp [watchLoop] at h
  | cons e es ih =>
    cases e with
    | tick =>
      simp only [watchLoop] at h
      split at h
      · exact List.mem_cons_of_mem _ (ih _ _ h)
      · simp at h
    | cancelled => simp

/-- C16. In a cycle whose fetch fails, `refreshScreen` prints the header of the
cycle and nothing of the listing, writes exactly one message to the error
stream (none from the filter) and runs to its end; the loop then goes on with
the next event, so it is Running when no further event has arrived; the same
holds for the initial cycle; and the loop is Stopped only after a cancellation. -/
theorem watch_fetch_failure {RE : Type} (R : Style → String → String) (rx : Regexp RE)
    (sortSlice : (ContainerInfo → ContainerInfo → Bool) → List ContainerInfo →
      List ContainerInfo)
    (filterRegex : String) (verbosityLevel : Int) (inputs : Nat → CycleInput)
    (k : Nat) (err : String) (herr : (inputs k).listing = Except.error err)
    (es : List WatchEvent) (w : Streams) :
    refreshScreen R rx sortSlice filterRegex verbosityLevel (inputs k) w =
      (⟨w.stdout ++ [OutLine.clearScreen,
          OutLine.text "Watching containers (Press Ctrl+C to exit)",
          OutLine.text (inputs k).timestamp],
        w.stderr ++ ["Error: could not list containers: " ++ err ++ "\n"]⟩, true) ∧
    watchLoop R rx sortSlice filterRegex verbosityLevel inputs k (WatchEvent.tick :: es) w =
      watchLoop R rx sortSlice filterRegex verbosityLevel inputs (k + 1) es
        ⟨w.stdout ++ [OutLine.clearScreen,
          OutLine.text "Watching containers (Press Ctrl+C to exit)",
          OutLine.text (inputs k).timestamp],
        w.stderr ++ ["Error: could not list containers: " ++ err ++ "\n"]⟩ ∧
    (watchLoop R rx sortSlice filterRegex verbosityLevel inputs k [WatchEvent.tick] w).1 =
      WatchState.Running ∧
    (k = 0 → ∀ events,
      watchContainers R rx sortSlice filterRegex verbosityLevel inputs events =
        watchLoop R rx sortSlice filterRegex verbosityLevel inputs 1 events
          ⟨[OutLine.clearScreen, OutLine.text "Watching containers (Press Ctrl+C to exit)",
            OutLine.text (inputs 0).timestamp],
          ["Error: could not list containers: " ++ err ++ "\n"]⟩) ∧
    (∀ events,
      (watchContainers R rx sortSlice filterRegex verbosityLevel inputs events).1 =
        WatchState.Stopped → WatchEvent.cancelled ∈ events) := by
  have hr : refreshScreen R rx sortSlice filterRegex verbosityLevel (inputs k) w =
      (⟨w.stdout ++ [OutLine.clearScreen,
          OutLine.text "Watching containers (Press Ctrl+C to exit)",
          OutLine.text (inputs k).timestamp],
        w.stderr ++ ["Error: could not list containers: " ++ err ++ "\n"]⟩, true) := by
    simp only [refreshScreen, herr, List.append_assoc, List.singleton_append,
      List.cons_append, List.nil_append]
  refine ⟨hr, ?_, ?_, ?_, ?_⟩
  · simp only [watchLoop, hr, if_true]
  · simp only [watchLoop, hr, if_true]
  · intro hk events
    subst hk
    have hr0 : refreshScreen R rx sortSlice filterRegex verbosityLevel (inputs 0) ⟨[], []⟩ =
        (⟨[OutLine.clearScreen, OutLine.text "Watching containers (Press Ctrl+C to exit)",
            OutLine.text (inputs 0).timestamp],
          ["Error: could not list containers: " ++ err ++ "\n"]⟩, true) := by
      simp only [refreshScreen, herr, List.append_assoc, List.singleton_append,
        List.cons_append, List.nil_append]
    simp only [watchContainers, hr0, if_true]
  · intro events h
    simp only [watchContainers] at h
    split at h
    · exact watchLoop_stopped R rx sortSlice filterRegex verbosityLevel inputs events 1 _ h
    · simp at h

/-- Witness of C16: after an initial cycle that lists no container, two cycles
whose fetch fails leave the loop Running with two messages on the error stream,
and a cancellation stops it. -/
theorem watch_fetch_failure_witness :
    (failingInputs 1).listing = Except.error "connection refused" ∧
    (watchLoop (fun _ s => s) substringRegexp reversingSort "" 0 failingInputs 1
      [WatchEvent.tick] ⟨[], []⟩).1 = WatchState.Running ∧
    watchContainers (fun _ s => s) substringRegexp reversingSort "" 0 failingInputs
      [WatchEvent.tick, WatchEvent.tick] =
      (WatchState.Running,
        ⟨[OutLine.clearScreen, OutLine.text "Watching containers (Press Ctrl+C to exit)",
          OutLine.text "2024-01-01 00:00:00", OutLine.text "No containers found",
          OutLine.clearScreen, OutLine.text "Watching containers (Press Ctrl+C to exit)",
          OutLine.text "2024-01-01 00:00:00",
          OutLine.clearScreen, OutLine.text "Watching containers (Press Ctrl+C to exit)",
          OutLine.text "2024-01-01 00:00:00"],
        ["Error: could not list containers: connection refused\n",
          "Error: could not list containers: connection refused\n"]⟩) ∧
    (watchContainers (fun _ s => s) substringRegexp reversingSort "" 0 failingInputs
      [WatchEvent.tick, WatchEvent.cancelled]).1 = WatchState.Stopped :=
  ⟨rfl,
    (watch_fetch_failure (fun _ s => s) substringRegexp reversingSort "" 0 failingInputs 1
      "connection refused" rfl [] ⟨[], []⟩).2.2.1,
    by decide, by decide⟩
end DockerPsa
